import Mathlib

/-!
# libmcount/record.c : the write path of the tracing runtime

A shallow embedding of `libmcount/record.c` (shared-memory segment pool, record
encoder, argument scratch area, trigger reads, frame encoder, trace controller, process
map snapshot) and theorems about it.

Conventions of the embedding

* C pointers into a byte buffer become `Nat` offsets into a `Mem`, a byte-addressed
  memory region (`Nat → Nat`, every cell read modulo 256).  Multi-byte objects are
  little-endian, as on the x86-64 and AArch64 targets of the library.
* `unsigned`, `uint16_t`, `uint32_t`, `uint64_t`, `size_t` are `Nat` with an explicit
  reduction modulo the width wherever the C arithmetic can wrap.
* Constants and enumerators that `record.c` takes from headers that are not part of the
  source under study are fields of `Config`; nothing is assumed about their values
  except what `Config.wf` states.
* Answers of the environment (does `shm_open`/`mmap` succeed, what does a counter read
  return) are explicit arguments.
* The records appended to segments by `record_ret_stack` and `record_trace_data` are
  also kept in a log (`record_state.out`), oldest first; `write_frame_spec` and
  `write_event_spec` relate a log entry to the bytes of the segment.
-/

namespace Uftrace

/-! ## Memory -/

/-- A byte-addressed memory region.  A cell is read modulo 256. -/
abbrev Mem := Nat → Nat

/-- Store the `n` low bytes of `v` at offset `a`, least significant byte first. -/
def stLE (n : Nat) (m : Mem) (a v : Nat) : Mem :=
  fun x => if a ≤ x ∧ x < a + n then (v / 256 ^ (x - a)) % 256 else m x

/-- Load an `n`-byte little-endian unsigned integer from offset `a`. -/
def ldLE : Nat → Mem → Nat → Nat
  | 0, _, _ => 0
  | n + 1, m, a => m a % 256 + 256 * ldLE n m (a + 1)

/-- Store one byte (`char`). -/
def st8 (m : Mem) (a v : Nat) : Mem := stLE 1 m a v
/-- Store a `uint16_t` / `unsigned short`. -/
def st16 (m : Mem) (a v : Nat) : Mem := stLE 2 m a v
/-- Store a `uint32_t` / `unsigned`. -/
def st32 (m : Mem) (a v : Nat) : Mem := stLE 4 m a v
/-- Store a `uint64_t`. -/
def st64 (m : Mem) (a v : Nat) : Mem := stLE 8 m a v
/-- Load one byte. -/
def ld8 (m : Mem) (a : Nat) : Nat := ldLE 1 m a
/-- Load a `uint16_t`. -/
def ld16 (m : Mem) (a : Nat) : Nat := ldLE 2 m a
/-- Load a `uint32_t`. -/
def ld32 (m : Mem) (a : Nat) : Nat := ldLE 4 m a
/-- Load a `uint64_t`. -/
def ld64 (m : Mem) (a : Nat) : Nat := ldLE 8 m a

/-- Byte copy of `n` bytes from the byte source `src` (index 0 first) to offset `d`
of `m`: `memcpy` and `mcount_memcpy1`, whose source and destination never overlap in
`record.c`. -/
def memcpy (m : Mem) (d : Nat) (src : Nat → Nat) (n : Nat) : Mem :=
  fun x => if d ≤ x ∧ x < d + n then src (x - d) % 256 else m x

/-- Modelled from the spec: the `ALIGN(n, a)` helper of `utils/utils.h` is not part of
the source under study; it rounds `n` up to a multiple of `a`. -/
def ALIGN (n a : Nat) : Nat := (n + a - 1) / a * a

/-! ## Constants from headers -/

/-- The read types of the `read_events` table (the `_evt` argument of `TR_ID`). -/
inductive read_evt
  | PROC_STATM
  | PAGE_FAULT
  | PMU_CYCLE
  | PMU_CACHE
  | PMU_BRANCH
  deriving DecidableEq, Repr

/-- Constants and enumerators that `record.c` uses but that are declared in headers
(`mcount.h`, `uftrace.h`, `utils/filter.h`) outside the source under study, together
with the process-wide `shmem_bufsize`. -/
structure Config where
  /-- the global `shmem_bufsize` (an `int`) -/
  shmem_bufsize : Nat
  /-- the value of `sizeof(struct mcount_shmem_buffer)`, the segment header -/
  sizeof_shmem_buffer : Nat
  SHMEM_FL_NEW : Nat
  SHMEM_FL_WRITTEN : Nat
  SHMEM_FL_RECORDING : Nat
  RECORD_MAGIC : Nat
  UFTRACE_ENTRY : Nat
  UFTRACE_EXIT : Nat
  UFTRACE_LOST : Nat
  UFTRACE_EVENT : Nat
  ARGBUF_SIZE : Nat
  MCOUNT_FL_ARGUMENT : Nat
  MCOUNT_FL_RETVAL : Nat
  MCOUNT_FL_WRITTEN : Nat
  MCOUNT_FL_NORECORD : Nat
  MCOUNT_FL_DISABLED : Nat
  TRIGGER_READ : read_evt → Nat
  EVENT_ID_READ : read_evt → Nat
  EVENT_ID_DIFF : read_evt → Nat

/-- What the headers guarantee about the constants: the three segment flags are
non-overlapping bit masks and `RECORDING` is not empty, the record type and the magic
fit their bit fields (2 and 3 bits), the sizes fit their C types, the trigger read
types are non-empty bit masks that do not overlap, the event ids fit 32 bits, ENTRY and
EXIT are distinct record types, and the frame flags `WRITTEN` and `RETVAL` are a
non-empty mask and a 32-bit mask. -/
structure Config.wf (c : Config) : Prop where
  bufsize : c.sizeof_shmem_buffer ≤ c.shmem_bufsize ∧ c.shmem_bufsize < 2 ^ 31
  rec_ne : c.SHMEM_FL_RECORDING ≠ 0
  rec_written : c.SHMEM_FL_WRITTEN &&& c.SHMEM_FL_RECORDING = 0
  magic : c.RECORD_MAGIC < 8
  lost : c.UFTRACE_LOST < 4
  event : c.UFTRACE_EVENT < 4
  argbuf : 4 ≤ c.ARGBUF_SIZE ∧ c.ARGBUF_SIZE < 2 ^ 31
  read_ne : ∀ e, c.TRIGGER_READ e ≠ 0
  read_disjoint : ∀ e e', e ≠ e' → c.TRIGGER_READ e &&& c.TRIGGER_READ e' = 0
  ids : ∀ e, c.EVENT_ID_READ e < 2 ^ 32 ∧ c.EVENT_ID_DIFF e < 2 ^ 32
  ty_entry : c.UFTRACE_ENTRY < 4
  ty_exit : c.UFTRACE_EXIT < 4
  ty_ne : c.UFTRACE_ENTRY ≠ c.UFTRACE_EXIT
  written_ne : c.MCOUNT_FL_WRITTEN ≠ 0
  retval_lt : c.MCOUNT_FL_RETVAL < 2 ^ 32

/-- The `sizeof(struct uftrace_record)`: a 64-bit time and a 64-bit packed word. -/
def sizeof_uftrace_record : Nat := 16

/-- Modelled from the spec: `struct uftrace_record` is declared in `uftrace.h`, which is
not part of the source under study.  Its second 64-bit word is the bit-field group
`type:2, more:1, magic:3, depth:10, addr:48` (bits 0-1, 2, 3-5, 6-15, 16-63); this is
the word obtained by assigning every field. -/
def uftrace_record_word (type more magic depth addr : Nat) : Nat :=
  type % 4 + (more % 2) * 4 + (magic % 8) * 8 + (depth % 1024) * 64 +
    (addr % 2 ^ 48) * 65536

/-! ## The segment pool -/

/-- A shared-memory segment, `struct mcount_shmem_buffer`: the write cursor, the flag
word shared with the consumer, and the payload bytes. -/
structure mcount_shmem_buffer where
  size : Nat
  flag : Nat
  data : Mem

/-- A segment as `allocate_shmem_buffer` returns it: a freshly truncated and mapped
shared-memory object, all zero. -/
def fresh_shmem_buffer : mcount_shmem_buffer :=
  { size := 0, flag := 0, data := fun _ => 0 }

instance : Inhabited mcount_shmem_buffer := ⟨fresh_shmem_buffer⟩

/-- The per-thread pool, `struct mcount_shmem`.  `buffer` is the array of mapped
segments; the C field `nr_buf` is its length (`nr_buf++` goes with
`buffer[idx] = curr_buf`, `nr_buf--` with `munmap`). -/
structure mcount_shmem where
  seqnum : Nat
  losts : Nat
  curr : Int
  max_buf : Nat
  done : Bool
  buffer : List mcount_shmem_buffer

/-- The C field `nr_buf`. -/
def mcount_shmem.nr_buf (s : mcount_shmem) : Nat := s.buffer.length

/-- A control message handed to `uftrace_send_message`; a segment is named by its
index in the pool (the name is formatted from session, tid and that index). -/
inductive uftrace_msg
  | REC_START (idx : Nat)
  | REC_END (idx : Nat)
  | LOST (n : Nat)
  deriving DecidableEq, Repr

/-- An event, `struct mcount_event`; `data` gives the payload bytes by index. -/
structure mcount_event where
  id : Nat
  time : Nat
  dsize : Nat
  idx : Nat
  data : Nat → Nat

/-- The part of `struct mcount_thread_data` that `record.c` works on, with the control
channel made explicit: `sent` lists the messages passed to `uftrace_send_message`,
newest first.  `event` is the queue of asynchronous events (`nr_events` is its
length). -/
structure mcount_thread_data where
  idx : Nat
  shmem : mcount_shmem
  argbuf : Mem
  event : List mcount_event
  sent : List uftrace_msg

/-- Apply `f` to the segment at index `i` (a write through `shmem->buffer[i]`). -/
def update_buffer (l : List mcount_shmem_buffer) (i : Nat)
    (f : mcount_shmem_buffer → mcount_shmem_buffer) : List mcount_shmem_buffer :=
  l.set i (f (l.getD i fresh_shmem_buffer))

/-- Whether a flag word carries `SHMEM_FL_RECORDING`. -/
def recording (c : Config) (b : mcount_shmem_buffer) : Bool :=
  b.flag &&& c.SHMEM_FL_RECORDING != 0

/-- The state `prepare_shmem_buffer` leaves: two fresh segments, the first one current
and flagged `RECORDING | NEW`, its start announced.  (A failed mapping aborts the
process through `pr_err`.) -/
def prepare_shmem_buffer (c : Config) (mtdp : mcount_thread_data) : mcount_thread_data :=
  { mtdp with
    shmem :=
      { mtdp.shmem with
        max_buf := 2
        done := false
        curr := 0
        buffer :=
          [{ fresh_shmem_buffer with flag := c.SHMEM_FL_RECORDING ||| c.SHMEM_FL_NEW },
           fresh_shmem_buffer] }
    sent := uftrace_msg.REC_START 0 :: mtdp.sent }

/-- The "shrink unused buffers" block of `get_new_shmem_buffer`: when at least three
segments follow `idx`, count those whose flag equals `SHMEM_FL_WRITTEN`; if there are
three or more and the last segment is one of them, unmap the last segment. -/
def shrink_unused (c : Config) (idx : Nat) (buffer : List mcount_shmem_buffer) :
    List mcount_shmem_buffer :=
  if idx + 3 ≤ buffer.length then
    let count := (buffer.drop (idx + 1)).countP (fun b => b.flag == c.SHMEM_FL_WRITTEN)
    let b := buffer.getD (buffer.length - 1) fresh_shmem_buffer
    if 3 ≤ count ∧ b.flag = c.SHMEM_FL_WRITTEN then buffer.dropLast else buffer
  else buffer

/-- The LOST pseudo-record written through the bit fields of `struct uftrace_record` at
the start of the segment: `time`, `type`, `magic`, `more` and `addr` are assigned, the
`depth` bits keep what the memory held. -/
def write_lost (c : Config) (losts : Nat) (b : mcount_shmem_buffer) : mcount_shmem_buffer :=
  let old := ld64 b.data 8
  let word := uftrace_record_word c.UFTRACE_LOST 0 c.RECORD_MAGIC (old / 64 % 1024) losts
  { b with data := st64 (st64 b.data 0 0) 8 word, size := sizeof_uftrace_record }

/-- The code of `get_new_shmem_buffer` from the label `reuse:` on, for the segment at
`idx`: flag it `RECORDING`, bump the sequence number, make it current with an empty
cursor, shrink, announce it, and emit the pending LOST record. -/
def reuse (c : Config) (idx : Nat) (mtdp : mcount_thread_data) : mcount_thread_data :=
  let shmem := mtdp.shmem
  let buffer := update_buffer shmem.buffer idx
    (fun b => { b with flag := b.flag ||| c.SHMEM_FL_RECORDING, size := 0 })
  let buffer := shrink_unused c idx buffer
  let sent := uftrace_msg.REC_START idx :: mtdp.sent
  let shmem := { shmem with seqnum := (shmem.seqnum + 1) % 2 ^ 32, curr := idx, buffer := buffer }
  if shmem.losts ≠ 0 then
    { mtdp with
      shmem := { shmem with buffer := update_buffer buffer idx (write_lost c shmem.losts),
                            losts := 0 }
      sent := uftrace_msg.LOST shmem.losts :: sent }
  else
    { mtdp with shmem := shmem, sent := sent }

/-- The index at which the search loop of `get_new_shmem_buffer` stops: the first
segment whose flag does not carry `RECORDING`, or `nr_buf` when there is none. -/
def first_available (c : Config) (buffer : List mcount_shmem_buffer) : Nat :=
  buffer.findIdx (fun b => !recording c b)

/-- The body of `get_new_shmem_buffer`.  `alloc` tells whether both `realloc` and
`allocate_shmem_buffer` succeed when the pool has to grow. -/
def get_new_shmem_buffer (c : Config) (alloc : Bool) (mtdp : mcount_thread_data) :
    mcount_thread_data :=
  let shmem := mtdp.shmem
  let idx := first_available c shmem.buffer
  if idx < shmem.nr_buf then
    reuse c idx mtdp
  else if alloc then
    let buffer := shmem.buffer ++ [fresh_shmem_buffer]
    let max_buf := if shmem.max_buf < buffer.length then buffer.length else shmem.max_buf
    reuse c idx { mtdp with shmem := { shmem with buffer := buffer, max_buf := max_buf } }
  else
    { mtdp with shmem := { shmem with losts := shmem.losts + 1, curr := -1 } }

/-- Announce the end of recording of segment `idx`: `finish_shmem_buffer`. -/
def finish_shmem_buffer (mtdp : mcount_thread_data) (idx : Nat) : mcount_thread_data :=
  { mtdp with sent := uftrace_msg.REC_END idx :: mtdp.sent }

/-- The capacity of a segment: `(size_t)shmem_bufsize - sizeof(**shmem->buffer)`. -/
def maxsize (c : Config) : Nat :=
  (c.shmem_bufsize + 2 ^ 64 - c.sizeof_shmem_buffer % 2 ^ 64) % 2 ^ 64

/-- The condition under which `get_shmem_buffer` leaves the current segment: there is
none, or the request does not fit (`size_t` arithmetic). -/
def needs_new (c : Config) (shmem : mcount_shmem) (size : Nat) : Bool :=
  shmem.curr == -1 ||
    decide (maxsize c <
      ((shmem.buffer.getD shmem.curr.toNat fresh_shmem_buffer).size + size) % 2 ^ 64)

/-- The C function `get_shmem_buffer`.  The result is the state and the segment
returned, as its index in the pool (`none` for `NULL`). -/
def get_shmem_buffer (c : Config) (alloc : Bool) (mtdp : mcount_thread_data) (size : Nat) :
    mcount_thread_data × Option Nat :=
  if needs_new c mtdp.shmem size then
    if mtdp.shmem.done then (mtdp, none)
    else
      let mtdp1 :=
        if -1 < mtdp.shmem.curr then finish_shmem_buffer mtdp mtdp.shmem.curr.toNat else mtdp
      let mtdp2 := get_new_shmem_buffer c alloc mtdp1
      if mtdp2.shmem.curr = -1 then
        ({ mtdp2 with shmem := { mtdp2.shmem with losts := mtdp2.shmem.losts + 1 } }, none)
      else (mtdp2, some mtdp2.shmem.curr.toNat)
  else (mtdp, some mtdp.shmem.curr.toNat)

/-! ## The record encoder -/

/-- The packed word `rec` that `record_ret_stack` builds by hand (the `#else` branch):
`type | RECORD_MAGIC << 3`, plus 4 when argument data follows (`argbuf` is not NULL),
plus `depth << 6`, plus `(uint64_t)child_ip << 16`, in `uint64_t` arithmetic. -/
def ret_stack_rec (c : Config) (type : Nat) (argbuf : Bool) (depth child_ip : Nat) : Nat :=
  let rec0 := (type ||| (c.RECORD_MAGIC <<< 3)) % 2 ^ 64
  let rec1 := (rec0 + (if argbuf then 4 else 0)) % 2 ^ 64
  let rec2 := (rec1 + (depth <<< 6)) % 2 ^ 64
  (rec2 + (child_ip <<< 16) % 2 ^ 64) % 2 ^ 64

/-- The word of the disabled `#if 0` branch of `record_ret_stack`: every bit field of
`struct uftrace_record` assigned, `more = !!argbuf`. -/
def ret_stack_bitfields (c : Config) (type : Nat) (argbuf : Bool) (depth child_ip : Nat) : Nat :=
  uftrace_record_word type (if argbuf then 1 else 0) c.RECORD_MAGIC depth child_ip

/-- The number of bytes `record_event` asks for: the 16-byte header, and for a payload
of `data_size` bytes the 2-byte length and the payload rounded up to 8. -/
def event_size (data_size : Nat) : Nat :=
  16 + (if data_size ≠ 0 then ALIGN (data_size + 2) 8 else 0)

/-- The packed word `rec->data` that `record_event` builds. -/
def event_rec (c : Config) (event : mcount_event) : Nat :=
  let d0 := (c.UFTRACE_EVENT ||| (c.RECORD_MAGIC <<< 3)) % 2 ^ 64
  let d1 := (d0 + (event.id <<< 16) % 2 ^ 64) % 2 ^ 64
  if event.dsize % 2 ^ 16 ≠ 0 then (d1 + 4) % 2 ^ 64 else d1

/-- What `record_event` writes into the segment it got: the header at the cursor, the
length and the payload after it, and the new cursor. -/
def write_event (c : Config) (event : mcount_event) (b : mcount_shmem_buffer) :
    mcount_shmem_buffer :=
  let data_size := event.dsize % 2 ^ 16
  let cur := b.size
  let d := st64 b.data (cur + 8) (event_rec c event)
  let d := st64 d cur event.time
  let d :=
    if data_size ≠ 0 then
      memcpy (st16 d (cur + 16) data_size) (cur + 16 + 2) event.data data_size
    else d
  { b with data := d, size := (b.size + event_size data_size) % 2 ^ 32 }

/-- The C function `record_event`: the state afterwards and the value returned. -/
def record_event (c : Config) (alloc : Bool) (mtdp : mcount_thread_data) (event : mcount_event) :
    mcount_thread_data × Int :=
  match get_shmem_buffer c alloc mtdp (event_size (event.dsize % 2 ^ 16)) with
  | (mtdp1, none) => (mtdp1, if mtdp1.shmem.done then 0 else -1)
  | (mtdp1, some i) =>
    ({ mtdp1 with
       shmem := { mtdp1.shmem with
                  buffer := update_buffer mtdp1.shmem.buffer i (write_event c event) } }, 0)

/-! ## The argument scratch area -/

/-- The constant `ARG_STR_MAX` of `record.c`. -/
def ARG_STR_MAX : Nat := 98

/-- An argument specification (`struct uftrace_arg_spec`) together with what the
architecture collaborator (`mcount_arch_get_arg` / `mcount_arch_get_retval`) extracts for
it into `ctx->val`.  `retval` is `spec->idx == RETVAL_IDX`; `fmt_str` is
`fmt == ARG_FMT_STR || fmt == ARG_FMT_STD_STRING`; `str` is the string pointer the code
ends up with (`ctx->val.p`, or `_M_dataplus` of the `std::string`): `none` for NULL,
otherwise the bytes `str[i]` behind it; `val` gives the bytes of `ctx->val.v`. -/
structure uftrace_arg_spec where
  retval : Bool
  fmt_str : Bool
  size : Nat
  str : Option (Nat → Nat)
  val : Nat → Nat

/-- The loop variables of `save_to_argbuf`: the scratch memory, the write pointer `ptr`
and `total_size`. -/
structure argbuf_state where
  mem : Mem
  ptr : Nat
  total_size : Nat

/-- The value of `max_size = ARGBUF_SIZE - sizeof(size)` (an `unsigned`). -/
def max_size (c : Config) : Nat := (c.ARGBUF_SIZE + 2 ^ 32 - 4) % 2 ^ 32

/-- The string copy loop of `save_to_argbuf`, `for (i = 0; i < max_size - total_size; i++)`,
from index `i` with `fuel` iterations left: copy `str[i]` to `dst[i]`; past `ARG_STR_MAX`
overwrite the last three bytes with dots and terminate; stop at a zero byte, otherwise
count the byte in `len` (an `unsigned short`).  Returns the memory and `len`. -/
def copy_str (str : Nat → Nat) (dst : Nat) : Nat → Nat → Nat → Mem → Mem × Nat
  | 0, _, len, m => (m, len)
  | fuel + 1, i, len, m =>
    let m1 := st8 m (dst + i) (str i)
    let m2 :=
      if ARG_STR_MAX < i then
        st8 (st8 (st8 (st8 m1 (dst + (i - 3)) 46) (dst + (i - 2)) 46) (dst + (i - 1)) 46)
          (dst + i) 0
      else m1
    if ld8 m2 (dst + i) = 0 then (m2, len)
    else copy_str str dst fuel (i + 1) ((len + 1) % 2 ^ 16) m2

/-- The bytes of `null_str`: 'N', 'U', 'L', 'L'. -/
def null_str : Nat → Nat := fun i => [78, 85, 76, 76].getD i 0

/-- The body of the `list_for_each_entry` loop of `save_to_argbuf` for one specification. -/
def save_spec (c : Config) (is_retval : Bool) (st : argbuf_state) (spec : uftrace_arg_spec) :
    argbuf_state :=
  if is_retval != spec.retval then st
  else if spec.fmt_str then
    match spec.str with
    | some str =>
      let room := (max_size c + 2 ^ 32 - st.total_size) % 2 ^ 32
      let r := copy_str str (st.ptr + 2) room 0 0 st.mem
      let size := ALIGN (r.2 + 2) 4
      { mem := st16 r.1 st.ptr r.2, ptr := st.ptr + size,
        total_size := (st.total_size + size) % 2 ^ 32 }
    | none =>
      let len := 4
      let size := ALIGN (len + 2) 4
      { mem := memcpy (memcpy st.mem st.ptr (fun i => (len / 256 ^ i) % 256) 2)
                 (st.ptr + 2) null_str len,
        ptr := st.ptr + size, total_size := (st.total_size + size) % 2 ^ 32 }
  else
    let size := ALIGN spec.size 4
    { mem := memcpy st.mem st.ptr spec.val size, ptr := st.ptr + size,
      total_size := (st.total_size + size) % 2 ^ 32 }

/-- The C function `save_to_argbuf` on the slot at offset `argbuf`: the memory afterwards
and the value returned (`-1U` is `2^32 - 1`). -/
def save_to_argbuf (c : Config) (m : Mem) (argbuf : Nat) (args_spec : List uftrace_arg_spec)
    (is_retval : Bool) : Mem × Nat :=
  let st := args_spec.foldl (save_spec c is_retval)
    { mem := m, ptr := argbuf + 4, total_size := 0 }
  (st.mem, if max_size c < st.total_size then 2 ^ 32 - 1 else st.total_size)

/-- A frame of the call stack, `struct mcount_ret_stack`. -/
structure mcount_ret_stack where
  depth : Nat
  start_time : Nat
  end_time : Nat
  child_ip : Nat
  flags : Nat
  nr_events : Nat
  event_idx : Nat
  pargs : List uftrace_arg_spec

/-- The offset of the scratch slot of frame number `ri` in `mtdp->argbuf`: `get_argbuf`,
with `ri = rstack - mtdp->rstack`. -/
def get_argbuf (c : Config) (ri : Nat) : Nat := ri * c.ARGBUF_SIZE

/-- The C function `save_argument` for frame number `ri`. -/
def save_argument (c : Config) (mtdp : mcount_thread_data) (ri : Nat) (rstack : mcount_ret_stack)
    (args_spec : List uftrace_arg_spec) : mcount_thread_data × mcount_ret_stack :=
  let argbuf := get_argbuf c ri
  let r := save_to_argbuf c mtdp.argbuf argbuf args_spec false
  if r.2 = 2 ^ 32 - 1 then ({ mtdp with argbuf := r.1 }, rstack)
  else
    ({ mtdp with argbuf := st32 r.1 argbuf r.2 },
     { rstack with flags := rstack.flags ||| c.MCOUNT_FL_ARGUMENT })

/-- The C function `save_retval` for frame number `ri` (the specifications are
`rstack->pargs`). -/
def save_retval (c : Config) (mtdp : mcount_thread_data) (ri : Nat) (rstack : mcount_ret_stack) :
    mcount_thread_data × mcount_ret_stack :=
  let argbuf := get_argbuf c ri
  let r := save_to_argbuf c mtdp.argbuf argbuf rstack.pargs true
  if r.2 = 2 ^ 32 - 1 then
    ({ mtdp with argbuf := r.1 },
     { rstack with flags := rstack.flags &&& (c.MCOUNT_FL_RETVAL ^^^ (2 ^ 32 - 1)) })
  else
    ({ mtdp with argbuf := st32 r.1 argbuf r.2 }, rstack)

/-! ## Trigger reads -/

/-- Modelled from the spec: `struct mcount_event` is declared in `mcount.h`, which is not
part of the source under study.  In the scratch area an event is laid out as
`time` (64 bits, offset 0), `id` (32 bits, offset 8), `dsize` (16 bits, offset 12),
`idx` (16 bits, offset 14), then the payload; `EVTBUF_HDR` is the offset of the
payload. -/
def EVTBUF_HDR : Nat := 16

/-- The walk of `get_event_pointer`: from the event at `event`, skip `idx` events, each
`EVTBUF_HDR + event->dsize` bytes long. -/
def get_event_pointer (m : Mem) : Nat → Nat → Nat
  | event, 0 => event
  | event, idx + 1 => get_event_pointer m (event + EVTBUF_HDR + ld16 m (event + 12)) idx

/-- One 64-bit field of a `diff_*` function: `dst->field -= src->field`, the field at byte
offset `off` of both payloads. -/
def diff_field (m : Mem) (dst src off : Nat) : Mem :=
  st64 m (dst + off) ((ld64 m (dst + off) + 2 ^ 64 - ld64 m (src + off)) % 2 ^ 64)

/-- The C function `diff_proc_statm`: fields `vmsize`, `vmrss`, `shared`. -/
def diff_proc_statm (m : Mem) (dst src : Nat) : Mem :=
  diff_field (diff_field (diff_field m dst src 0) dst src 8) dst src 16
/-- The C function `diff_page_fault`: fields `major`, `minor`. -/
def diff_page_fault (m : Mem) (dst src : Nat) : Mem :=
  diff_field (diff_field m dst src 0) dst src 8
/-- The C function `diff_pmu_cycle`: fields `cycles`, `instrs`. -/
def diff_pmu_cycle (m : Mem) (dst src : Nat) : Mem :=
  diff_field (diff_field m dst src 0) dst src 8
/-- The C function `diff_pmu_cache`: fields `refers`, `misses`. -/
def diff_pmu_cache (m : Mem) (dst src : Nat) : Mem :=
  diff_field (diff_field m dst src 0) dst src 8
/-- The C function `diff_pmu_branch`: fields `branch`, `misses`. -/
def diff_pmu_branch (m : Mem) (dst src : Nat) : Mem :=
  diff_field (diff_field m dst src 0) dst src 8

/-- The `diff_*` function that `TR_FN` puts in the table row of a read type. -/
def diff_for : read_evt → Mem → Nat → Nat → Mem
  | read_evt.PROC_STATM => diff_proc_statm
  | read_evt.PAGE_FAULT => diff_page_fault
  | read_evt.PMU_CYCLE => diff_pmu_cycle
  | read_evt.PMU_CACHE => diff_pmu_cache
  | read_evt.PMU_BRANCH => diff_pmu_branch

/-- The number of 64-bit fields of `struct uftrace_<evt>`, as the `diff_*` functions
name them. -/
def nr_fields : read_evt → Nat
  | read_evt.PROC_STATM => 3
  | _ => 2

/-- An entry of the `read_events` table.  `evt` selects the `save_*` function, whose
reading is an input of the model. -/
structure read_event_data where
  type : Nat
  id_read : Nat
  id_diff : Nat
  size : Nat
  evt : read_evt
  diff : Mem → Nat → Nat → Mem

/-- The table row built by `TR_ID`, `TR_DS`, `TR_FN` for one read type; the payload
structure is its 64-bit fields. -/
def read_event_row (c : Config) (e : read_evt) : read_event_data :=
  { type := c.TRIGGER_READ e, id_read := c.EVENT_ID_READ e, id_diff := c.EVENT_ID_DIFF e,
    size := 8 * nr_fields e, evt := e, diff := diff_for e }

/-- The table `read_events`. -/
def read_events (c : Config) : List read_event_data :=
  [read_event_row c read_evt.PROC_STATM,
   read_event_row c read_evt.PAGE_FAULT,
   read_event_row c read_evt.PMU_CYCLE,
   read_event_row c read_evt.PMU_CACHE,
   read_event_row c read_evt.PMU_BRANCH]

/-- Store the `n` 64-bit fields `v 0 .. v (n-1)` of a reading at `dst`: what a successful
`save_*` function leaves in `event->data`. -/
def store_fields (m : Mem) (dst : Nat) (v : Nat → Nat) : Nat → Mem
  | 0 => m
  | n + 1 => st64 (store_fields m dst v n) (dst + 8 * n) (v n)

/-- The search loop of the `diff` block of `save_trigger_read`: `old_event` after looking
at the events number `idx`, `idx + 1`, ... (`n` of them are left), stopping at the first
whose id is that of the new event at `event`.  `old` is the value of `old_event` so
far (`none` for NULL). -/
def find_old_event (m : Mem) (ptr event : Nat) : Nat → Nat → Option Nat → Option Nat
  | 0, _, old => old
  | n + 1, idx, _ =>
    let old_event := get_event_pointer m ptr idx
    if ld32 m (old_event + 8) = ld32 m (event + 8) then some old_event
    else find_old_event m ptr event n (idx + 1) (some old_event)

/-- The loop variables of `save_trigger_read`: the scratch memory, the frame, and the
pointer `ptr` to the newest event. -/
structure trigger_state where
  mem : Mem
  rstack : mcount_ret_stack
  ptr : Nat

/-- The header fields of a new event as `save_trigger_read` assigns them: `id`, `time`,
`dsize`, `idx`. -/
def write_event_header (m : Mem) (event id time dsize tidx : Nat) : Mem :=
  st16 (st16 (st64 (st32 m (event + 8) id) event time) (event + 12) dsize) (event + 14) tidx

/-- The timestamp of a new event: `rstack->end_time ?: rstack->start_time`. -/
def event_time (rstack : mcount_ret_stack) : Nat :=
  if rstack.end_time ≠ 0 then rstack.end_time else rstack.start_time

/-- The `if (diff)` block of `save_trigger_read` for the new event at `event`: search the
`nr_events` events from `ptr` on; if `old_event` is not NULL afterwards, switch the id to
`id_diff` and subtract the payload of `old_event`. -/
def diff_event (red : read_event_data) (m : Mem) (ptr event nr_events : Nat) : Mem :=
  match find_old_event m ptr event nr_events 0 none with
  | some old_event =>
    red.diff (st32 m (event + 8) red.id_diff) (event + EVTBUF_HDR) (old_event + EVTBUF_HDR)
  | none => m

/-- The part of the loop body of `save_trigger_read` that stores an accepted event whose
reading `v` succeeded: header and payload at `event = ptr - evsize`, the `diff` block,
then `ptr = event`, `nr_events++`, `event_idx -= evsize`. -/
def store_event (tidx : Nat) (diff : Bool) (v : Nat → Nat) (st : trigger_state)
    (red : read_event_data) : trigger_state :=
  let evsize := (EVTBUF_HDR + red.size) % 2 ^ 16
  let event := st.ptr - evsize
  let m := write_event_header st.mem event red.id_read (event_time st.rstack) red.size tidx
  let m := store_fields m (event + EVTBUF_HDR) v (nr_fields red.evt)
  let m := if diff then diff_event red m st.ptr event st.rstack.nr_events else m
  { mem := m, ptr := event,
    rstack := { st.rstack with nr_events := st.rstack.nr_events + 1,
                               event_idx := st.rstack.event_idx - evsize } }

/-- The body of the loop of `save_trigger_read` for one table entry.  `tidx` is
`mtdp->idx`, `arg_data` the limit computed before the loop, `sample` the reading each
`save_*` function would return (`none` when it fails, after the header of the event has
been written). -/
def trigger_read_step (tidx arg_data type : Nat) (diff : Bool)
    (sample : read_evt → Option (Nat → Nat)) (st : trigger_state) (red : read_event_data) :
    trigger_state :=
  if type &&& red.type = 0 then st
  else
    let evsize := (EVTBUF_HDR + red.size) % 2 ^ 16
    if st.ptr < arg_data + evsize then st
    else
      match sample red.evt with
      | none =>
        { st with mem := write_event_header st.mem (st.ptr - evsize) red.id_read
                           (event_time st.rstack) red.size tidx }
      | some v => store_event tidx diff v st red

/-- The C function `save_trigger_read` for frame number `ri`. -/
def save_trigger_read (c : Config) (mtdp : mcount_thread_data) (ri : Nat)
    (rstack : mcount_ret_stack) (type : Nat) (diff : Bool)
    (sample : read_evt → Option (Nat → Nat)) : mcount_thread_data × mcount_ret_stack :=
  let ptr := get_argbuf c ri + rstack.event_idx
  let arg_data :=
    if rstack.flags &&& (c.MCOUNT_FL_ARGUMENT ||| c.MCOUNT_FL_RETVAL) ≠ 0 then
      get_argbuf c ri + ld32 mtdp.argbuf ptr
    else get_argbuf c ri
  let st := (read_events c).foldl (trigger_read_step mtdp.idx arg_data type diff sample)
    { mem := mtdp.argbuf, rstack := rstack, ptr := ptr }
  ({ mtdp with argbuf := st.mem }, st.rstack)

/-! ## The frame encoder and the trace controller -/

/-- A record appended to a segment, as the consumer will read it: a frame record (record
type, number of the frame in `mtdp->rstack`, timestamp, packed word, the number of bytes
by which the write cursor moved, the argument bytes copied after the 16-byte header) or
an event record (id, timestamp, payload bytes). -/
inductive written_record
  | frame (type ri time word size : Nat) (args : List Nat)
  | event (id time : Nat) (data : List Nat)
  deriving DecidableEq, Repr

/-- The state that `record_ret_stack` and `record_trace_data` work on: the thread data,
the frames `mtdp->rstack` (frame 0 at the bottom), the answers of the allocator to the
`get_shmem_buffer` calls still to come (`alloc 0` is the next one), and `out`, the records
appended to segments so far, oldest first. -/
structure record_state where
  mtdp : mcount_thread_data
  rstack : List mcount_ret_stack
  alloc : Nat → Bool
  out : List written_record

/-- A zeroed frame, read where an index is outside `mtdp->rstack`. -/
def no_frame : mcount_ret_stack :=
  { depth := 0, start_time := 0, end_time := 0, child_ip := 0, flags := 0, nr_events := 0,
    event_idx := 0, pargs := [] }

/-- The first `n` bytes behind a pointer, as a list. -/
def bytes_at (f : Nat → Nat) (n : Nat) : List Nat :=
  (List.range n).map (fun k => f k % 256)

/-- The event stored at offset `p` of the scratch area, read through a
`struct mcount_event *`. -/
def event_at (m : Mem) (p : Nat) : mcount_event :=
  { time := ld64 m p, id := ld32 m (p + 8), dsize := ld16 m (p + 12), idx := ld16 m (p + 14),
    data := fun k => m (p + EVTBUF_HDR + k) }

/-- The record that `record_event` appends for an event. -/
def event_record (event : mcount_event) : written_record :=
  written_record.event event.id event.time (bytes_at event.data (event.dsize % 2 ^ 16))

/-- A call `record_event(mtdp, event)` inside `record_ret_stack`: it consumes one answer
of the allocator, and the record is appended exactly when `get_shmem_buffer` returns a
segment. -/
def emit_event (c : Config) (s : record_state) (event : mcount_event) : record_state :=
  { s with
    mtdp := (record_event c (s.alloc 0) s.mtdp event).1
    alloc := fun n => s.alloc (n + 1)
    out :=
      if (get_shmem_buffer c (s.alloc 0) s.mtdp (event_size (event.dsize % 2 ^ 16))).2.isSome
      then s.out ++ [event_record event] else s.out }

/-- The loop of `record_ret_stack` over the queue of asynchronous events: while the
first event `q` of the queue is older than `timestamp`, record it and shift the queue. -/
def flush_async (c : Config) (timestamp : Nat) : List mcount_event → record_state → record_state
  | [], s => s
  | event :: rest, s =>
    if event.time < timestamp then
      let s1 := emit_event c s event
      flush_async c timestamp rest { s1 with mtdp := { s1.mtdp with event := rest } }
    else s

/-- The loop of `record_ret_stack` over the events of a frame at EXIT: for
`i = 0 .. nr_events - 1` look at the event number `nr_events - i - 1` counted from the
event cursor `argbuf`, skip it (`continue`) if its time is not `timestamp`, otherwise
record it. -/
def flush_exit_events (c : Config) (argbuf nr_events timestamp : Nat) (s : record_state) :
    record_state :=
  (List.range nr_events).foldl
    (fun s i =>
      let event := get_event_pointer s.mtdp.argbuf argbuf (nr_events - i - 1)
      if ld64 s.mtdp.argbuf event ≠ timestamp then s
      else emit_event c s (event_at s.mtdp.argbuf event))
    s

/-- The loop of `record_ret_stack` over the events of a frame at ENTRY, from iteration
`i` with `n` iterations left: as at EXIT, but the loop stops (`break`) at the first
event whose time is not `timestamp`. -/
def flush_entry_events (c : Config) (argbuf nr_events timestamp : Nat) :
    Nat → Nat → record_state → record_state
  | 0, _, s => s
  | n + 1, i, s =>
    let event := get_event_pointer s.mtdp.argbuf argbuf (nr_events - i - 1)
    if ld64 s.mtdp.argbuf event ≠ timestamp then s
    else flush_entry_events c argbuf nr_events timestamp n (i + 1)
      (emit_event c s (event_at s.mtdp.argbuf event))

/-- What `record_ret_stack` writes into the segment it got: time and packed word at the
cursor, the cursor moved by 16, then (when `argbuf` is not NULL) the `asize` argument
bytes `args` and the cursor moved by `ALIGN(asize, 8)`. -/
def write_frame (timestamp word : Nat) (has_args : Bool) (args : Nat → Nat) (asize : Nat)
    (b : mcount_shmem_buffer) : mcount_shmem_buffer :=
  let d := st64 (st64 b.data b.size timestamp) (b.size + 8) word
  let size := (b.size + sizeof_uftrace_record) % 2 ^ 32
  if has_args then
    { b with data := memcpy d size args asize, size := (size + ALIGN asize 8) % 2 ^ 32 }
  else { b with data := d, size := size }

/-- Whether `record_ret_stack` attaches argument data to a record of this type for a
frame with these flags, that is, whether its variable `argbuf` is not NULL when the
record is built: `ARGUMENT` for ENTRY, `RETVAL` for EXIT (`get_argbuf` returns a pointer
into the scratch area, never NULL). -/
def has_argbuf (c : Config) (type flags : Nat) : Bool :=
  (decide (type = c.UFTRACE_ENTRY) && decide (flags &&& c.MCOUNT_FL_ARGUMENT ≠ 0)) ||
    (decide (type = c.UFTRACE_EXIT) && decide (flags &&& c.MCOUNT_FL_RETVAL ≠ 0))

/-- The part of `record_ret_stack` before the frame record is built: the asynchronous
events older than `timestamp`, then, at EXIT, the events of the frame, whose count is
reset. -/
def flush_before_record (c : Config) (s : record_state) (type ri timestamp : Nat) :
    record_state :=
  let mrstack := s.rstack.getD ri no_frame
  let s1 := flush_async c timestamp s.mtdp.event s
  if type = c.UFTRACE_EXIT ∧ mrstack.nr_events ≠ 0 then
    let s2 := flush_exit_events c (get_argbuf c ri + mrstack.event_idx) mrstack.nr_events
      timestamp s1
    { s2 with rstack := s2.rstack.set ri { mrstack with nr_events := 0 } }
  else s1

/-- The part of `record_ret_stack` that stores the frame record in the segment number
`i` it got (`mtdp1` is the thread data after the acquisition): build the packed word,
store time and word and, when `argbuf` is not NULL, the argument bytes of the slot, and
flag the frame `WRITTEN`. -/
def store_frame_record (c : Config) (s : record_state) (mtdp1 : mcount_thread_data)
    (i type ri timestamp : Nat) : record_state :=
  let mrstack := s.rstack.getD ri no_frame
  let argbuf := has_argbuf c type mrstack.flags
  let asize := if argbuf then ld32 s.mtdp.argbuf (get_argbuf c ri) else 0
  let word := ret_stack_rec c type argbuf mrstack.depth mrstack.child_ip
  let args := fun k => mtdp1.argbuf (get_argbuf c ri + 4 + k)
  { mtdp := { mtdp1 with shmem := { mtdp1.shmem with
                buffer := update_buffer mtdp1.shmem.buffer i
                  (write_frame timestamp word argbuf args asize) } }
    rstack := s.rstack.set ri { mrstack with flags := mrstack.flags ||| c.MCOUNT_FL_WRITTEN }
    alloc := fun n => s.alloc (n + 1)
    out := s.out ++ [written_record.frame type ri timestamp word
             (sizeof_uftrace_record + (if argbuf then ALIGN asize 8 else 0))
             (if argbuf then bytes_at args asize else [])] }

/-- The C function `record_ret_stack` for the frame number `ri`: the state afterwards and
the value returned. -/
def record_ret_stack (c : Config) (s : record_state) (type ri : Nat) : record_state × Int :=
  let mrstack := s.rstack.getD ri no_frame
  let timestamp := if type = c.UFTRACE_EXIT then mrstack.end_time else mrstack.start_time
  let s2 := flush_before_record c s type ri timestamp
  let mrstack2 := s2.rstack.getD ri no_frame
  let argbuf := has_argbuf c type mrstack2.flags
  let asize := if argbuf then ld32 s2.mtdp.argbuf (get_argbuf c ri) else 0
  match get_shmem_buffer c (s2.alloc 0) s2.mtdp (sizeof_uftrace_record + asize) with
  | (mtdp1, none) =>
    ({ s2 with mtdp := mtdp1, alloc := fun n => s2.alloc (n + 1) },
     if mtdp1.shmem.done then 0 else -1)
  | (mtdp1, some i) =>
    let s3 := store_frame_record c s2 mtdp1 i type ri timestamp
    if mrstack2.nr_events ≠ 0 ∧ type = c.UFTRACE_ENTRY then
      (flush_entry_events c (get_argbuf c ri + mrstack2.event_idx) mrstack2.nr_events timestamp
        mrstack2.nr_events 0 s3, 0)
    else (s3, 0)

/-- The value of `SKIP_FLAGS`. -/
def SKIP_FLAGS (c : Config) : Nat := c.MCOUNT_FL_NORECORD ||| c.MCOUNT_FL_DISABLED

/-- The first loop of `record_trace_data`, from `non_written_mrstack = rstack + nw`: step
down while the frame below is not `WRITTEN`, counting the frames that carry no skip
flag.  Returns the final `non_written_mrstack` and `count`.  (The variable `size` of
the C code only feeds a debug message and is left out.) -/
def count_non_written (c : Config) (rstack : List mcount_ret_stack) : Nat → Int → Nat × Int
  | 0, count => (0, count)
  | nw + 1, count =>
    if (rstack.getD nw no_frame).flags &&& c.MCOUNT_FL_WRITTEN ≠ 0 then (nw + 1, count)
    else
      count_non_written c rstack nw
        (if (rstack.getD nw no_frame).flags &&& SKIP_FLAGS c = 0 then count + 1 else count)

/-- The second loop of `record_trace_data`, over the `n` frames from number `i` up to the
one below the current frame: write the ENTRY record of every frame without skip flag; when
that fails, charge `count - 1` to the lost counter and stop.  Returns the state, `count`
and whether the loop stopped on a failure.  (The lost counter is a natural number here;
`count` is at least 1 where a record fails, because the failing frame has been counted by
the first loop, so the sum is not negative.) -/
def flush_ancestors (c : Config) : Nat → Nat → record_state → Int → record_state × Int × Bool
  | 0, _, s, count => (s, count, false)
  | n + 1, i, s, count =>
    if (s.rstack.getD i no_frame).flags &&& SKIP_FLAGS c = 0 then
      let r := record_ret_stack c s c.UFTRACE_ENTRY i
      if r.2 ≠ 0 then
        ({ r.1 with
           mtdp := { r.1.mtdp with shmem := { r.1.mtdp.shmem with
             losts := ((r.1.mtdp.shmem.losts : Int) + (count - 1)).toNat } } }, count, true)
      else flush_ancestors c n (i + 1) r.1 (count - 1)
    else flush_ancestors c n (i + 1) s count

/-- The result of `record_trace_data`: the state, the value returned, and the value of
`count` when `assert(count == 0)` is reached (`none` when the function returns before
it). -/
structure trace_result where
  state : record_state
  ret : Int
  count : Option Int

/-- The end of `record_trace_data` for the current frame `cur`, after the loop over its
ancestors: its ENTRY record if it is neither `WRITTEN` nor skipped, then, if it has an
end time, its return value (when `retval` is not NULL) and its EXIT record. -/
def record_current (c : Config) (s : record_state) (cur : Nat) (retval : Bool) (count : Int) :
    trace_result :=
  let r1 :=
    if (s.rstack.getD cur no_frame).flags &&&
        (c.MCOUNT_FL_WRITTEN ||| SKIP_FLAGS c) = 0 then
      (record_ret_stack c s c.UFTRACE_ENTRY cur, count - 1)
    else ((s, 0), count)
  if r1.1.2 ≠ 0 then { state := r1.1.1, ret := 0, count := none }
  else
    let s1 := r1.1.1
    if (s1.rstack.getD cur no_frame).end_time ≠ 0 then
      let s2 : record_state :=
        if retval then
          let r := save_retval c s1.mtdp cur (s1.rstack.getD cur no_frame)
          { s1 with mtdp := r.1, rstack := s1.rstack.set cur r.2 }
        else s1
      let r2 := record_ret_stack c s2 c.UFTRACE_EXIT cur
      if r2.2 ≠ 0 then { state := r2.1, ret := 0, count := none }
      else { state := r2.1, ret := 0, count := some (r1.2 - 1) }
    else { state := s1, ret := 0, count := some r1.2 }

/-- The C function `record_trace_data`.  `mrstack` is the number of the current frame,
`mrstack - mtdp->rstack` (negative when the pointer is below the array); `retval` tells
whether the `retval` pointer is not NULL. -/
def record_trace_data (c : Config) (s : record_state) (mrstack : Int) (retval : Bool) :
    trace_result :=
  if mrstack < 0 then { state := s, ret := 0, count := none }
  else
    let cur := mrstack.toNat
    let frame := s.rstack.getD cur no_frame
    let p : Option Nat × Int :=
      if frame.flags &&& c.MCOUNT_FL_WRITTEN = 0 then
        let r := count_non_written c s.rstack cur
          (if frame.flags &&& SKIP_FLAGS c = 0 then 1 else 0)
        (some r.1, r.2)
      else (none, 0)
    let count := if frame.end_time ≠ 0 then p.2 + 1 else p.2
    let w :=
      match p.1 with
      | some nw => flush_ancestors c (cur - nw) nw s count
      | none => (s, count, false)
    if w.2.2 then { state := w.1, ret := 0, count := none }
    else record_current c w.1 cur retval w.2.1

/-- The frame records among the records written. -/
def frames_of (out : List written_record) : List written_record :=
  out.filter (fun r => match r with
    | written_record.frame _ _ _ _ _ _ => true
    | written_record.event _ _ _ => false)

/-- The events attached to a frame, in the order in which the loops of `record_ret_stack`
visit them: `i = 0 .. n - 1` selects the event number `n - i - 1` counted from the event
cursor at `base`.  The event at the cursor is the one stored last, so the event stored
first comes first. -/
def attached_events (m : Mem) (base n : Nat) : List mcount_event :=
  (List.range n).map (fun i => event_at m (get_event_pointer m base (n - i - 1)))

/-- The timestamp of a record of a frame: `end_time` for EXIT, `start_time` otherwise. -/
def record_time (c : Config) (type : Nat) (f : mcount_ret_stack) : Nat :=
  if type = c.UFTRACE_EXIT then f.end_time else f.start_time

/-- The log entry of the record that `record_ret_stack` writes for the frame number `ri`
with the fields `f`, the scratch area being `m`. -/
def frame_record (c : Config) (type ri : Nat) (f : mcount_ret_stack) (m : Mem) :
    written_record :=
  written_record.frame type ri (record_time c type f)
    (ret_stack_rec c type (has_argbuf c type f.flags) f.depth f.child_ip)
    (sizeof_uftrace_record +
      (if has_argbuf c type f.flags then ALIGN (ld32 m (get_argbuf c ri)) 8 else 0))
    (if has_argbuf c type f.flags then
      bytes_at (fun k => m (get_argbuf c ri + 4 + k)) (ld32 m (get_argbuf c ri))
     else [])

/-- Modelled from the spec: the ENTRY records expected for the frames number
`i .. i + n - 1` of a stack: one for every frame that carries neither `NORECORD` nor
`DISABLED`, bottom frame first, each with the argument bytes pending in its slot of the
scratch area `m`. -/
def entry_records (c : Config) (rstack : List mcount_ret_stack) (m : Mem) (i n : Nat) :
    List written_record :=
  ((List.range' i n).filter
    (fun j => decide ((rstack.getD j no_frame).flags &&& SKIP_FLAGS c = 0))).map
    (fun j => frame_record c c.UFTRACE_ENTRY j (rstack.getD j no_frame) m)

/-- The current frame and the scratch area at the moment `record_trace_data` writes the
EXIT record of the current frame, whose fields were `f` on entry and whose number is
`cur`: the frame has been flagged `WRITTEN` if its ENTRY record was written by this
call, and `save_retval` has run if `retval` is not NULL. -/
def exit_frame (c : Config) (mtdp : mcount_thread_data) (cur : Nat) (f : mcount_ret_stack)
    (retval : Bool) : mcount_ret_stack × Mem :=
  let f1 :=
    if f.flags &&& (c.MCOUNT_FL_WRITTEN ||| SKIP_FLAGS c) = 0 then
      { f with flags := f.flags ||| c.MCOUNT_FL_WRITTEN }
    else f
  if retval then ((save_retval c mtdp cur f1).2, (save_retval c mtdp cur f1).1.argbuf)
  else (f1, mtdp.argbuf)

/-! ## The snapshot of the process map -/

/-- A line of `/proc/self/maps` as `fgets` returns it, with the result of the `sscanf` of
`record_proc_maps`: `none` when it does not convert four fields (an anonymous mapping),
otherwise start, end, protection and path. -/
structure maps_line where
  text : String
  fields : Option (Nat × Nat × String × String)
  deriving DecidableEq, Repr

/-- A descriptor of the in-memory list, `struct uftrace_mmap` (without its symbol
table, which is left empty). -/
structure uftrace_mmap where
  start : Nat
  «end» : Nat
  len : Nat
  prot : String
  libname : String
  deriving DecidableEq, Repr

/-- The loop variables of `record_proc_maps`: the lines written to the map file so far,
the descriptor list `symtabs->maps` in list order, and `last_libname` (`none` for
NULL). -/
structure maps_state where
  file : List String
  maps : List uftrace_mmap
  last_libname : Option String
  deriving DecidableEq, Repr

/-- The body of the `while (fgets(...))` loop of `record_proc_maps` for one line. -/
def record_proc_maps_line (st : maps_state) (line : maps_line) : maps_state :=
  match line.fields with
  | none => { st with file := st.file ++ [line.text] }
  | some (start, e, prot, path) =>
    if st.last_libname = some path then st
    else
      { file := st.file ++ [line.text]
        maps := st.maps ++ [{ start := start, «end» := e,
                              len := ALIGN (path.utf8ByteSize + 1) 4, prot := prot,
                              libname := path }]
        last_libname := some path }

/-- The C function `record_proc_maps` on the lines of `/proc/self/maps`: the lines written
to the map file and the descriptor list. -/
def record_proc_maps (lines : List maps_line) : maps_state :=
  lines.foldl record_proc_maps_line { file := [], maps := [], last_libname := none }

/-! ## Traces of pool operations -/

/-- What a caller of `get_shmem_buffer` does with the segment it got: move the write
cursor (`curr_buf->size += n`, an `unsigned`). -/
def advance_cursor (mtdp : mcount_thread_data) (i n : Nat) : mcount_thread_data :=
  { mtdp with
    shmem :=
      { mtdp.shmem with
        buffer := update_buffer mtdp.shmem.buffer i
          (fun b => { b with size := (b.size + n) % 2 ^ 32 }) } }

/-- Modelled from the spec: the consumer (`writer_thread` of `cmd-record.c`, not part of
the source under study) drains a segment and then hands it back by storing
`SHMEM_FL_WRITTEN` in its flag word, which clears `RECORDING`. -/
def consumer_drain (c : Config) (mtdp : mcount_thread_data) (i : Nat) : mcount_thread_data :=
  { mtdp with
    shmem :=
      { mtdp.shmem with
        buffer := update_buffer mtdp.shmem.buffer i
          (fun b => { b with flag := c.SHMEM_FL_WRITTEN }) } }

/-- One step of a pool trace: an acquire call that asks for `size` bytes and, when it
gets a segment, writes them (as `record_event` does), or a flag update of the
consumer on segment `i`. -/
inductive pool_step
  | acquire (size : Nat) (alloc : Bool)
  | drain (i : Nat)

/-- Run one step. -/
def run_step (c : Config) (mtdp : mcount_thread_data) : pool_step → mcount_thread_data
  | pool_step.acquire size alloc =>
    match get_shmem_buffer c alloc mtdp size with
    | (mtdp1, some i) => advance_cursor mtdp1 i size
    | (mtdp1, none) => mtdp1
  | pool_step.drain i => consumer_drain c mtdp i

/-- Run a trace, oldest step first. -/
def run_steps (c : Config) (mtdp : mcount_thread_data) (steps : List pool_step) :
    mcount_thread_data :=
  steps.foldl (run_step c) mtdp

/-- Whether the newest control message about segment `i` is `REC_END`: the producer
has announced that the segment is finished and has not started it again since. -/
def finished : List uftrace_msg → Nat → Bool
  | [], _ => false
  | uftrace_msg.REC_START j :: l, i => if j = i then false else finished l i
  | uftrace_msg.REC_END j :: l, i => if j = i then true else finished l i
  | uftrace_msg.LOST _ :: l, i => finished l i

/-- The number of segments of the pool that carry `RECORDING`. -/
def nr_recording (c : Config) (mtdp : mcount_thread_data) : Nat :=
  mtdp.shmem.buffer.countP (recording c)

/-- Every segment that carries `RECORDING` has been announced finished. -/
@[reducible] def all_finished (c : Config) (s : mcount_thread_data) : Prop :=
  ∀ (i : Nat) (b : mcount_shmem_buffer), s.shmem.buffer[i]? = some b → recording c b = true → finished s.sent i = true

/-- Every segment that carries `RECORDING` is the current one or has been announced
finished. -/
@[reducible] def current_or_finished (c : Config) (s : mcount_thread_data) : Prop :=
  ∀ (i : Nat) (b : mcount_shmem_buffer), s.shmem.buffer[i]? = some b → recording c b = true →
    s.shmem.curr = (i : Int) ∨ finished s.sent i = true

/-- A sequence of `get_shmem_buffer` calls, each given by the requested size and the
answer of the allocator; the state after the last call. -/
def acquire_seq (c : Config) (s : mcount_thread_data) (calls : List (Nat × Bool)) :
    mcount_thread_data :=
  calls.foldl (fun s p => (get_shmem_buffer c p.2 s p.1).1) s

/-- Whether every call of the sequence returns NULL. -/
def all_fail (c : Config) : mcount_thread_data → List (Nat × Bool) → Bool
  | _, [] => true
  | s, p :: rest =>
    (get_shmem_buffer c p.2 s p.1).2.isNone && all_fail c (get_shmem_buffer c p.2 s p.1).1 rest

/-- Modelled from the spec: the invariant of the write cursor.  Either there is no active
segment (`curr = -1`), or `curr` is the index of a segment of the pool whose cursor
`size` is a multiple of 8 and does not exceed the capacity of a segment. -/
@[reducible] def cursor_aligned (c : Config) (mtdp : mcount_thread_data) : Prop :=
  mtdp.shmem.curr = -1 ∨
    (0 ≤ mtdp.shmem.curr ∧ mtdp.shmem.curr.toNat < mtdp.shmem.nr_buf ∧
      (mtdp.shmem.buffer.getD mtdp.shmem.curr.toNat fresh_shmem_buffer).size % 8 = 0 ∧
      (mtdp.shmem.buffer.getD mtdp.shmem.curr.toNat fresh_shmem_buffer).size ≤ maxsize c)

/-! ## Concrete inputs -/

/-- A configuration with small segments: a capacity of 32 bytes, two frame records. -/
def small_config : Config :=
  { shmem_bufsize := 48
    sizeof_shmem_buffer := 16
    SHMEM_FL_NEW := 1
    SHMEM_FL_WRITTEN := 2
    SHMEM_FL_RECORDING := 4
    RECORD_MAGIC := 5
    UFTRACE_ENTRY := 0
    UFTRACE_EXIT := 1
    UFTRACE_LOST := 2
    UFTRACE_EVENT := 3
    ARGBUF_SIZE := 1024
    MCOUNT_FL_ARGUMENT := 32
    MCOUNT_FL_RETVAL := 8
    MCOUNT_FL_WRITTEN := 1024
    MCOUNT_FL_NORECORD := 4
    MCOUNT_FL_DISABLED := 256
    TRIGGER_READ := fun e =>
      match e with
      | read_evt.PROC_STATM => 1
      | read_evt.PAGE_FAULT => 2
      | read_evt.PMU_CYCLE => 4
      | read_evt.PMU_CACHE => 8
      | read_evt.PMU_BRANCH => 16
    EVENT_ID_READ := fun e =>
      match e with
      | read_evt.PROC_STATM => 100001
      | read_evt.PAGE_FAULT => 100002
      | read_evt.PMU_CYCLE => 100005
      | read_evt.PMU_CACHE => 100006
      | read_evt.PMU_BRANCH => 100007
    EVENT_ID_DIFF := fun e =>
      match e with
      | read_evt.PROC_STATM => 100003
      | read_evt.PAGE_FAULT => 100004
      | read_evt.PMU_CYCLE => 100008
      | read_evt.PMU_CACHE => 100009
      | read_evt.PMU_BRANCH => 100010 }

/-- A thread that has not traced anything yet: all fields zero, no segment. -/
def new_thread : mcount_thread_data :=
  { idx := 0
    shmem := { seqnum := 0, losts := 0, curr := 0, max_buf := 0, done := false, buffer := [] }
    argbuf := fun _ => 0
    event := []
    sent := [] }

/-- Three records of 16 bytes into segments that hold two: the third one rotates. -/
def three_records : List pool_step :=
  [pool_step.acquire 16 true, pool_step.acquire 16 true, pool_step.acquire 16 true]

/-- An event with a 3-byte payload. -/
def sample_event : mcount_event :=
  { id := 100002, time := 1000, dsize := 3, idx := 0, data := fun k => 65 + k }

/-- A string argument of 100 bytes, all 'a'. -/
def hundred_a : uftrace_arg_spec :=
  { retval := false, fmt_str := true, size := 8, str := some (fun i => if i < 100 then 97 else 0),
    val := fun _ => 0 }

/-- The string argument "hi". -/
def short_str : uftrace_arg_spec :=
  { retval := false, fmt_str := true, size := 8,
    str := some (fun i => [104, 105].getD i 0), val := fun _ => 0 }

/-- The loop state of `save_to_argbuf` on entry, for the slot at offset 0 of a zeroed
scratch area. -/
def empty_slot : argbuf_state := { mem := fun _ => 0, ptr := 4, total_size := 0 }

/-- A string argument of 62 bytes, all 'a'. -/
def sixty_two_a : uftrace_arg_spec :=
  { retval := false, fmt_str := true, size := 8, str := some (fun i => if i < 62 then 97 else 0),
    val := fun _ => 0 }

/-- Ten string arguments whose serialization takes 9 * 104 + 64 = 1000 bytes. -/
def big_args : List uftrace_arg_spec :=
  [hundred_a, hundred_a, hundred_a, hundred_a, hundred_a, hundred_a, hundred_a, hundred_a,
   hundred_a, sixty_two_a]

/-- A frame at function entry: started at time 1000, no flags, no event, the event
cursor at the end of its slot of `small_config` (1024 bytes). -/
def entry_frame : mcount_ret_stack :=
  { depth := 0, start_time := 1000, end_time := 0, child_ip := 4198710, flags := 0,
    nr_events := 0, event_idx := 1024, pargs := [] }

/-- A reading of the memory counters: `vmsize`, `vmrss`, `shared`. -/
def statm_reading : read_evt → Option (Nat → Nat) :=
  fun _ => some (fun k => [7000, 800, 90].getD k 0)

/-- A later reading of the memory counters. -/
def statm_reading_exit : read_evt → Option (Nat → Nat) :=
  fun _ => some (fun k => [7100, 790, 95].getD k 0)

/-- One acquire of 16 bytes whose segment creation fails. -/
def one_failure : List (Nat × Bool) := [(16, false)]

/-- Four records of 16 bytes: both segments of the initial pool are full and both still
carry `RECORDING` (the consumer has not handed the first one back). -/
def four_records : List pool_step :=
  [pool_step.acquire 16 true, pool_step.acquire 16 true, pool_step.acquire 16 true,
   pool_step.acquire 16 true]

/-- The pool after `four_records`. -/
def full_pool : mcount_thread_data :=
  run_steps small_config (prepare_shmem_buffer small_config new_thread) four_records

/-- A configuration with the default segment size of 128 KiB. -/
def wide_config : Config := { small_config with shmem_bufsize := 131072 }

/-- The outermost of three nested calls, filtered out by a `NORECORD` flag. -/
def frame_A : mcount_ret_stack :=
  { depth := 0, start_time := 1000, end_time := 0, child_ip := 4198710, flags := 4,
    nr_events := 0, event_idx := 1024, pargs := [] }

/-- The call made by `frame_A`, filtered out as well. -/
def frame_B : mcount_ret_stack :=
  { depth := 1, start_time := 1010, end_time := 0, child_ip := 4198800, flags := 4,
    nr_events := 0, event_idx := 1024, pargs := [] }

/-- The call made by `frame_B`: not filtered, returned at time 1090. -/
def frame_C : mcount_ret_stack :=
  { depth := 2, start_time := 1020, end_time := 1090, child_ip := 4198900, flags := 0,
    nr_events := 0, event_idx := 1024, pargs := [] }

/-- The state at the exit of `frame_C`: a fresh pool, nothing written yet, every segment
creation succeeds. -/
def skip_state : record_state :=
  { mtdp := prepare_shmem_buffer small_config new_thread
    rstack := [frame_A, frame_B, frame_C]
    alloc := fun _ => true
    out := [] }

/-- The same three calls without any filter flag. -/
def plain_state : record_state :=
  { skip_state with
    rstack := [{ frame_A with flags := 0 }, { frame_B with flags := 0 }, frame_C] }

/-- Two nested unwritten calls, the inner one returned at time 1050, on `full_pool` with
every segment creation failing: three records are expected (two ENTRY, one EXIT). -/
def lost_state : record_state :=
  { mtdp := full_pool
    rstack := [{ frame_A with flags := 0 }, { frame_B with flags := 0, end_time := 1050 }]
    alloc := fun _ => false
    out := [] }

/-- A line of the map file for the text of a program. -/
def prog_text : maps_line :=
  { text := "00400000-00401000 r-xp 00000000 08:01 1234 /usr/bin/prog\n"
    fields := some (4194304, 4198400, "r-xp", "/usr/bin/prog") }

/-- The line that follows it, for the data of the same program. -/
def prog_data : maps_line :=
  { text := "00600000-00601000 rw-p 00001000 08:01 1234 /usr/bin/prog\n"
    fields := some (6291456, 6295552, "rw-p", "/usr/bin/prog") }

/-- An anonymous mapping: the line has no path, so `sscanf` converts three fields. -/
def anon_mapping : maps_line :=
  { text := "7f5a00000000-7f5a00021000 rw-p 00000000 00:00 0 \n", fields := none }

/-- A process map of three lines. -/
def proc_maps_sample : List maps_line := [prog_text, prog_data, anon_mapping]

/-- A trace of the pool in which five segments get filled, the consumer drains them in
the order in which they were finished, and the producer reuses them: at the end segment
3 is current and the segments 0, 1, 2 and 4 are drained. -/
def scattered_trace : List pool_step :=
  [pool_step.acquire 32 true, pool_step.acquire 32 true, pool_step.acquire 32 true,
   pool_step.acquire 32 true, pool_step.acquire 32 true,
   pool_step.drain 0, pool_step.acquire 32 true,
   pool_step.drain 1, pool_step.drain 2, pool_step.drain 3, pool_step.acquire 32 true,
   pool_step.drain 4, pool_step.acquire 32 true, pool_step.acquire 32 true,
   pool_step.drain 0, pool_step.drain 1, pool_step.drain 2]

/-- The pool after `scattered_trace`. -/
def scattered_pool : mcount_thread_data :=
  run_steps small_config (prepare_shmem_buffer small_config new_thread) scattered_trace

/-- A frame started at time 2000. -/
def late_frame : mcount_ret_stack := { entry_frame with start_time := 2000 }

/-- The state at the entry record of `late_frame` with `sample_event` (time 1000) in the
queue of asynchronous events, on `full_pool`; the first segment creation fails, the
later ones succeed. -/
def flaky_state : record_state :=
  { mtdp := { full_pool with event := [sample_event] }
    rstack := [late_frame]
    alloc := fun n => decide (n ≠ 0)
    out := [] }

/-- An asynchronous event later than `late_frame`. -/
def later_event : mcount_event :=
  { id := 100002, time := 3000, dsize := 0, idx := 0, data := fun _ => 0 }

/-- The same queue followed by `later_event`, on a fresh pool, every segment creation
succeeding. -/
def queue_state : record_state :=
  { mtdp := { prepare_shmem_buffer wide_config new_thread with
              event := [sample_event, later_event] }
    rstack := [late_frame]
    alloc := fun _ => true
    out := [] }

/-- The readings at function entry: memory counters 7000, 800, 90; page faults 3, 250;
the PMU cannot be read. -/
def entry_readings : read_evt → Option (Nat → Nat)
  | read_evt.PROC_STATM => some (fun k => [7000, 800, 90].getD k 0)
  | read_evt.PAGE_FAULT => some (fun k => [3, 250].getD k 0)
  | _ => none

/-- The readings at function exit: page faults 4, 260; cycles 5000, instructions 9000. -/
def exit_readings : read_evt → Option (Nat → Nat)
  | read_evt.PROC_STATM => some (fun k => [7100, 790, 95].getD k 0)
  | read_evt.PAGE_FAULT => some (fun k => [4, 260].getD k 0)
  | read_evt.PMU_CYCLE => some (fun k => [5000, 9000].getD k 0)
  | _ => none

/-- The state at the entry record of `entry_frame` after a trigger read of the memory
counters and the page faults (read types 1 and 2) at function entry. -/
def two_reads_state : record_state :=
  { mtdp := (save_trigger_read wide_config (prepare_shmem_buffer wide_config new_thread) 0
      entry_frame 3 false entry_readings).1
    rstack := [(save_trigger_read wide_config (prepare_shmem_buffer wide_config new_thread) 0
      entry_frame 3 false entry_readings).2]
    alloc := fun _ => true
    out := [] }

/-- A frame whose return value is described by a 1024-byte value. -/
def big_retval_frame : mcount_ret_stack :=
  { frame_C with
    pargs := [{ retval := true, fmt_str := false, size := 1024, str := none,
                val := fun _ => 7 }]
    flags := 8 }

/-- The state at the exit of `big_retval_frame`, the only frame, on a fresh pool. -/
def big_retval_state : record_state :=
  { mtdp := prepare_shmem_buffer small_config new_thread
    rstack := [big_retval_frame]
    alloc := fun _ => true
    out := [] }

/-- A frame whose ENTRY record has been written. -/
def written_frame : mcount_ret_stack :=
  { depth := 0, start_time := 900, end_time := 0, child_ip := 4198600, flags := 1024,
    nr_events := 0, event_idx := 1024, pargs := [] }

/-- The three nested calls of `skip_state` (`frame_A` without its filter flag, one level
deeper) above `written_frame`. -/
def mixed_state : record_state :=
  { skip_state with
    rstack := [written_frame, { frame_A with flags := 0 }, frame_B, frame_C] }

/-- The state of `lost_state` after the pool has been closed (`shmem.done` set). -/
def closed_state : record_state :=
  { lost_state with
    mtdp := { full_pool with shmem := { full_pool.shmem with done := true } } }

/-- The scratch area and the frame after the trigger read at the entry of `entry_frame`
for page faults and cycles (read types 2 and 4): the page faults are stored, the PMU
read fails. -/
def after_entry_read : mcount_thread_data × mcount_ret_stack :=
  save_trigger_read small_config new_thread 0 entry_frame 6 false entry_readings

/-- The scratch area and the frame after the same trigger read in diff mode at the exit
of the function (time 1090), where both readings succeed. -/
def after_exit_read : mcount_thread_data × mcount_ret_stack :=
  save_trigger_read small_config after_entry_read.1 0
    { after_entry_read.2 with end_time := 1090 } 6 true exit_readings

/-- The pool `full_pool` after an acquisition that failed: no active segment, two lost
records pending, so the next segment starts with a LOST record. -/
def lost_pool : mcount_thread_data := (get_shmem_buffer small_config false full_pool 16).1

/-! ## Theorems: memory -/

theorem stLE_outside (n : Nat) (m : Mem) (a v x : Nat) (h : x < a ∨ a + n ≤ x) :
    stLE n m a v x = m x := by
  unfold stLE
  rw [if_neg]
  omega

theorem ldLE_congr (n : Nat) (m1 m2 : Mem) (a : Nat)
    (h : ∀ x, a ≤ x → x < a + n → m1 x = m2 x) : ldLE n m1 a = ldLE n m2 a := by
  induction n generalizing a with
  | zero => rfl
  | succ k ih =>
    simp only [ldLE]
    rw [h a (le_refl a) (by omega), ih (a + 1) (fun x h1 h2 => h x (by omega) (by omega))]

theorem ldLE_stLE (n : Nat) (m : Mem) (a v : Nat) :
    ldLE n (stLE n m a v) a = v % 256 ^ n := by
  induction n generalizing a v m with
  | zero => simp [ldLE, Nat.mod_one]
  | succ k ih =>
    simp only [ldLE]
    have h1 : stLE (k + 1) m a v a = v % 256 := by
      unfold stLE
      rw [if_pos (by omega)]
      simp
    have h2 : ldLE k (stLE (k + 1) m a v) (a + 1) = ldLE k (stLE k m (a + 1) (v / 256)) (a + 1) := by
      apply ldLE_congr
      intro x hx1 hx2
      unfold stLE
      rw [if_pos (by omega), if_pos (by omega)]
      have : x - a = (x - (a + 1)) + 1 := by omega
      rw [this, pow_succ, Nat.div_div_eq_div_mul, mul_comm]
    rw [h1, h2, ih, pow_succ', Nat.mod_mul, Nat.mod_mod]

theorem ldLE_lt (n : Nat) (m : Mem) (a : Nat) : ldLE n m a < 256 ^ n := by
  induction n generalizing a with
  | zero => simp [ldLE]
  | succ k ih =>
    simp only [ldLE]
    have := ih (a + 1)
    have h2 : m a % 256 < 256 := Nat.mod_lt _ (by norm_num)
    rw [pow_succ]
    omega

theorem ldLE_stLE_disjoint (n k : Nat) (m : Mem) (a b v : Nat) (h : a + n ≤ b ∨ b + k ≤ a) :
    ldLE n (stLE k m b v) a = ldLE n m a := by
  apply ldLE_congr
  intro x h1 h2
  apply stLE_outside
  omega

theorem ld64_st64 (m : Mem) (a v : Nat) : ld64 (st64 m a v) a = v % 2 ^ 64 := by
  unfold ld64 st64
  rw [ldLE_stLE]
  norm_num

theorem ld32_st32 (m : Mem) (a v : Nat) : ld32 (st32 m a v) a = v % 2 ^ 32 := by
  unfold ld32 st32
  rw [ldLE_stLE]
  norm_num

theorem ld16_st16 (m : Mem) (a v : Nat) : ld16 (st16 m a v) a = v % 2 ^ 16 := by
  unfold ld16 st16
  rw [ldLE_stLE]
  norm_num

theorem ld64_st64_disjoint (m : Mem) (a b v : Nat) (h : a + 8 ≤ b ∨ b + 8 ≤ a) :
    ld64 (st64 m b v) a = ld64 m a := by
  unfold ld64 st64
  exact ldLE_stLE_disjoint 8 8 m a b v h

/-! ## Theorems: the segment pool -/

theorem update_buffer_getElem? (l : List mcount_shmem_buffer) (i j : Nat)
    (f : mcount_shmem_buffer → mcount_shmem_buffer) :
    (update_buffer l i f)[j]? = if i = j then (l[j]?).map f else l[j]? := by
  unfold update_buffer
  rw [List.getElem?_set]
  by_cases hij : i = j
  · subst hij
    by_cases hi : i < l.length
    · simp [hi, List.getElem?_eq_getElem]
    · have : l[i]? = none := List.getElem?_eq_none (by omega)
      simp [hi, this]
  · simp [hij]

theorem update_buffer_length (l : List mcount_shmem_buffer) (i : Nat)
    (f : mcount_shmem_buffer → mcount_shmem_buffer) :
    (update_buffer l i f).length = l.length := by
  simp [update_buffer]

theorem shrink_unused_getElem? (c : Config) (idx : Nat) (l : List mcount_shmem_buffer)
    (j : Nat) (b : mcount_shmem_buffer) (h : (shrink_unused c idx l)[j]? = some b) :
    l[j]? = some b := by
  unfold shrink_unused at h
  split at h
  · simp only at h
    split at h
    · rw [List.getElem?_dropLast] at h
      split at h
      · exact h
      · cases h
    · exact h
  · exact h

theorem shrink_unused_cases (c : Config) (idx : Nat) (l : List mcount_shmem_buffer) :
    shrink_unused c idx l = l ∨ (idx + 3 ≤ l.length ∧ shrink_unused c idx l = l.dropLast) := by
  unfold shrink_unused
  split
  · simp only
    split
    · right; exact ⟨by assumption, rfl⟩
    · left; rfl
  · left; rfl

theorem reuse_curr (c : Config) (idx : Nat) (mtdp : mcount_thread_data) :
    (reuse c idx mtdp).shmem.curr = idx := by
  unfold reuse
  simp only
  split <;> rfl

theorem reuse_done (c : Config) (idx : Nat) (mtdp : mcount_thread_data) :
    (reuse c idx mtdp).shmem.done = mtdp.shmem.done := by
  unfold reuse
  simp only
  split <;> rfl

theorem reuse_losts (c : Config) (idx : Nat) (mtdp : mcount_thread_data) :
    (reuse c idx mtdp).shmem.losts = 0 := by
  unfold reuse
  simp only
  split
  · rfl
  · simp only
    omega

theorem reuse_buffer_getElem? (c : Config) (idx : Nat) (mtdp : mcount_thread_data)
    (i : Nat) (b' : mcount_shmem_buffer)
    (h : (reuse c idx mtdp).shmem.buffer[i]? = some b') :
    ∃ b, mtdp.shmem.buffer[i]? = some b ∧
      b'.flag = if i = idx then b.flag ||| c.SHMEM_FL_RECORDING else b.flag := by
  unfold reuse at h
  simp only at h
  have key : ∀ b1, (shrink_unused c idx (update_buffer mtdp.shmem.buffer idx
      (fun b => { b with flag := b.flag ||| c.SHMEM_FL_RECORDING, size := 0 })))[i]? = some b1 →
      ∃ b, mtdp.shmem.buffer[i]? = some b ∧
        b1.flag = if i = idx then b.flag ||| c.SHMEM_FL_RECORDING else b.flag := by
    intro b1 h1
    have h2 := shrink_unused_getElem? c idx _ i b1 h1
    rw [update_buffer_getElem?] at h2
    by_cases hi : i = idx
    · subst hi
      simp only [if_true] at h2
      cases hb : mtdp.shmem.buffer[i]? with
      | none => rw [hb] at h2; cases h2
      | some b =>
        rw [hb] at h2
        simp only [Option.map_some', Option.some.injEq] at h2
        exact ⟨b, rfl, by rw [← h2]; simp⟩
    · have hne : ¬ idx = i := fun e => hi e.symm
      simp only [hne, if_false] at h2
      exact ⟨b1, h2, by simp [hi]⟩
  split at h
  · simp only at h
    rw [update_buffer_getElem?] at h
    split at h
    · cases hb : (shrink_unused c idx (update_buffer mtdp.shmem.buffer idx
          (fun b => { b with flag := b.flag ||| c.SHMEM_FL_RECORDING, size := 0 })))[i]? with
      | none => rw [hb] at h; cases h
      | some b1 =>
        rw [hb] at h
        simp only [Option.map_some', Option.some.injEq] at h
        obtain ⟨b, hb1, hb2⟩ := key b1 hb
        refine ⟨b, hb1, ?_⟩
        rw [← h, ← hb2]
        rfl
    · exact key b' h
  · exact key b' h

theorem reuse_sent_finished (c : Config) (idx : Nat) (mtdp : mcount_thread_data) (i : Nat)
    (hi : i ≠ idx) :
    finished (reuse c idx mtdp).sent i = finished mtdp.sent i := by
  unfold reuse
  simp only
  have hne : ¬ idx = i := fun e => hi e.symm
  split <;> simp [finished, hne]

theorem recording_set (c : Config) (hc : c.wf) (b' : mcount_shmem_buffer) (f : Nat)
    (h : b'.flag = f ||| c.SHMEM_FL_RECORDING) : recording c b' = true := by
  unfold recording
  rw [h]
  simp only [bne_iff_ne, ne_eq]
  intro h0
  apply hc.rec_ne
  apply Nat.eq_of_testBit_eq
  intro k
  have := congrArg (fun n => n.testBit k) h0
  simp only [Nat.testBit_and, Nat.testBit_or, Nat.zero_testBit] at this ⊢
  revert this
  cases (f.testBit k) <;> cases (c.SHMEM_FL_RECORDING.testBit k) <;> simp

theorem recording_fresh (c : Config) : recording c fresh_shmem_buffer = false := by
  simp [recording, fresh_shmem_buffer]

theorem recording_flag_eq (c : Config) (b b' : mcount_shmem_buffer) (h : b'.flag = b.flag) :
    recording c b' = recording c b := by
  unfold recording
  rw [h]

theorem get_new_shmem_buffer_inv (c : Config) (alloc : Bool) (s : mcount_thread_data)
    (h : all_finished c s) : current_or_finished c (get_new_shmem_buffer c alloc s) := by
  have hreuse : ∀ (idx : Nat) (t : mcount_thread_data), all_finished c t →
      current_or_finished c (reuse c idx t) := by
    intro idx t ht i b' hb' hrec
    obtain ⟨b, hb, hflag⟩ := reuse_buffer_getElem? c idx t i b' hb'
    by_cases hi : i = idx
    · left
      rw [reuse_curr, hi]
    · right
      rw [reuse_sent_finished c idx t i hi]
      rw [if_neg hi] at hflag
      exact ht i b hb (by rw [← recording_flag_eq c b b' hflag]; exact hrec)
  unfold get_new_shmem_buffer
  simp only
  split
  · exact hreuse _ _ h
  · split
    · apply hreuse
      intro i b hb hrec
      simp only at hb ⊢
      by_cases hi : i < s.shmem.buffer.length
      · rw [List.getElem?_append_left hi] at hb
        exact h i b hb hrec
      · rw [List.getElem?_append_right (by omega)] at hb
        have hb2 : b = fresh_shmem_buffer := by
          cases hk : i - s.shmem.buffer.length with
          | zero => rw [hk] at hb; simpa using hb.symm
          | succ k => rw [hk] at hb; simp at hb
        rw [hb2, recording_fresh] at hrec
        cases hrec
    · intro i b hb hrec
      right
      exact h i b hb hrec

theorem finish_all_finished (c : Config) (s : mcount_thread_data)
    (h : current_or_finished c s) :
    all_finished c
      (if -1 < s.shmem.curr then finish_shmem_buffer s s.shmem.curr.toNat else s) := by
  intro i b hb hrec
  by_cases hcur : -1 < s.shmem.curr
  · rw [if_pos hcur] at hb ⊢
    simp only [finish_shmem_buffer, finished] at hb ⊢
    rcases h i b hb hrec with h2 | h2
    · have : s.shmem.curr.toNat = i := by omega
      simp [this]
    · by_cases h3 : s.shmem.curr.toNat = i
      · simp [h3]
      · simp [h3, h2]
  · rw [if_neg hcur] at hb ⊢
    rcases h i b hb hrec with h2 | h2
    · omega
    · exact h2

theorem get_shmem_buffer_inv (c : Config) (alloc : Bool) (s : mcount_thread_data) (size : Nat)
    (h : current_or_finished c s) :
    current_or_finished c (get_shmem_buffer c alloc s size).1 := by
  have h2 := get_new_shmem_buffer_inv c alloc _ (finish_all_finished c s h)
  unfold get_shmem_buffer
  by_cases hn : needs_new c s.shmem size = true
  · rw [if_pos hn]
    by_cases hd : s.shmem.done = true
    · rw [if_pos hd]
      exact h
    · rw [if_neg hd]
      simp only
      generalize (if -1 < s.shmem.curr then finish_shmem_buffer s s.shmem.curr.toNat else s)
        = s1 at h2 ⊢
      by_cases hc1 : (get_new_shmem_buffer c alloc s1).shmem.curr = -1
      · rw [if_pos hc1]
        intro i b hb hrec
        exact h2 i b hb hrec
      · rw [if_neg hc1]
        exact h2
  · rw [if_neg hn]
    exact h

theorem run_step_inv (c : Config) (hc : c.wf) (s : mcount_thread_data) (st : pool_step)
    (h : current_or_finished c s) : current_or_finished c (run_step c s st) := by
  cases st with
  | acquire size alloc =>
    have h1 := get_shmem_buffer_inv c alloc s size h
    simp only [run_step]
    split
    · rename_i mtdp1 i heq
      rw [heq] at h1
      intro j b hb hrec
      simp only [advance_cursor] at hb
      rw [update_buffer_getElem?] at hb
      split at hb
      · cases hb1 : mtdp1.shmem.buffer[j]? with
        | none => rw [hb1] at hb; cases hb
        | some b1 =>
          rw [hb1] at hb
          simp only [Option.map_some', Option.some.injEq] at hb
          have := h1 j b1 hb1 (by rw [← hrec, ← hb]; rfl)
          exact this
      · exact h1 j b hb hrec
    · rename_i mtdp1 heq
      rw [heq] at h1
      exact h1
  | drain i =>
    intro j b hb hrec
    simp only [run_step, consumer_drain] at hb ⊢
    rw [update_buffer_getElem?] at hb
    split at hb
    · cases hb1 : s.shmem.buffer[j]? with
      | none => rw [hb1] at hb; cases hb
      | some b1 =>
        rw [hb1] at hb
        simp only [Option.map_some', Option.some.injEq] at hb
        rw [← hb] at hrec
        simp [recording, hc.rec_written] at hrec
    · exact h j b hb hrec

theorem run_steps_inv (c : Config) (hc : c.wf) (steps : List pool_step)
    (s : mcount_thread_data) (h : current_or_finished c s) :
    current_or_finished c (run_steps c s steps) := by
  induction steps generalizing s with
  | nil => exact h
  | cons st rest ih =>
    simp only [run_steps, List.foldl_cons]
    exact ih _ (run_step_inv c hc s st h)

theorem prepare_shmem_buffer_inv (c : Config) (s : mcount_thread_data) :
    current_or_finished c (prepare_shmem_buffer c s) := by
  intro i b hb hrec
  simp only [prepare_shmem_buffer] at hb ⊢
  match i, hb with
  | 0, _ => left; rfl
  | 1, hb =>
    simp at hb
    rw [← hb, recording_fresh] at hrec
    cases hrec
  | k + 2, hb => simp at hb

theorem small_config_wf : small_config.wf :=
  { bufsize := by decide
    rec_ne := by decide
    rec_written := by decide
    magic := by decide
    lost := by decide
    event := by decide
    argbuf := by decide
    read_ne := by intro e; cases e <;> decide
    read_disjoint := by
      intro e e' h
      cases e <;> cases e' <;> first | exact absurd rfl h | decide
    ids := by intro e; cases e <;> decide
    ty_entry := by decide
    ty_exit := by decide
    ty_ne := by decide
    written_ne := by decide
    retval_lt := by decide }

/-! ## C1: segments that carry RECORDING -/

/-- C1, as stated, fails: from the state `prepare_shmem_buffer` leaves, with segments that
hold two 16-byte records and a consumer that has not updated any flag yet, the third
acquire rotates to segment 1 and ORs `RECORDING` into it while segment 0 still carries
it: two segments carry `RECORDING` after the call. -/
theorem two_segments_recording :
    ¬ nr_recording small_config
        (run_steps small_config (prepare_shmem_buffer small_config new_thread) three_records)
      ≤ 1 := by
  decide

/-- C1, amended: for every trace of acquire calls and consumer flag updates from the state
`prepare_shmem_buffer` leaves, after every step a segment that carries `RECORDING` is
either the current segment or a segment whose newest control message is `REC_END`
(finished by the producer, which never clears the flag itself, and not yet handed back
by the consumer). -/
theorem recording_is_current_or_finished (c : Config) (hc : c.wf) (mtdp : mcount_thread_data)
    (steps : List pool_step) (i : Nat) (b : mcount_shmem_buffer)
    (hb : (run_steps c (prepare_shmem_buffer c mtdp) steps).shmem.buffer[i]? = some b)
    (hrec : recording c b = true) :
    (run_steps c (prepare_shmem_buffer c mtdp) steps).shmem.curr = (i : Int) ∨
      finished (run_steps c (prepare_shmem_buffer c mtdp) steps).sent i = true :=
  run_steps_inv c hc steps _ (prepare_shmem_buffer_inv c mtdp) i b hb hrec

/-- Witness of `recording_is_current_or_finished`: after `three_records` segment 0 still
carries `RECORDING`; it is not current (segment 1 is) and it is finished. -/
theorem recording_is_current_or_finished_witness :
    small_config.wf ∧
    (run_steps small_config (prepare_shmem_buffer small_config new_thread)
        three_records).shmem.buffer[0]? = some { size := 32, flag := 5, data := fun _ => 0 } ∧
    recording small_config { size := 32, flag := 5, data := fun _ => 0 } = true ∧
    ((run_steps small_config (prepare_shmem_buffer small_config new_thread)
        three_records).shmem.curr = ((0 : Nat) : Int) ∨
      finished (run_steps small_config (prepare_shmem_buffer small_config new_thread)
        three_records).sent 0 = true) :=
  ⟨small_config_wf, rfl, by decide,
    recording_is_current_or_finished small_config small_config_wf new_thread three_records 0
      { size := 32, flag := 5, data := fun _ => 0 } rfl (by decide)⟩

/-! ## C2: which segment is reused -/

theorem first_available_spec (c : Config) (l : List mcount_shmem_buffer)
    (h : first_available c l < l.length) :
    (∃ b, l[first_available c l]? = some b ∧ recording c b = false) ∧
      ∀ j bj, j < first_available c l → l[j]? = some bj → recording c bj = true := by
  unfold first_available at *
  constructor
  · refine ⟨l[l.findIdx (fun b => !recording c b)], List.getElem?_eq_getElem h, ?_⟩
    have := @List.findIdx_getElem _ (fun b => !recording c b) l h
    simpa using this
  · intro j bj hj hbj
    have := @List.not_of_lt_findIdx _ (fun b => !recording c b) l j hj
    have hj2 : j < l.length := by omega
    rw [List.getElem?_eq_getElem hj2] at hbj
    simp only [Option.some.injEq] at hbj
    rw [hbj] at this
    simpa using this

theorem reuse_length_le (c : Config) (idx : Nat) (mtdp : mcount_thread_data) :
    (reuse c idx mtdp).shmem.buffer.length ≤ mtdp.shmem.buffer.length := by
  have h : (shrink_unused c idx (update_buffer mtdp.shmem.buffer idx
      (fun b => { b with flag := b.flag ||| c.SHMEM_FL_RECORDING, size := 0 }))).length
      ≤ mtdp.shmem.buffer.length := by
    rcases shrink_unused_cases c idx (update_buffer mtdp.shmem.buffer idx
      (fun b => { b with flag := b.flag ||| c.SHMEM_FL_RECORDING, size := 0 })) with h | ⟨_, h⟩
    · rw [h, update_buffer_length]
    · rw [h, List.length_dropLast, update_buffer_length]
      omega
  unfold reuse
  simp only
  split
  · simp only [update_buffer_length]
    exact h
  · exact h

theorem get_new_shmem_buffer_first_available (c : Config) (alloc : Bool)
    (mtdp : mcount_thread_data) :
    (∀ (i : Nat) (b : mcount_shmem_buffer), mtdp.shmem.buffer[i]? = some b →
        (get_new_shmem_buffer c alloc mtdp).shmem.curr = (i : Int) →
        recording c b = false ∧
          ∀ (j : Nat) (bj : mcount_shmem_buffer), j < i → mtdp.shmem.buffer[j]? = some bj →
            recording c bj = true) ∧
    ((∃ (i : Nat) (b : mcount_shmem_buffer),
          mtdp.shmem.buffer[i]? = some b ∧ recording c b = false) →
        first_available c mtdp.shmem.buffer < mtdp.shmem.nr_buf ∧
        (get_new_shmem_buffer c alloc mtdp).shmem.curr =
          (first_available c mtdp.shmem.buffer : Int) ∧
        (get_new_shmem_buffer c alloc mtdp).shmem.nr_buf ≤ mtdp.shmem.nr_buf) ∧
    (mtdp.shmem.nr_buf < (get_new_shmem_buffer c alloc mtdp).shmem.nr_buf →
        ∀ (i : Nat) (b : mcount_shmem_buffer), mtdp.shmem.buffer[i]? = some b →
          recording c b = true) := by
  by_cases hlt : first_available c mtdp.shmem.buffer < mtdp.shmem.nr_buf
  · have hg : get_new_shmem_buffer c alloc mtdp
        = reuse c (first_available c mtdp.shmem.buffer) mtdp := by
      unfold get_new_shmem_buffer
      simp only
      rw [if_pos hlt]
    have hspec := first_available_spec c mtdp.shmem.buffer hlt
    rw [hg]
    refine ⟨?_, ?_, ?_⟩
    · intro i b hb hcur
      rw [reuse_curr] at hcur
      have hi : first_available c mtdp.shmem.buffer = i := by exact_mod_cast hcur
      rw [hi] at hspec
      obtain ⟨⟨b1, hb1, hrec⟩, hlow⟩ := hspec
      rw [hb] at hb1
      simp only [Option.some.injEq] at hb1
      rw [hb1]
      exact ⟨hrec, hlow⟩
    · intro _
      exact ⟨hlt, reuse_curr _ _ _, reuse_length_le _ _ _⟩
    · intro h
      have := reuse_length_le c (first_available c mtdp.shmem.buffer) mtdp
      unfold mcount_shmem.nr_buf at h
      omega
  · have hall : ∀ b ∈ mtdp.shmem.buffer, recording c b = true := by
      have h1 : first_available c mtdp.shmem.buffer = mtdp.shmem.buffer.length := by
        have := @List.findIdx_le_length _ (fun b => !recording c b) mtdp.shmem.buffer
        unfold first_available mcount_shmem.nr_buf at *
        omega
      unfold first_available at h1
      rw [List.findIdx_eq_length] at h1
      intro b hb
      simpa using h1 b hb
    have hidx : first_available c mtdp.shmem.buffer = mtdp.shmem.buffer.length := by
      unfold first_available
      rw [List.findIdx_eq_length]
      intro b hb
      simp [hall b hb]
    refine ⟨?_, ?_, ?_⟩
    · intro i b hb hcur
      exfalso
      have hi : i < mtdp.shmem.buffer.length := by
        by_contra hge
        rw [List.getElem?_eq_none (by omega)] at hb
        cases hb
      unfold get_new_shmem_buffer at hcur
      simp only at hcur
      rw [if_neg hlt] at hcur
      split at hcur
      · rw [reuse_curr, hidx] at hcur
        omega
      · simp only at hcur
        omega
    · intro ⟨i, b, hb, hrec⟩
      rw [hall b (List.mem_iff_getElem?.mpr ⟨i, hb⟩)] at hrec
      cases hrec
    · intro _ i b hb
      exact hall b (List.mem_iff_getElem?.mpr ⟨i, hb⟩)

/-- C2: `get_new_shmem_buffer` activates an existing segment `i` only if `i` did not
carry `RECORDING` on entry and every segment below `i` did (`i` is the lowest-indexed
available segment); if some existing segment does not carry `RECORDING` it activates
the first such segment and does not grow the pool; and the pool grows only when every
existing segment carries `RECORDING`. -/
theorem get_new_shmem_buffer_reuses_first_available (c : Config) (alloc : Bool)
    (mtdp : mcount_thread_data) :
    (∀ (i : Nat) (b : mcount_shmem_buffer), mtdp.shmem.buffer[i]? = some b →
        (get_new_shmem_buffer c alloc mtdp).shmem.curr = (i : Int) →
        recording c b = false ∧
          ∀ (j : Nat) (bj : mcount_shmem_buffer), j < i → mtdp.shmem.buffer[j]? = some bj →
            recording c bj = true) ∧
    ((∃ (i : Nat) (b : mcount_shmem_buffer),
          mtdp.shmem.buffer[i]? = some b ∧ recording c b = false) →
        first_available c mtdp.shmem.buffer < mtdp.shmem.nr_buf ∧
        (get_new_shmem_buffer c alloc mtdp).shmem.curr =
          (first_available c mtdp.shmem.buffer : Int) ∧
        (get_new_shmem_buffer c alloc mtdp).shmem.nr_buf ≤ mtdp.shmem.nr_buf) ∧
    (mtdp.shmem.nr_buf < (get_new_shmem_buffer c alloc mtdp).shmem.nr_buf →
        ∀ (i : Nat) (b : mcount_shmem_buffer), mtdp.shmem.buffer[i]? = some b →
          recording c b = true) :=
  get_new_shmem_buffer_first_available c alloc mtdp

/-- Witness of `get_new_shmem_buffer_reuses_first_available`: in `full_pool` handed back
by the consumer on segment 0 only, segment 0 is reused. -/
theorem get_new_shmem_buffer_reuses_first_available_witness :
    (get_new_shmem_buffer small_config true (consumer_drain small_config full_pool 0)).shmem.curr
      = ((0 : Nat) : Int) ∧
    (get_new_shmem_buffer small_config true (consumer_drain small_config full_pool 0)).shmem.nr_buf
      ≤ (consumer_drain small_config full_pool 0).shmem.nr_buf :=
  have h := (get_new_shmem_buffer_reuses_first_available small_config true
    (consumer_drain small_config full_pool 0)).2.1
    ⟨0, { size := 32, flag := 2, data := fun _ => 0 }, rfl, by decide⟩
  ⟨h.2.1, h.2.2⟩

/-! ## C4: when `get_shmem_buffer` returns NULL -/

theorem get_new_shmem_buffer_curr (c : Config) (alloc : Bool) (mtdp : mcount_thread_data) :
    (get_new_shmem_buffer c alloc mtdp).shmem.curr = -1 ↔
      alloc = false ∧ ∀ (i : Nat) (b : mcount_shmem_buffer), mtdp.shmem.buffer[i]? = some b →
        recording c b = true := by
  have h3 := (get_new_shmem_buffer_first_available c alloc mtdp).2.1
  unfold get_new_shmem_buffer at *
  simp only at *
  by_cases hlt : first_available c mtdp.shmem.buffer < mtdp.shmem.nr_buf
  · rw [if_pos hlt, reuse_curr]
    constructor
    · intro h; omega
    · intro ⟨_, hall⟩
      obtain ⟨⟨b, hb, hrec⟩, _⟩ := first_available_spec c mtdp.shmem.buffer hlt
      rw [hall _ b hb] at hrec
      cases hrec
  · rw [if_neg hlt]
    have hall : ∀ (i : Nat) (b : mcount_shmem_buffer), mtdp.shmem.buffer[i]? = some b →
        recording c b = true := by
      intro i b hb
      by_contra hrec
      exact hlt (h3 ⟨i, b, hb, by simpa using hrec⟩).1
    cases alloc with
    | true =>
      simp only [if_true, reuse_curr]
      constructor
      · intro h; omega
      · intro ⟨h, _⟩; cases h
    | false =>
      simp only [Bool.false_eq_true, if_false, true_and]
      exact ⟨fun _ => hall, fun _ => trivial⟩

/-- C4, as stated, fails: in `full_pool` (not closed, both segments full and still
flagged `RECORDING`) an acquire whose `allocate_shmem_buffer` fails returns NULL although
`done` is not set. -/
theorem null_while_not_done :
    ¬ ((get_shmem_buffer small_config false full_pool 16).2 = none →
        full_pool.shmem.done = true) := by
  decide

theorem get_shmem_buffer_none_iff (c : Config) (alloc : Bool) (mtdp : mcount_thread_data)
    (size : Nat) :
    (get_shmem_buffer c alloc mtdp size).2 = none ↔
      needs_new c mtdp.shmem size = true ∧
        (mtdp.shmem.done = true ∨
          (alloc = false ∧ ∀ (i : Nat) (b : mcount_shmem_buffer),
            mtdp.shmem.buffer[i]? = some b → recording c b = true)) := by
  unfold get_shmem_buffer
  by_cases hn : needs_new c mtdp.shmem size = true
  · rw [if_pos hn]
    by_cases hd : mtdp.shmem.done = true
    · rw [if_pos hd]
      simp [hn, hd]
    · rw [if_neg hd]
      simp only
      have hbuf : (if -1 < mtdp.shmem.curr then
          finish_shmem_buffer mtdp mtdp.shmem.curr.toNat else mtdp).shmem.buffer
          = mtdp.shmem.buffer := by
        split <;> rfl
      have key := get_new_shmem_buffer_curr c alloc
        (if -1 < mtdp.shmem.curr then finish_shmem_buffer mtdp mtdp.shmem.curr.toNat else mtdp)
      rw [hbuf] at key
      generalize (if -1 < mtdp.shmem.curr then
        finish_shmem_buffer mtdp mtdp.shmem.curr.toNat else mtdp) = s1 at key ⊢
      by_cases hc1 : (get_new_shmem_buffer c alloc s1).shmem.curr = -1
      · rw [if_pos hc1]
        simp only [true_iff]
        exact ⟨hn, Or.inr (key.mp hc1)⟩
      · rw [if_neg hc1]
        simp only [false_iff, reduceCtorEq]
        intro ⟨_, h⟩
        rcases h with h | h
        · exact hd h
        · exact hc1 (key.mpr h)
  · rw [if_neg hn]
    simp [hn]

/-- C4, amended: `get_shmem_buffer` returns NULL exactly when the request needs a new
segment (there is no current segment or the request does not fit) and either the pool
is closed (`done`) or every existing segment carries `RECORDING` and a new one cannot be
created; in every other case it returns a segment. -/
theorem get_shmem_buffer_null_iff (c : Config) (alloc : Bool) (mtdp : mcount_thread_data)
    (size : Nat) :
    (get_shmem_buffer c alloc mtdp size).2 = none ↔
      needs_new c mtdp.shmem size = true ∧
        (mtdp.shmem.done = true ∨
          (alloc = false ∧ ∀ (i : Nat) (b : mcount_shmem_buffer),
            mtdp.shmem.buffer[i]? = some b → recording c b = true)) :=
  get_shmem_buffer_none_iff c alloc mtdp size

/-! ## C3: the count of the LOST record -/

theorem get_shmem_buffer_fail (c : Config) (alloc : Bool) (s : mcount_thread_data) (size : Nat)
    (hd : s.shmem.done = false) (h : (get_shmem_buffer c alloc s size).2 = none) :
    (get_shmem_buffer c alloc s size).1.shmem.losts = s.shmem.losts + 2 ∧
      (get_shmem_buffer c alloc s size).1.shmem.done = false ∧
      (get_shmem_buffer c alloc s size).1.shmem.curr = -1 := by
  have h1 := (get_shmem_buffer_none_iff c alloc s size).mp h
  obtain ⟨hn, h2⟩ := h1
  rcases h2 with h2 | ⟨ha, hall⟩
  · rw [hd] at h2; cases h2
  · have hbuf : (if -1 < s.shmem.curr then
          finish_shmem_buffer s s.shmem.curr.toNat else s).shmem
          = s.shmem := by
      split <;> rfl
    have hfa : ¬ first_available c s.shmem.buffer < s.shmem.nr_buf := by
      intro hlt
      obtain ⟨⟨b, hb, hrec⟩, _⟩ := first_available_spec c s.shmem.buffer hlt
      rw [hall _ b hb] at hrec
      cases hrec
    unfold get_shmem_buffer
    rw [if_pos hn]
    simp only [hd, Bool.false_eq_true, if_false]
    generalize (if -1 < s.shmem.curr then
        finish_shmem_buffer s s.shmem.curr.toNat else s) = s1 at hbuf ⊢
    have hg : (get_new_shmem_buffer c alloc s1).shmem
        = { s.shmem with losts := s.shmem.losts + 1, curr := -1 } := by
      unfold get_new_shmem_buffer
      simp only [hbuf]
      rw [if_neg hfa, ha]
      simp
    rw [hg]
    simp [hd]

theorem acquire_seq_fail (c : Config) (calls : List (Nat × Bool)) (s : mcount_thread_data)
    (hd : s.shmem.done = false) (h : all_fail c s calls = true) :
    (acquire_seq c s calls).shmem.losts = s.shmem.losts + 2 * calls.length ∧
      (acquire_seq c s calls).shmem.done = false ∧
      (calls ≠ [] → (acquire_seq c s calls).shmem.curr = -1) := by
  induction calls generalizing s with
  | nil => exact ⟨rfl, hd, fun h => absurd rfl h⟩
  | cons p rest ih =>
    simp only [all_fail, Bool.and_eq_true, Option.isNone_iff_eq_none] at h
    obtain ⟨h1, h2⟩ := h
    obtain ⟨hl, hd1, hc1⟩ := get_shmem_buffer_fail c p.2 s p.1 hd h1
    obtain ⟨hl2, hd2, hc2⟩ := ih _ hd1 h2
    simp only [acquire_seq, List.foldl_cons, List.length_cons] at hl2 hd2 hc2 ⊢
    refine ⟨?_, hd2, ?_⟩
    · rw [hl2, hl]
      omega
    · intro _
      cases rest with
      | nil => exact hc1
      | cons q r => exact hc2 (by simp)

theorem shrink_unused_getElem?_idx (c : Config) (idx : Nat) (l : List mcount_shmem_buffer) :
    (shrink_unused c idx l)[idx]? = l[idx]? := by
  rcases shrink_unused_cases c idx l with h1 | ⟨h2, h1⟩
  · rw [h1]
  · rw [h1, List.getElem?_dropLast, if_pos (by omega)]

theorem reuse_lost (c : Config) (idx : Nat) (mtdp : mcount_thread_data)
    (hidx : idx < mtdp.shmem.buffer.length) (hl : mtdp.shmem.losts ≠ 0) :
    ∃ b0, (reuse c idx mtdp).shmem.buffer[idx]? = some (write_lost c mtdp.shmem.losts b0) := by
  unfold reuse
  simp only
  rw [if_pos hl]
  simp only
  rw [update_buffer_getElem?, if_pos rfl, shrink_unused_getElem?_idx c idx _,
    update_buffer_getElem?, if_pos rfl, List.getElem?_eq_getElem hidx]
  exact ⟨_, rfl⟩

theorem get_new_shmem_buffer_lost (c : Config) (alloc : Bool) (mtdp : mcount_thread_data)
    (hl : mtdp.shmem.losts ≠ 0) (i : Nat)
    (hcur : (get_new_shmem_buffer c alloc mtdp).shmem.curr = (i : Int)) :
    (get_new_shmem_buffer c alloc mtdp).shmem.losts = 0 ∧
    ∃ b0, (get_new_shmem_buffer c alloc mtdp).shmem.buffer[i]?
      = some (write_lost c mtdp.shmem.losts b0) := by
  unfold get_new_shmem_buffer at *
  simp only at *
  by_cases hlt : first_available c mtdp.shmem.buffer < mtdp.shmem.nr_buf
  · rw [if_pos hlt] at hcur ⊢
    rw [reuse_curr] at hcur
    have hi : first_available c mtdp.shmem.buffer = i := by exact_mod_cast hcur
    rw [hi] at hlt ⊢
    exact ⟨reuse_losts _ _ _, reuse_lost c i mtdp hlt hl⟩
  · rw [if_neg hlt] at hcur ⊢
    cases alloc with
    | true =>
      simp only [if_true] at hcur ⊢
      rw [reuse_curr] at hcur
      have hi : first_available c mtdp.shmem.buffer = i := by exact_mod_cast hcur
      have hle := @List.findIdx_le_length _ (fun b => !recording c b) mtdp.shmem.buffer
      rw [hi] at hlt ⊢
      refine ⟨reuse_losts _ _ _, ?_⟩
      have := reuse_lost c i
        { mtdp with shmem := { mtdp.shmem with
            buffer := mtdp.shmem.buffer ++ [fresh_shmem_buffer],
            max_buf := if mtdp.shmem.max_buf < (mtdp.shmem.buffer ++ [fresh_shmem_buffer]).length
              then (mtdp.shmem.buffer ++ [fresh_shmem_buffer]).length else mtdp.shmem.max_buf } }
        (by
          simp only [List.length_append, List.length_singleton]
          unfold first_available at hi
          omega) hl
      exact this
    | false =>
      simp only [Bool.false_eq_true, if_false] at hcur
      omega

theorem uftrace_record_word_lt (t m g d a : Nat) : uftrace_record_word t m g d a < 2 ^ 64 := by
  unfold uftrace_record_word
  omega

theorem uftrace_record_word_type (t m g d a : Nat) : uftrace_record_word t m g d a % 4 = t % 4 := by
  unfold uftrace_record_word
  omega

theorem uftrace_record_word_addr (t m g d a : Nat) :
    uftrace_record_word t m g d a / 65536 = a % 2 ^ 48 := by
  unfold uftrace_record_word
  omega

theorem write_lost_spec (c : Config) (hc : c.wf) (losts : Nat) (b0 : mcount_shmem_buffer) :
    (write_lost c losts b0).size = 16 ∧ ld64 (write_lost c losts b0).data 0 = 0 ∧
      ld64 (write_lost c losts b0).data 8 % 4 = c.UFTRACE_LOST ∧
      ld64 (write_lost c losts b0).data 8 / 65536 = losts % 2 ^ 48 := by
  have hl := hc.lost
  unfold write_lost
  simp only
  refine ⟨rfl, ?_, ?_, ?_⟩
  · rw [ld64_st64_disjoint _ 0 8 _ (by omega), ld64_st64]
    rfl
  · rw [ld64_st64, Nat.mod_eq_of_lt (uftrace_record_word_lt _ _ _ _ _),
      uftrace_record_word_type]
    omega
  · rw [ld64_st64, Nat.mod_eq_of_lt (uftrace_record_word_lt _ _ _ _ _),
      uftrace_record_word_addr]

theorem get_new_shmem_buffer_curr_nat (c : Config) (alloc : Bool) (mtdp : mcount_thread_data)
    (h : (get_new_shmem_buffer c alloc mtdp).shmem.curr ≠ -1) :
    (get_new_shmem_buffer c alloc mtdp).shmem.curr
      = ((get_new_shmem_buffer c alloc mtdp).shmem.curr.toNat : Int) := by
  unfold get_new_shmem_buffer at *
  simp only at *
  split
  · rw [reuse_curr]; simp
  · rename_i hlt
    rw [if_neg hlt] at h
    split
    · rw [reuse_curr]; simp
    · rename_i ha
      rw [if_neg ha] at h
      simp at h

/-- C3 on the code: starting from a pool that is not closed and whose lost counter is 0,
after `N >= 1` consecutive acquire calls that return NULL and one that returns a segment,
the lost counter is 0 again and the segment holds exactly one record (cursor 16), a LOST
record with time 0 — but its count (`addr`) field is `2 * N`, not `N`: every failed call
is counted once in `get_new_shmem_buffer` and once more in `get_shmem_buffer`. -/
theorem lost_record_counts_failures_twice (c : Config) (hc : c.wf) (s : mcount_thread_data)
    (h0 : s.shmem.losts = 0) (hd : s.shmem.done = false) (calls : List (Nat × Bool))
    (hne : calls ≠ []) (hfail : all_fail c s calls = true) (size : Nat) (alloc : Bool) (i : Nat)
    (hok : (get_shmem_buffer c alloc (acquire_seq c s calls) size).2 = some i) :
    (get_shmem_buffer c alloc (acquire_seq c s calls) size).1.shmem.losts = 0 ∧
    ∃ b, (get_shmem_buffer c alloc (acquire_seq c s calls) size).1.shmem.buffer[i]? = some b ∧
      b.size = 16 ∧ ld64 b.data 0 = 0 ∧ ld64 b.data 8 % 4 = c.UFTRACE_LOST ∧
      ld64 b.data 8 / 65536 = (2 * calls.length) % 2 ^ 48 := by
  obtain ⟨hl, hd1, hc1⟩ := acquire_seq_fail c calls s hd hfail
  have hc2 := hc1 hne
  rw [h0, Nat.zero_add] at hl
  have hlen : calls.length ≠ 0 := by
    intro h; exact hne (List.length_eq_zero.mp h)
  generalize acquire_seq c s calls = s1 at hl hd1 hc2 hok ⊢
  have hn : needs_new c s1.shmem size = true := by
    simp [needs_new, hc2]
  unfold get_shmem_buffer at hok ⊢
  rw [if_pos hn] at hok ⊢
  simp only [hd1, Bool.false_eq_true, if_false, hc2, lt_self_iff_false] at hok ⊢
  by_cases hcur : (get_new_shmem_buffer c alloc s1).shmem.curr = -1
  · rw [if_pos hcur] at hok
    cases hok
  · rw [if_neg hcur] at hok ⊢
    simp only [Option.some.injEq] at hok
    have hnat := get_new_shmem_buffer_curr_nat c alloc s1 hcur
    rw [hok] at hnat
    obtain ⟨hz, b0, hb0⟩ := get_new_shmem_buffer_lost c alloc s1 (by omega) i hnat
    obtain ⟨w1, w2, w3, w4⟩ := write_lost_spec c hc s1.shmem.losts b0
    refine ⟨hz, _, hb0, w1, w2, w3, ?_⟩
    rw [w4, hl]

/-- Witness of `lost_record_counts_failures_twice`, and the failing input of C3: in
`full_pool` one acquire fails (`N = 1`) and the next one maps segment 2; the LOST record
at its start carries the count 2. -/
theorem lost_record_counts_failures_twice_witness :
    small_config.wf ∧ full_pool.shmem.losts = 0 ∧ full_pool.shmem.done = false ∧
    one_failure ≠ [] ∧ all_fail small_config full_pool one_failure = true ∧
    (get_shmem_buffer small_config true
      (acquire_seq small_config full_pool one_failure) 16).2 = some 2 ∧
    ((get_shmem_buffer small_config true
        (acquire_seq small_config full_pool one_failure) 16).1.shmem.losts = 0 ∧
      ∃ b, (get_shmem_buffer small_config true
          (acquire_seq small_config full_pool one_failure) 16).1.shmem.buffer[2]? = some b ∧
        b.size = 16 ∧ ld64 b.data 0 = 0 ∧ ld64 b.data 8 % 4 = small_config.UFTRACE_LOST ∧
        ld64 b.data 8 / 65536 = (2 * one_failure.length) % 2 ^ 48) :=
  ⟨small_config_wf, by decide, by decide, by decide, by decide, by decide,
    lost_record_counts_failures_twice small_config small_config_wf full_pool (by decide)
      (by decide) one_failure (by decide) (by decide) 16 true 2 (by decide)⟩

/-- The failing input of C3 evaluated: one failed acquire, and the LOST record of the next
successful acquire carries the count 2. -/
theorem one_failure_counts_two :
    ld64 (((get_shmem_buffer small_config true
      (acquire_seq small_config full_pool one_failure) 16).1.shmem.buffer.getD 2
        fresh_shmem_buffer).data) 8 / 65536 = 2 := by
  decide

/-! ## C5: the packed word of a frame record -/

theorem or_fields (t m g d a : Nat) (ht : t < 4) (hm : m < 2) (hg : g < 8) (hd : d < 1024) :
    t + m * 4 + g * 8 + d * 64 + a * 65536
      = t ||| (m <<< 2) ||| (g <<< 3) ||| (d <<< 6) ||| (a <<< 16) := by
  have e1 : t + m * 4 = t ||| (m <<< 2) := by
    have := @Nat.mul_add_lt_is_or 2 t (by omega) m
    rw [Nat.shiftLeft_eq, Nat.lor_comm, mul_comm m, ← this]
    omega
  have e2 : t + m * 4 + g * 8 = (t + m * 4) ||| (g <<< 3) := by
    have := @Nat.mul_add_lt_is_or 3 (t + m * 4) (by omega) g
    rw [Nat.shiftLeft_eq, Nat.lor_comm, mul_comm g, ← this]
    omega
  have e3 : t + m * 4 + g * 8 + d * 64 = (t + m * 4 + g * 8) ||| (d <<< 6) := by
    have := @Nat.mul_add_lt_is_or 6 (t + m * 4 + g * 8) (by omega) d
    rw [Nat.shiftLeft_eq, Nat.lor_comm, mul_comm d, ← this]
    omega
  have e4 : t + m * 4 + g * 8 + d * 64 + a * 65536
      = (t + m * 4 + g * 8 + d * 64) ||| (a <<< 16) := by
    have := @Nat.mul_add_lt_is_or 16 (t + m * 4 + g * 8 + d * 64) (by omega) a
    rw [Nat.shiftLeft_eq, Nat.lor_comm, mul_comm a, ← this]
    omega
  rw [e4, e3, e2, e1]

theorem ret_stack_rec_eq (c : Config) (hm : c.RECORD_MAGIC < 8) (type : Nat) (argbuf : Bool)
    (depth child_ip : Nat) (ht : type < 4) (hd : depth < 1024) (ha : child_ip < 2 ^ 48) :
    ret_stack_rec c type argbuf depth child_ip
      = type + (if argbuf then 1 else 0) * 4 + c.RECORD_MAGIC * 8 + depth * 64
          + child_ip * 65536 := by
  have e0 := or_fields type 0 c.RECORD_MAGIC 0 0 ht (by omega) hm (by omega)
  simp only [Nat.zero_shiftLeft, Nat.or_zero, zero_mul, add_zero] at e0
  unfold ret_stack_rec
  simp only [Nat.shiftLeft_eq] at e0 ⊢
  rw [← e0]
  cases argbuf <;> simp only [Bool.false_eq_true, if_false, if_true] <;> omega

/-- C5: for a record type below 4, a depth below 1024 and an address below 2^48 (and a
3-bit `RECORD_MAGIC`), the word `record_ret_stack` writes holds the type in bits 0-1,
the "argument data follows" bit in bit 2, `RECORD_MAGIC` in bits 3-5, the depth in bits
6-15 and the address in bits 16-63, so the inputs are recovered from those bit ranges;
and it is the word that the bit-field assignments of the `#if 0` branch produce. -/
theorem ret_stack_rec_lossless (c : Config) (type : Nat) (argbuf : Bool) (depth child_ip : Nat)
    (hm : c.RECORD_MAGIC < 8) (ht : type < 4) (hd : depth < 1024) (ha : child_ip < 2 ^ 48) :
    ret_stack_rec c type argbuf depth child_ip % 4 = type ∧
    ret_stack_rec c type argbuf depth child_ip / 4 % 2 = (if argbuf then 1 else 0) ∧
    ret_stack_rec c type argbuf depth child_ip / 8 % 8 = c.RECORD_MAGIC ∧
    ret_stack_rec c type argbuf depth child_ip / 64 % 1024 = depth ∧
    ret_stack_rec c type argbuf depth child_ip / 65536 = child_ip ∧
    ret_stack_rec c type argbuf depth child_ip
      = ret_stack_bitfields c type argbuf depth child_ip := by
  rw [ret_stack_rec_eq c hm type argbuf depth child_ip ht hd ha]
  unfold ret_stack_bitfields uftrace_record_word
  cases argbuf <;> simp only [Bool.false_eq_true, if_false, if_true] <;>
    refine ⟨?_, ?_, ?_, ?_, ?_, ?_⟩ <;> omega

/-- Witness of `ret_stack_rec_lossless`: an EXIT record (type 1) with return value data,
depth 3, address `0x401136`. -/
theorem ret_stack_rec_lossless_witness :
    small_config.RECORD_MAGIC < 8 ∧ 1 < 4 ∧ 3 < 1024 ∧ 4198710 < 2 ^ 48 ∧
    (ret_stack_rec small_config 1 true 3 4198710 % 4 = 1 ∧
    ret_stack_rec small_config 1 true 3 4198710 / 4 % 2 = (if true then 1 else 0) ∧
    ret_stack_rec small_config 1 true 3 4198710 / 8 % 8 = small_config.RECORD_MAGIC ∧
    ret_stack_rec small_config 1 true 3 4198710 / 64 % 1024 = 3 ∧
    ret_stack_rec small_config 1 true 3 4198710 / 65536 = 4198710 ∧
    ret_stack_rec small_config 1 true 3 4198710
      = ret_stack_bitfields small_config 1 true 3 4198710) :=
  ⟨by decide, by decide, by decide, by decide,
    ret_stack_rec_lossless small_config 1 true 3 4198710 (by decide) (by decide) (by decide)
      (by decide)⟩

/-! ## C6: what `record_event` appends -/

theorem memcpy_outside (m : Mem) (d : Nat) (src : Nat → Nat) (n x : Nat)
    (h : x < d ∨ d + n ≤ x) : memcpy m d src n x = m x := by
  unfold memcpy
  rw [if_neg]
  omega

theorem memcpy_inside (m : Mem) (d : Nat) (src : Nat → Nat) (n k : Nat) (h : k < n) :
    memcpy m d src n (d + k) = src k % 256 := by
  unfold memcpy
  rw [if_pos (by omega)]
  simp

theorem ldLE_memcpy_disjoint (n : Nat) (m : Mem) (a d : Nat) (src : Nat → Nat) (k : Nat)
    (h : a + n ≤ d ∨ d + k ≤ a) : ldLE n (memcpy m d src k) a = ldLE n m a := by
  apply ldLE_congr
  intro x h1 h2
  apply memcpy_outside
  omega

theorem ALIGN_le (n : Nat) : n ≤ ALIGN n 8 ∧ ALIGN n 8 < n + 8 ∧ ALIGN n 8 % 8 = 0 := by
  unfold ALIGN
  omega

theorem event_rec_eq (c : Config) (hc : c.wf) (event : mcount_event) (hid : event.id < 2 ^ 32)
    (hds : event.dsize < 2 ^ 16) :
    event_rec c event
      = c.UFTRACE_EVENT + (if 0 < event.dsize then 1 else 0) * 4 + c.RECORD_MAGIC * 8
          + event.id * 65536 := by
  have hm := hc.magic
  have he := hc.event
  have e0 := or_fields c.UFTRACE_EVENT 0 c.RECORD_MAGIC 0 0 he (by omega) hm (by omega)
  simp only [Nat.zero_shiftLeft, Nat.or_zero, zero_mul, add_zero] at e0
  unfold event_rec
  simp only [Nat.shiftLeft_eq] at e0 ⊢
  rw [← e0, Nat.mod_eq_of_lt hds]
  by_cases h0 : event.dsize = 0
  · simp only [h0, ne_eq, not_true_eq_false, if_false, lt_self_iff_false]
    omega
  · have hpos : 0 < event.dsize := Nat.pos_of_ne_zero h0
    simp only [ne_eq, h0, not_false_eq_true, if_true, hpos]
    omega

theorem event_rec_or (c : Config) (hc : c.wf) (event : mcount_event) (hid : event.id < 2 ^ 32)
    (hds : event.dsize < 2 ^ 16) :
    event_rec c event
      = c.UFTRACE_EVENT ||| (c.RECORD_MAGIC <<< 3) ||| (event.id <<< 16)
          ||| (if 0 < event.dsize then 4 else 0) := by
  rw [event_rec_eq c hc event hid hds]
  have := or_fields c.UFTRACE_EVENT (if 0 < event.dsize then 1 else 0) c.RECORD_MAGIC 0
    event.id hc.event (by split <;> omega) hc.magic (by omega)
  simp only [Nat.zero_shiftLeft, Nat.or_zero, zero_mul, add_zero] at this
  rw [this]
  have e : (if 0 < event.dsize then 1 else 0) <<< 2 = (if 0 < event.dsize then 4 else 0) := by
    split <;> rfl
  rw [e]
  simp only [Nat.lor_assoc]
  congr 1
  rw [Nat.lor_comm (if 0 < event.dsize then 4 else 0), Nat.lor_assoc]

theorem write_event_spec (c : Config) (event : mcount_event) (b : mcount_shmem_buffer)
    (ht : event.time < 2 ^ 64) (hds : event.dsize < 2 ^ 16)
    (hroom : b.size + event_size event.dsize < 2 ^ 32) :
    ld64 (write_event c event b).data b.size = event.time ∧
    ld64 (write_event c event b).data (b.size + 8) = event_rec c event % 2 ^ 64 ∧
    (event.dsize = 0 → (write_event c event b).size = b.size + 16) ∧
    (0 < event.dsize →
      ld16 (write_event c event b).data (b.size + 16) = event.dsize ∧
      (∀ k, k < event.dsize →
        (write_event c event b).data (b.size + 18 + k) = event.data k % 256) ∧
      (write_event c event b).size = b.size + 16 + ALIGN (event.dsize + 2) 8) ∧
    ∀ a, a < b.size → (write_event c event b).data a = b.data a := by
  unfold write_event
  simp only [Nat.mod_eq_of_lt hds]
  by_cases h0 : event.dsize = 0
  · simp only [h0, ne_eq, not_true_eq_false, if_false, lt_self_iff_false, false_imp_iff,
      true_and, forall_const]
    refine ⟨?_, ?_, ?_, ?_⟩
    · rw [ld64_st64, Nat.mod_eq_of_lt ht]
    · rw [ld64_st64_disjoint _ _ _ _ (by omega), ld64_st64]
    · simp only [event_size, h0, ne_eq, not_true_eq_false, if_false] at hroom ⊢
      omega
    · intro a ha
      unfold st64
      rw [stLE_outside _ _ _ _ _ (by omega), stLE_outside _ _ _ _ _ (by omega)]
  · have hpos : 0 < event.dsize := Nat.pos_of_ne_zero h0
    simp only [ne_eq, h0, not_false_eq_true, if_true, hpos, false_imp_iff, true_and,
      forall_const]
    refine ⟨?_, ?_, ⟨?_, ?_, ?_⟩, ?_⟩
    · unfold ld64 st16
      rw [ldLE_memcpy_disjoint _ _ _ _ _ _ (by omega), ldLE_stLE_disjoint _ _ _ _ _ _ (by omega)]
      exact (ld64_st64 _ _ _).trans (Nat.mod_eq_of_lt ht)
    · unfold ld64 st16
      rw [ldLE_memcpy_disjoint _ _ _ _ _ _ (by omega), ldLE_stLE_disjoint _ _ _ _ _ _ (by omega)]
      exact (ld64_st64_disjoint _ _ _ _ (by omega)).trans (ld64_st64 _ _ _)
    · unfold ld16
      rw [ldLE_memcpy_disjoint _ _ _ _ _ _ (by omega)]
      exact (ld16_st16 _ _ _).trans (Nat.mod_eq_of_lt hds)
    · intro k hk
      have : b.size + 18 + k = (b.size + 16 + 2) + k := by omega
      rw [this, memcpy_inside _ _ _ _ _ hk]
    · simp only [event_size, h0, ne_eq, not_false_eq_true, if_true] at hroom ⊢
      omega
    · intro a ha
      unfold st64 st16
      rw [memcpy_outside _ _ _ _ _ (by omega), stLE_outside _ _ _ _ _ (by omega),
        stLE_outside _ _ _ _ _ (by omega), stLE_outside _ _ _ _ _ (by omega)]

theorem reuse_size (c : Config) (idx : Nat) (mtdp : mcount_thread_data) (b : mcount_shmem_buffer)
    (h : (reuse c idx mtdp).shmem.buffer[idx]? = some b) : b.size ≤ 16 := by
  unfold reuse at h
  simp only at h
  have key : ∀ b1, (shrink_unused c idx (update_buffer mtdp.shmem.buffer idx
      (fun b => { b with flag := b.flag ||| c.SHMEM_FL_RECORDING, size := 0 })))[idx]? = some b1 →
      b1.size = 0 := by
    intro b1 h1
    rw [shrink_unused_getElem?_idx, update_buffer_getElem?, if_pos rfl] at h1
    cases hb : mtdp.shmem.buffer[idx]? with
    | none => rw [hb] at h1; cases h1
    | some b0 =>
      rw [hb] at h1
      simp only [Option.map_some', Option.some.injEq] at h1
      rw [← h1]
  split at h
  · simp only at h
    rw [update_buffer_getElem?, if_pos rfl] at h
    cases hb : (shrink_unused c idx (update_buffer mtdp.shmem.buffer idx
        (fun b => { b with flag := b.flag ||| c.SHMEM_FL_RECORDING, size := 0 })))[idx]? with
    | none => rw [hb] at h; cases h
    | some b1 =>
      rw [hb] at h
      simp only [Option.map_some', Option.some.injEq] at h
      rw [← h]
      simp [write_lost, sizeof_uftrace_record]
  · rw [key b h]
    omega

theorem get_new_shmem_buffer_size (c : Config) (alloc : Bool) (mtdp : mcount_thread_data)
    (b : mcount_shmem_buffer)
    (h : (get_new_shmem_buffer c alloc mtdp).shmem.buffer[
      (get_new_shmem_buffer c alloc mtdp).shmem.curr.toNat]? = some b)
    (hcur : (get_new_shmem_buffer c alloc mtdp).shmem.curr ≠ -1) : b.size ≤ 16 := by
  unfold get_new_shmem_buffer at *
  simp only at *
  by_cases hlt : first_available c mtdp.shmem.buffer < mtdp.shmem.nr_buf
  · rw [if_pos hlt] at h
    rw [reuse_curr] at h
    exact reuse_size _ _ _ _ h
  · rw [if_neg hlt] at h hcur
    cases alloc with
    | true =>
      simp only [if_true] at h
      rw [reuse_curr] at h
      exact reuse_size _ _ _ _ h
    | false =>
      simp at hcur

theorem maxsize_lt (c : Config) (hc : c.wf) : maxsize c < 2 ^ 31 := by
  have := hc.bufsize
  unfold maxsize
  omega

theorem get_shmem_buffer_room (c : Config) (hc : c.wf) (alloc : Bool) (mtdp : mcount_thread_data)
    (size : Nat) (hsize : size < 2 ^ 31)
    (hsz : ∀ (i : Nat) (b : mcount_shmem_buffer), mtdp.shmem.buffer[i]? = some b → b.size < 2 ^ 32)
    (mtdp1 : mcount_thread_data) (i : Nat) (b : mcount_shmem_buffer)
    (hget : get_shmem_buffer c alloc mtdp size = (mtdp1, some i))
    (hb : mtdp1.shmem.buffer[i]? = some b) : b.size + size < 2 ^ 32 := by
  unfold get_shmem_buffer at hget
  by_cases hn : needs_new c mtdp.shmem size = true
  · rw [if_pos hn] at hget
    by_cases hd : mtdp.shmem.done = true
    · rw [if_pos hd] at hget
      cases hget
    · rw [if_neg hd] at hget
      simp only at hget
      generalize (if -1 < mtdp.shmem.curr then
        finish_shmem_buffer mtdp mtdp.shmem.curr.toNat else mtdp) = s1 at hget
      by_cases hc1 : (get_new_shmem_buffer c alloc s1).shmem.curr = -1
      · rw [if_pos hc1] at hget
        cases hget
      · rw [if_neg hc1] at hget
        simp only [Prod.mk.injEq, Option.some.injEq] at hget
        obtain ⟨h1, h2⟩ := hget
        subst h1
        subst h2
        have := get_new_shmem_buffer_size c alloc s1 b hb hc1
        omega
  · rw [if_neg hn] at hget
    simp only [Prod.mk.injEq, Option.some.injEq] at hget
    obtain ⟨h1, h2⟩ := hget
    subst h1
    subst h2
    have hlt := hsz _ b hb
    have hmax := maxsize_lt c hc
    simp only [needs_new, Bool.or_eq_true, beq_iff_eq, decide_eq_true_eq, not_or, not_lt,
      List.getD_eq_getElem?_getD, hb, Option.getD_some] at hn
    omega

/-- C6: when `get_shmem_buffer` hands `record_event` a segment (index `i`, contents `b`,
cursor `b.size`), `record_event` returns 0 and the segment afterwards holds, at the old
cursor, the 64-bit time of the event, then the word
`UFTRACE_EVENT | RECORD_MAGIC << 3 | id << 16` with bit 2 set exactly when the payload
size `d` is positive, and for `d > 0` the 16-bit length `d` followed by the `d` payload
bytes; the cursor has advanced by 16 for `d = 0` and by `16 + ALIGN(d + 2, 8)` otherwise,
and the bytes below the old cursor are unchanged. -/
theorem record_event_appends (c : Config) (hc : c.wf) (alloc : Bool) (mtdp : mcount_thread_data)
    (event : mcount_event) (ht : event.time < 2 ^ 64) (hid : event.id < 2 ^ 32)
    (hds : event.dsize < 2 ^ 16)
    (hsz : ∀ (i : Nat) (b : mcount_shmem_buffer), mtdp.shmem.buffer[i]? = some b → b.size < 2 ^ 32)
    (mtdp1 : mcount_thread_data) (i : Nat) (b : mcount_shmem_buffer)
    (hget : get_shmem_buffer c alloc mtdp (event_size event.dsize) = (mtdp1, some i))
    (hb : mtdp1.shmem.buffer[i]? = some b) :
    (record_event c alloc mtdp event).2 = 0 ∧
    ∃ b', (record_event c alloc mtdp event).1.shmem.buffer[i]? = some b' ∧
      ld64 b'.data b.size = event.time ∧
      ld64 b'.data (b.size + 8)
        = c.UFTRACE_EVENT ||| (c.RECORD_MAGIC <<< 3) ||| (event.id <<< 16)
            ||| (if 0 < event.dsize then 4 else 0) ∧
      ld64 b'.data (b.size + 8) / 4 % 2 = (if 0 < event.dsize then 1 else 0) ∧
      (event.dsize = 0 → b'.size = b.size + 16) ∧
      (0 < event.dsize →
        ld16 b'.data (b.size + 16) = event.dsize ∧
        (∀ k, k < event.dsize → b'.data (b.size + 18 + k) = event.data k % 256) ∧
        b'.size = b.size + 16 + ALIGN (event.dsize + 2) 8) ∧
      ∀ a, a < b.size → b'.data a = b.data a := by
  have hes : event_size event.dsize < 2 ^ 31 := by
    unfold event_size
    have := ALIGN_le (event.dsize + 2)
    split <;> omega
  have hroom := get_shmem_buffer_room c hc alloc mtdp _ hes hsz mtdp1 i b hget hb
  obtain ⟨w1, w2, w3, w4, w5⟩ := write_event_spec c event b ht hds hroom
  unfold record_event
  rw [Nat.mod_eq_of_lt hds, hget]
  have hword : event_rec c event % 2 ^ 64 = event_rec c event := by
    rw [event_rec_eq c hc event hid hds]
    have := hc.magic
    have := hc.event
    apply Nat.mod_eq_of_lt
    split <;> omega
  refine ⟨rfl, write_event c event b, ?_, w1, ?_, ?_, w3, w4, w5⟩
  · simp only
    rw [update_buffer_getElem?, if_pos rfl, hb]
    rfl
  · rw [w2, hword, event_rec_or c hc event hid hds]
  · rw [w2, hword, event_rec_eq c hc event hid hds]
    have := hc.magic
    have := hc.event
    split <;> omega

/-- Witness of `record_event_appends`: `sample_event` (3 payload bytes) recorded into the
fresh pool lands at cursor 0 of segment 0. -/
theorem record_event_appends_witness :
    small_config.wf ∧ sample_event.time < 2 ^ 64 ∧ sample_event.id < 2 ^ 32 ∧
    sample_event.dsize < 2 ^ 16 ∧
    (record_event small_config true (prepare_shmem_buffer small_config new_thread)
      sample_event).2 = 0 ∧
    ∃ b', (record_event small_config true (prepare_shmem_buffer small_config new_thread)
        sample_event).1.shmem.buffer[0]? = some b' ∧
      ld64 b'.data 0 = sample_event.time ∧
      ld16 b'.data 16 = sample_event.dsize ∧
      b'.size = 16 + ALIGN (sample_event.dsize + 2) 8 :=
  have h := record_event_appends small_config small_config_wf true
    (prepare_shmem_buffer small_config new_thread) sample_event (by decide) (by decide)
    (by decide)
    (by
      intro i b hb
      match i, hb with
      | 0, hb =>
        simp only [prepare_shmem_buffer, List.getElem?_cons_zero, Option.some.injEq] at hb
        rw [← hb]; decide
      | 1, hb =>
        simp only [prepare_shmem_buffer, List.getElem?_cons_succ, List.getElem?_cons_zero,
          Option.some.injEq] at hb
        rw [← hb]; decide
      | k + 2, hb => simp [prepare_shmem_buffer] at hb)
    (prepare_shmem_buffer small_config new_thread) 0
    { fresh_shmem_buffer with flag := 5 } rfl rfl
  ⟨small_config_wf, by decide, by decide, by decide, h.1,
    match h.2 with
    | ⟨b', h1, h2, _, _, _, h5, _⟩ =>
      ⟨b', h1, h2, by simpa using (h5 (by decide)).1, by simpa using (h5 (by decide)).2.2⟩⟩

/-! ## C7, C8: strings in the argument scratch area -/

theorem st8_same (m : Mem) (a v : Nat) : st8 m a v a = v % 256 := by
  unfold st8 stLE
  rw [if_pos (by omega)]
  simp

theorem st8_other (m : Mem) (a v x : Nat) (h : x ≠ a) : st8 m a v x = m x := by
  unfold st8
  apply stLE_outside
  omega

theorem ld8_eq (m : Mem) (a : Nat) : ld8 m a = m a % 256 := by
  simp [ld8, ldLE]

theorem copy_str_copies (str : Nat → Nat) (dst : Nat) :
    ∀ (k fuel i len : Nat) (m : Mem), k ≤ fuel → i + k ≤ 99 →
      (∀ j, i ≤ j → j < i + k → str j % 256 ≠ 0) → len + k < 2 ^ 16 →
      ∃ m', copy_str str dst fuel i len m = copy_str str dst (fuel - k) (i + k) (len + k) m' ∧
        (∀ x, x < dst + i ∨ dst + i + k ≤ x → m' x = m x) ∧
        (∀ j, i ≤ j → j < i + k → m' (dst + j) = str j % 256) := by
  intro k
  induction k with
  | zero =>
    intro fuel i len m _ _ _ _
    exact ⟨m, rfl, fun _ _ => rfl, fun j h1 h2 => by omega⟩
  | succ k ih =>
    intro fuel i len m hf hi hnz hlen
    obtain ⟨f, rfl⟩ : ∃ f, fuel = f + 1 := ⟨fuel - 1, by omega⟩
    have hstep : copy_str str dst (f + 1) i len m
        = copy_str str dst f (i + 1) (len + 1) (st8 m (dst + i) (str i)) := by
      have hc : ¬ ARG_STR_MAX < i := by unfold ARG_STR_MAX; omega
      have hne : ¬ ld8 (st8 m (dst + i) (str i)) (dst + i) = 0 := by
        rw [ld8_eq, st8_same, Nat.mod_mod]
        exact hnz i (le_refl i) (by omega)
      rw [copy_str]
      simp only [hc, if_false, hne]
      rw [Nat.mod_eq_of_lt (by omega)]
    obtain ⟨m', h1, h2, h3⟩ := ih f (i + 1) (len + 1) (st8 m (dst + i) (str i)) (by omega)
      (by omega) (fun j hj1 hj2 => hnz j (by omega) (by omega)) (by omega)
    refine ⟨m', ?_, ?_, ?_⟩
    · rw [hstep, h1]
      congr 1 <;> omega
    · intro x hx
      rw [h2 x (by omega), st8_other _ _ _ _ (by omega)]
    · intro j hj1 hj2
      by_cases hji : j = i
      · subst hji
        rw [h2 (dst + j) (by omega), st8_same]
      · exact h3 j (by omega) (by omega)

theorem copy_str_long (str : Nat → Nat) (dst fuel : Nat) (m : Mem)
    (hnz : ∀ j, j < 99 → str j % 256 ≠ 0) (hf : 100 ≤ fuel) :
    (copy_str str dst fuel 0 0 m).2 = 99 ∧
    (copy_str str dst fuel 0 0 m).1 (dst + 96) = 46 ∧
    (copy_str str dst fuel 0 0 m).1 (dst + 97) = 46 ∧
    (copy_str str dst fuel 0 0 m).1 (dst + 98) = 46 ∧
    (copy_str str dst fuel 0 0 m).1 (dst + 99) = 0 ∧
    (∀ j, j < 96 → (copy_str str dst fuel 0 0 m).1 (dst + j) = str j % 256) ∧
    (∀ x, x < dst ∨ dst + 100 ≤ x → (copy_str str dst fuel 0 0 m).1 x = m x) := by
  obtain ⟨m', h1, h2, h3⟩ := copy_str_copies str dst 99 fuel 0 0 m (by omega) (by omega)
    (fun j _ hj => hnz j (by omega)) (by omega)
  obtain ⟨f, hf2⟩ : ∃ f, fuel - 99 = f + 1 := ⟨fuel - 100, by omega⟩
  rw [h1, hf2]
  simp only [Nat.zero_add]
  have hc : ARG_STR_MAX < 99 := by unfold ARG_STR_MAX; omega
  rw [copy_str]
  simp only [hc, if_true, ld8_eq, st8_same, Nat.zero_mod]
  refine ⟨trivial, ?_, ?_, ?_, ?_, ?_, ?_⟩
  · rw [st8_other _ _ _ _ (by omega), st8_other _ _ _ _ (by omega),
      st8_other _ _ _ _ (by omega), st8_same]
  · rw [st8_other _ _ _ _ (by omega), st8_other _ _ _ _ (by omega), st8_same]
  · rw [st8_other _ _ _ _ (by omega), st8_same]
  · trivial
  · intro j hj
    rw [st8_other _ _ _ _ (by omega), st8_other _ _ _ _ (by omega),
      st8_other _ _ _ _ (by omega), st8_other _ _ _ _ (by omega),
      st8_other _ _ _ _ (by omega)]
    exact h3 j (by omega) (by omega)
  · intro x hx
    rw [st8_other _ _ _ _ (by omega), st8_other _ _ _ _ (by omega),
      st8_other _ _ _ _ (by omega), st8_other _ _ _ _ (by omega),
      st8_other _ _ _ _ (by omega)]
    exact h2 x (by omega)

theorem copy_str_short (str : Nat → Nat) (dst fuel L : Nat) (m : Mem) (hL : L ≤ 98)
    (hnz : ∀ j, j < L → str j % 256 ≠ 0) (hz : str L % 256 = 0) (hf : L < fuel) :
    (copy_str str dst fuel 0 0 m).2 = L ∧
    (∀ j, j < L → (copy_str str dst fuel 0 0 m).1 (dst + j) = str j % 256) ∧
    (copy_str str dst fuel 0 0 m).1 (dst + L) = 0 ∧
    (∀ x, x < dst ∨ dst + L + 1 ≤ x → (copy_str str dst fuel 0 0 m).1 x = m x) := by
  obtain ⟨m', h1, h2, h3⟩ := copy_str_copies str dst L fuel 0 0 m (by omega) (by omega)
    (fun j _ hj => hnz j (by omega)) (by omega)
  obtain ⟨f, hf2⟩ : ∃ f, fuel - L = f + 1 := ⟨fuel - L - 1, by omega⟩
  rw [h1, hf2]
  simp only [Nat.zero_add]
  have hc : ¬ ARG_STR_MAX < L := by unfold ARG_STR_MAX; omega
  rw [copy_str]
  simp only [hc, if_false, ld8_eq, st8_same, Nat.mod_mod, hz, if_true]
  refine ⟨trivial, ?_, ?_, ?_⟩
  · intro j hj
    rw [st8_other _ _ _ _ (by omega)]
    exact h3 j (by omega) (by omega)
  · trivial
  · intro x hx
    rw [st8_other _ _ _ _ (by omega)]
    exact h2 x (by omega)

theorem max_size_eq (c : Config) (hc : c.wf) : max_size c = c.ARGBUF_SIZE - 4 := by
  have := hc.argbuf
  unfold max_size
  omega

theorem save_spec_str (c : Config) (is_retval : Bool) (st : argbuf_state)
    (spec : uftrace_arg_spec) (s : Nat → Nat) (hfmt : spec.fmt_str = true)
    (hsel : spec.retval = is_retval) (hstr : spec.str = some s) :
    save_spec c is_retval st spec =
      { mem := st16 (copy_str s (st.ptr + 2) ((max_size c + 2 ^ 32 - st.total_size) % 2 ^ 32)
                0 0 st.mem).1 st.ptr
              (copy_str s (st.ptr + 2) ((max_size c + 2 ^ 32 - st.total_size) % 2 ^ 32)
                0 0 st.mem).2,
        ptr := st.ptr + ALIGN ((copy_str s (st.ptr + 2)
                ((max_size c + 2 ^ 32 - st.total_size) % 2 ^ 32) 0 0 st.mem).2 + 2) 4,
        total_size := (st.total_size + ALIGN ((copy_str s (st.ptr + 2)
                ((max_size c + 2 ^ 32 - st.total_size) % 2 ^ 32) 0 0 st.mem).2 + 2) 4)
              % 2 ^ 32 } := by
  unfold save_spec
  simp [hsel, hfmt, hstr]

theorem st16_outside (m : Mem) (a v x : Nat) (h : x < a ∨ a + 2 ≤ x) : st16 m a v x = m x := by
  unfold st16
  exact stLE_outside 2 m a v x h

/-- C7 on the code: a non-null source string whose first 99 bytes are not zero (a string
longer than 98 bytes), saved with at least 100 bytes of room, is stored as 96 source
bytes, the three bytes "..." and a zero byte — but the 2-byte length stored before it
is 99, which exceeds `ARG_STR_MAX = 98`. -/
theorem save_spec_long_string (c : Config) (hc : c.wf) (is_retval : Bool) (st : argbuf_state)
    (spec : uftrace_arg_spec) (s : Nat → Nat) (hfmt : spec.fmt_str = true)
    (hsel : spec.retval = is_retval) (hstr : spec.str = some s)
    (hlong : ∀ j, j < 99 → s j % 256 ≠ 0) (hroom : st.total_size + 100 ≤ max_size c) :
    ld16 (save_spec c is_retval st spec).mem st.ptr = 99 ∧
    ARG_STR_MAX < ld16 (save_spec c is_retval st spec).mem st.ptr ∧
    (∀ j, j < 96 → (save_spec c is_retval st spec).mem (st.ptr + 2 + j) = s j % 256) ∧
    (save_spec c is_retval st spec).mem (st.ptr + 2 + 96) = 46 ∧
    (save_spec c is_retval st spec).mem (st.ptr + 2 + 97) = 46 ∧
    (save_spec c is_retval st spec).mem (st.ptr + 2 + 98) = 46 ∧
    (save_spec c is_retval st spec).mem (st.ptr + 2 + 99) = 0 := by
  have hmax := max_size_eq c hc
  have harg := hc.argbuf
  have hfuel : 100 ≤ (max_size c + 2 ^ 32 - st.total_size) % 2 ^ 32 := by omega
  obtain ⟨h1, h2, h3, h4, h5, h6, _⟩ :=
    copy_str_long s (st.ptr + 2) _ st.mem hlong hfuel
  rw [save_spec_str c is_retval st spec s hfmt hsel hstr]
  simp only
  have hl : ld16 (st16 (copy_str s (st.ptr + 2)
      ((max_size c + 2 ^ 32 - st.total_size) % 2 ^ 32) 0 0 st.mem).1 st.ptr
      (copy_str s (st.ptr + 2) ((max_size c + 2 ^ 32 - st.total_size) % 2 ^ 32) 0 0 st.mem).2)
      st.ptr = 99 := by
    rw [ld16_st16, h1]
    rfl
  refine ⟨hl, ?_, ?_, ?_, ?_, ?_, ?_⟩
  · rw [hl]; unfold ARG_STR_MAX; omega
  · intro j hj
    rw [st16_outside _ _ _ _ (by omega)]
    exact h6 j hj
  · rw [st16_outside _ _ _ _ (by omega)]; exact h2
  · rw [st16_outside _ _ _ _ (by omega)]; exact h3
  · rw [st16_outside _ _ _ _ (by omega)]; exact h4
  · rw [st16_outside _ _ _ _ (by omega)]; exact h5

/-- Witness of `save_spec_long_string`, and the failing input of C7: a string of 100
bytes 'a' saved into an empty slot of 1024 bytes is stored with length 99. -/
theorem save_spec_long_string_witness :
    small_config.wf ∧ hundred_a.fmt_str = true ∧ hundred_a.retval = false ∧
    empty_slot.total_size + 100 ≤ max_size small_config ∧
    ld16 (save_spec small_config false empty_slot hundred_a).mem empty_slot.ptr = 99 ∧
    ARG_STR_MAX < ld16 (save_spec small_config false empty_slot hundred_a).mem empty_slot.ptr :=
  have h := save_spec_long_string small_config small_config_wf false empty_slot hundred_a
    (fun i => if i < 100 then 97 else 0) rfl rfl rfl
    (by intro j hj; simp only; rw [if_pos (by omega)]; decide) (by decide)
  ⟨small_config_wf, rfl, rfl, by decide, h.1, h.2.1⟩

/-- C8: a string specification processed by `save_to_argbuf` while the running total does
not exceed the slot: a NULL source is stored as the 2-byte length 4 followed by the bytes
'N', 'U', 'L', 'L'; a source of `L <= 98` non-zero bytes followed by a zero byte, with more
than `L` bytes of room, is stored as the 2-byte length `L` followed by its `L` bytes; in
both cases the write pointer and the running total advance by the length plus 2 rounded
up to a multiple of 4. -/
theorem save_spec_string (c : Config) (hc : c.wf) (is_retval : Bool) (st : argbuf_state)
    (spec : uftrace_arg_spec) (hfmt : spec.fmt_str = true) (hsel : spec.retval = is_retval)
    (htot : st.total_size ≤ max_size c) :
    (spec.str = none →
      ld16 (save_spec c is_retval st spec).mem st.ptr = 4 ∧
      (save_spec c is_retval st spec).mem (st.ptr + 2) = 78 ∧
      (save_spec c is_retval st spec).mem (st.ptr + 3) = 85 ∧
      (save_spec c is_retval st spec).mem (st.ptr + 4) = 76 ∧
      (save_spec c is_retval st spec).mem (st.ptr + 5) = 76 ∧
      (save_spec c is_retval st spec).ptr = st.ptr + ALIGN (4 + 2) 4 ∧
      (save_spec c is_retval st spec).total_size = st.total_size + ALIGN (4 + 2) 4) ∧
    (∀ (s : Nat → Nat) (L : Nat), spec.str = some s → L ≤ 98 →
      (∀ j, j < L → s j % 256 ≠ 0) → s L % 256 = 0 → st.total_size + L < max_size c →
      ld16 (save_spec c is_retval st spec).mem st.ptr = L ∧
      (∀ j, j < L → (save_spec c is_retval st spec).mem (st.ptr + 2 + j) = s j % 256) ∧
      (save_spec c is_retval st spec).ptr = st.ptr + ALIGN (L + 2) 4 ∧
      (save_spec c is_retval st spec).total_size = st.total_size + ALIGN (L + 2) 4) := by
  have hmax := max_size_eq c hc
  have harg := hc.argbuf
  constructor
  · intro hnull
    have hsp : save_spec c is_retval st spec =
        { mem := memcpy (memcpy st.mem st.ptr (fun i => (4 / 256 ^ i) % 256) 2)
                   (st.ptr + 2) null_str 4,
          ptr := st.ptr + ALIGN (4 + 2) 4,
          total_size := (st.total_size + ALIGN (4 + 2) 4) % 2 ^ 32 } := by
      unfold save_spec
      simp [hsel, hfmt, hnull]
    rw [hsp]
    refine ⟨?_, ?_, ?_, ?_, ?_, rfl, ?_⟩
    · unfold ld16
      rw [ldLE_memcpy_disjoint _ _ _ _ _ _ (by omega)]
      simp only [ldLE]
      have e0 := memcpy_inside st.mem st.ptr (fun i => (4 / 256 ^ i) % 256) 2 0 (by omega)
      have e1 := memcpy_inside st.mem st.ptr (fun i => (4 / 256 ^ i) % 256) 2 1 (by omega)
      rw [Nat.add_zero] at e0
      rw [e0, e1]
      rfl
    · exact memcpy_inside _ (st.ptr + 2) null_str 4 0 (by omega)
    · exact memcpy_inside _ (st.ptr + 2) null_str 4 1 (by omega)
    · exact memcpy_inside _ (st.ptr + 2) null_str 4 2 (by omega)
    · exact memcpy_inside _ (st.ptr + 2) null_str 4 3 (by omega)
    · have : ALIGN (4 + 2) 4 = 8 := by decide
      show (st.total_size + ALIGN (4 + 2) 4) % 2 ^ 32 = st.total_size + ALIGN (4 + 2) 4
      omega
  · intro s L hstr hL hnz hz hroom
    have hfuel : L < (max_size c + 2 ^ 32 - st.total_size) % 2 ^ 32 := by omega
    obtain ⟨h1, h2, _, _⟩ := copy_str_short s (st.ptr + 2) _ L st.mem hL hnz hz hfuel
    rw [save_spec_str c is_retval st spec s hfmt hsel hstr]
    simp only
    rw [h1]
    refine ⟨?_, ?_, rfl, ?_⟩
    · rw [ld16_st16]
      omega
    · intro j hj
      rw [st16_outside _ _ _ _ (by omega)]
      exact h2 j hj
    · have : ALIGN (L + 2) 4 < L + 2 + 4 := by unfold ALIGN; omega
      omega

/-- Witness of `save_spec_string`: the string "hi" saved into an empty slot. -/
theorem save_spec_string_witness :
    small_config.wf ∧ short_str.fmt_str = true ∧ short_str.retval = false ∧
    empty_slot.total_size ≤ max_size small_config ∧
    ld16 (save_spec small_config false empty_slot short_str).mem empty_slot.ptr = 2 ∧
    (save_spec small_config false empty_slot short_str).total_size
      = empty_slot.total_size + ALIGN (2 + 2) 4 :=
  have h := (save_spec_string small_config small_config_wf false empty_slot short_str
    rfl rfl (by decide)).2 (fun i => [104, 105].getD i 0) 2 rfl (by decide)
    (by intro j hj; interval_cases j <;> decide) (by decide) (by decide)
  ⟨small_config_wf, rfl, rfl, by decide, h.1, h.2.2.2⟩

/-! ## C9: argument bytes and events in one slot -/

set_option maxRecDepth 1000000 in
/-- The failing input of C9 evaluated.  At function entry `save_argument` stores
`big_args` in the slot of frame 0: the size header is 1000 and `ARGUMENT` is set, so
argument data occupies the bytes 4 .. 1003.  A trigger read of the memory counters
(an event of 40 bytes) is then not rejected: it is stored at 984 .. 1023, the event
count becomes 1 and the event cursor 984, below the end of the argument data, and the
argument byte at offset 984 is overwritten. -/
theorem trigger_read_overwrites_arguments :
    ld32 (save_argument small_config new_thread 0 entry_frame big_args).1.argbuf 0 = 1000 ∧
    (save_argument small_config new_thread 0 entry_frame big_args).2.flags
      &&& small_config.MCOUNT_FL_ARGUMENT ≠ 0 ∧
    (save_argument small_config new_thread 0 entry_frame big_args).1.argbuf 984 = 97 ∧
    (save_trigger_read small_config
      (save_argument small_config new_thread 0 entry_frame big_args).1 0
      (save_argument small_config new_thread 0 entry_frame big_args).2
      (small_config.TRIGGER_READ read_evt.PROC_STATM) false statm_reading).2.nr_events = 1 ∧
    (save_trigger_read small_config
      (save_argument small_config new_thread 0 entry_frame big_args).1 0
      (save_argument small_config new_thread 0 entry_frame big_args).2
      (small_config.TRIGGER_READ read_evt.PROC_STATM) false statm_reading).2.event_idx = 984 ∧
    (save_trigger_read small_config
      (save_argument small_config new_thread 0 entry_frame big_args).1 0
      (save_argument small_config new_thread 0 entry_frame big_args).2
      (small_config.TRIGGER_READ read_evt.PROC_STATM) false statm_reading).1.argbuf 984 = 232 := by
  decide

/-! ## C10: diff-mode trigger reads -/

theorem trigger_read_step_skip (tidx arg_data type : Nat) (diff : Bool)
    (sample : read_evt → Option (Nat → Nat)) (st : trigger_state) (red : read_event_data)
    (h : type &&& red.type = 0) :
    trigger_read_step tidx arg_data type diff sample st red = st := by
  unfold trigger_read_step
  rw [if_pos h]

theorem read_events_single (c : Config) (hc : c.wf) (e : read_evt) (tidx arg_data : Nat)
    (diff : Bool) (sample : read_evt → Option (Nat → Nat)) (st : trigger_state) :
    (read_events c).foldl (trigger_read_step tidx arg_data (c.TRIGGER_READ e) diff sample) st
      = trigger_read_step tidx arg_data (c.TRIGGER_READ e) diff sample st
          (read_event_row c e) := by
  have hskip : ∀ e' st', e ≠ e' →
      trigger_read_step tidx arg_data (c.TRIGGER_READ e) diff sample st' (read_event_row c e')
        = st' := by
    intro e' st' hne
    exact trigger_read_step_skip _ _ _ _ _ _ _ (hc.read_disjoint e e' hne)
  unfold read_events
  simp only [List.foldl_cons, List.foldl_nil]
  cases e <;>
    repeat (first
      | rw [hskip read_evt.PROC_STATM _ (by decide)]
      | rw [hskip read_evt.PAGE_FAULT _ (by decide)]
      | rw [hskip read_evt.PMU_CYCLE _ (by decide)]
      | rw [hskip read_evt.PMU_CACHE _ (by decide)]
      | rw [hskip read_evt.PMU_BRANCH _ (by decide)])

theorem row_size (e : read_evt) :
    (EVTBUF_HDR + 8 * nr_fields e) % 2 ^ 16 = 16 + 8 * nr_fields e ∧
      (nr_fields e = 2 ∨ nr_fields e = 3) := by
  cases e <;> simp [EVTBUF_HDR, nr_fields]

theorem trigger_read_step_stored (tidx arg_data type : Nat) (diff : Bool)
    (sample : read_evt → Option (Nat → Nat)) (st : trigger_state) (red : read_event_data)
    (h : (trigger_read_step tidx arg_data type diff sample st red).rstack.nr_events
      = st.rstack.nr_events + 1) :
    ∃ v, sample red.evt = some v ∧ arg_data + (EVTBUF_HDR + red.size) % 2 ^ 16 ≤ st.ptr ∧
      trigger_read_step tidx arg_data type diff sample st red = store_event tidx diff v st red := by
  unfold trigger_read_step at h ⊢
  by_cases h1 : type &&& red.type = 0
  · rw [if_pos h1] at h; omega
  · rw [if_neg h1] at h ⊢
    simp only at h ⊢
    by_cases h2 : st.ptr < arg_data + (EVTBUF_HDR + red.size) % 2 ^ 16
    · rw [if_pos h2] at h; omega
    · rw [if_neg h2] at h ⊢
      cases hs : sample red.evt with
      | none => rw [hs] at h; simp only at h; omega
      | some v => exact ⟨v, rfl, by omega, rfl⟩

theorem st32_outside (m : Mem) (a v x : Nat) (h : x < a ∨ a + 4 ≤ x) : st32 m a v x = m x := by
  unfold st32
  exact stLE_outside 4 m a v x h

theorem st64_outside (m : Mem) (a v x : Nat) (h : x < a ∨ a + 8 ≤ x) : st64 m a v x = m x := by
  unfold st64
  exact stLE_outside 8 m a v x h

theorem write_event_header_outside (m : Mem) (event id time dsize tidx x : Nat)
    (h : x < event ∨ event + 16 ≤ x) :
    write_event_header m event id time dsize tidx x = m x := by
  unfold write_event_header
  rw [st16_outside _ _ _ _ (by omega), st16_outside _ _ _ _ (by omega),
    st64_outside _ _ _ _ (by omega), st32_outside _ _ _ _ (by omega)]

theorem write_event_header_id (m : Mem) (event id time dsize tidx : Nat) :
    ld32 (write_event_header m event id time dsize tidx) (event + 8) = id % 2 ^ 32 := by
  unfold write_event_header ld32 st16 st64
  rw [ldLE_stLE_disjoint _ _ _ _ _ _ (by omega), ldLE_stLE_disjoint _ _ _ _ _ _ (by omega),
    ldLE_stLE_disjoint _ _ _ _ _ _ (by omega)]
  exact ld32_st32 _ _ _

theorem store_fields_outside (m : Mem) (dst : Nat) (v : Nat → Nat) (n x : Nat)
    (h : x < dst ∨ dst + 8 * n ≤ x) : store_fields m dst v n x = m x := by
  induction n with
  | zero => rfl
  | succ k ih =>
    rw [store_fields, st64_outside _ _ _ _ (by omega)]
    exact ih (by omega)

theorem store_fields_field (m : Mem) (dst : Nat) (v : Nat → Nat) (n k : Nat) (hk : k < n) :
    ld64 (store_fields m dst v n) (dst + 8 * k) = v k % 2 ^ 64 := by
  induction n with
  | zero => omega
  | succ j ih =>
    rw [store_fields]
    by_cases hkj : k = j
    · subst hkj
      exact ld64_st64 _ _ _
    · rw [ld64_st64_disjoint _ _ _ _ (by omega)]
      exact ih (by omega)

theorem diff_field_outside (m : Mem) (dst src off x : Nat)
    (h : x < dst + off ∨ dst + off + 8 ≤ x) : diff_field m dst src off x = m x := by
  unfold diff_field
  exact st64_outside _ _ _ _ h

theorem diff_field_same (m : Mem) (dst src off : Nat) :
    ld64 (diff_field m dst src off) (dst + off)
      = (ld64 m (dst + off) + 2 ^ 64 - ld64 m (src + off)) % 2 ^ 64 := by
  unfold diff_field
  rw [ld64_st64, Nat.mod_mod]

theorem ld64_congr (m1 m2 : Mem) (a : Nat) (h : ∀ x, a ≤ x → x < a + 8 → m1 x = m2 x) :
    ld64 m1 a = ld64 m2 a := by
  unfold ld64
  exact ldLE_congr 8 m1 m2 a h

theorem ld32_congr (m1 m2 : Mem) (a : Nat) (h : ∀ x, a ≤ x → x < a + 4 → m1 x = m2 x) :
    ld32 m1 a = ld32 m2 a := by
  unfold ld32
  exact ldLE_congr 4 m1 m2 a h

theorem diff_for_spec (e : read_evt) (m : Mem) (dst src : Nat)
    (hsep : dst + 8 * nr_fields e ≤ src ∨ src + 8 * nr_fields e ≤ dst) :
    (∀ k, k < nr_fields e →
      ld64 (diff_for e m dst src) (dst + 8 * k)
        = (ld64 m (dst + 8 * k) + 2 ^ 64 - ld64 m (src + 8 * k)) % 2 ^ 64) ∧
    (∀ x, x < dst ∨ dst + 8 * nr_fields e ≤ x → diff_for e m dst src x = m x) := by
  have two : ∀ (m : Mem), (dst + 8 * 2 ≤ src ∨ src + 8 * 2 ≤ dst) →
      (∀ k, k < 2 →
        ld64 (diff_field (diff_field m dst src 0) dst src 8) (dst + 8 * k)
          = (ld64 m (dst + 8 * k) + 2 ^ 64 - ld64 m (src + 8 * k)) % 2 ^ 64) ∧
      (∀ x, x < dst ∨ dst + 8 * 2 ≤ x →
        diff_field (diff_field m dst src 0) dst src 8 x = m x) := by
    intro m hs
    constructor
    · intro k hk
      interval_cases k
      · rw [ld64_congr _ (diff_field m dst src 0) _
          (fun x h1 h2 => diff_field_outside _ _ _ _ _ (by omega))]
        exact diff_field_same m dst src 0
      · rw [show dst + 8 * 1 = dst + 8 by omega, show src + 8 * 1 = src + 8 by omega,
          diff_field_same]
        rw [ld64_congr (diff_field m dst src 0) m (dst + 8)
            (fun x h1 h2 => diff_field_outside _ _ _ _ _ (by omega)),
          ld64_congr (diff_field m dst src 0) m (src + 8)
            (fun x h1 h2 => diff_field_outside _ _ _ _ _ (by omega))]
    · intro x hx
      rw [diff_field_outside _ _ _ _ _ (by omega), diff_field_outside _ _ _ _ _ (by omega)]
  cases e with
  | PROC_STATM =>
    simp only [nr_fields, diff_for, diff_proc_statm] at hsep ⊢
    constructor
    · intro k hk
      interval_cases k
      · rw [ld64_congr _ (diff_field m dst src 0) _ (fun x h1 h2 => by
          rw [diff_field_outside _ _ _ _ _ (by omega), diff_field_outside _ _ _ _ _ (by omega)])]
        exact diff_field_same m dst src 0
      · rw [show dst + 8 * 1 = dst + 8 by omega, show src + 8 * 1 = src + 8 by omega]
        rw [ld64_congr _ (diff_field (diff_field m dst src 0) dst src 8) _
          (fun x h1 h2 => diff_field_outside _ _ _ _ _ (by omega)), diff_field_same]
        rw [ld64_congr (diff_field m dst src 0) m (dst + 8)
            (fun x h1 h2 => diff_field_outside _ _ _ _ _ (by omega)),
          ld64_congr (diff_field m dst src 0) m (src + 8)
            (fun x h1 h2 => diff_field_outside _ _ _ _ _ (by omega))]
      · rw [show dst + 8 * 2 = dst + 16 by omega, show src + 8 * 2 = src + 16 by omega,
          diff_field_same]
        rw [ld64_congr (diff_field (diff_field m dst src 0) dst src 8) m (dst + 16)
            (fun x h1 h2 => by
              rw [diff_field_outside _ _ _ _ _ (by omega),
                diff_field_outside _ _ _ _ _ (by omega)]),
          ld64_congr (diff_field (diff_field m dst src 0) dst src 8) m (src + 16)
            (fun x h1 h2 => by
              rw [diff_field_outside _ _ _ _ _ (by omega),
                diff_field_outside _ _ _ _ _ (by omega)])]
    · intro x hx
      rw [diff_field_outside _ _ _ _ _ (by omega), diff_field_outside _ _ _ _ _ (by omega),
        diff_field_outside _ _ _ _ _ (by omega)]
  | PAGE_FAULT => exact two m hsep
  | PMU_CYCLE => exact two m hsep
  | PMU_CACHE => exact two m hsep
  | PMU_BRANCH => exact two m hsep

theorem diff_mem_spec (c : Config) (e : read_evt) (m : Mem) (P1 P2 nf T1 T2 x1 x2 nr : Nat)
    (s1 s2 : Nat → Nat) (hnf : nr_fields e = nf) (hP : P2 + (16 + 8 * nf) = P1) :
    ld32 (diff_event (read_event_row c e)
      (store_fields (write_event_header
          (store_fields (write_event_header m P1 (c.EVENT_ID_READ e) T1 (8 * nf) x1)
            (P1 + EVTBUF_HDR) s1 nf)
          P2 (c.EVENT_ID_READ e) T2 (8 * nf) x2) (P2 + EVTBUF_HDR) s2 nf)
      P1 P2 (nr + 1)) (P2 + 8) = c.EVENT_ID_DIFF e % 2 ^ 32 ∧
    ∀ k, k < nf →
      ld64 (diff_event (read_event_row c e)
        (store_fields (write_event_header
            (store_fields (write_event_header m P1 (c.EVENT_ID_READ e) T1 (8 * nf) x1)
              (P1 + EVTBUF_HDR) s1 nf)
            P2 (c.EVENT_ID_READ e) T2 (8 * nf) x2) (P2 + EVTBUF_HDR) s2 nf)
        P1 P2 (nr + 1)) (P2 + EVTBUF_HDR + 8 * k)
        = (s2 k % 2 ^ 64 + 2 ^ 64 - s1 k % 2 ^ 64) % 2 ^ 64 := by
  generalize hM1 : store_fields (write_event_header m P1 (c.EVENT_ID_READ e) T1 (8 * nf) x1)
    (P1 + EVTBUF_HDR) s1 nf = M1
  generalize hM2 : store_fields (write_event_header M1 P2 (c.EVENT_ID_READ e) T2 (8 * nf) x2)
    (P2 + EVTBUF_HDR) s2 nf = M2
  have hH : EVTBUF_HDR = 16 := rfl
  -- what the two stores left in memory
  have a1 : ld32 M1 (P1 + 8) = c.EVENT_ID_READ e % 2 ^ 32 := by
    rw [← hM1, ld32_congr _ (write_event_header m P1 (c.EVENT_ID_READ e) T1 (8 * nf) x1) _
      (fun x h1 h2 => store_fields_outside _ _ _ _ _ (by omega))]
    exact write_event_header_id _ _ _ _ _ _
  have a2 : ∀ k, k < nf → ld64 M1 (P1 + EVTBUF_HDR + 8 * k) = s1 k % 2 ^ 64 := by
    intro k hk
    rw [← hM1]
    exact store_fields_field _ _ _ _ _ hk
  have frame2 : ∀ x, P1 ≤ x → M2 x = M1 x := by
    intro x hx
    rw [← hM2, store_fields_outside _ _ _ _ _ (by omega),
      write_event_header_outside _ _ _ _ _ _ _ (by omega)]
  have b1 : ld32 M2 (P2 + 8) = c.EVENT_ID_READ e % 2 ^ 32 := by
    rw [← hM2, ld32_congr _ (write_event_header M1 P2 (c.EVENT_ID_READ e) T2 (8 * nf) x2) _
      (fun x h1 h2 => store_fields_outside _ _ _ _ _ (by omega))]
    exact write_event_header_id _ _ _ _ _ _
  have b2 : ∀ k, k < nf → ld64 M2 (P2 + EVTBUF_HDR + 8 * k) = s2 k % 2 ^ 64 := by
    intro k hk
    rw [← hM2]
    exact store_fields_field _ _ _ _ _ hk
  have b3 : ld32 M2 (P1 + 8) = c.EVENT_ID_READ e % 2 ^ 32 := by
    rw [ld32_congr M2 M1 _ (fun x h1 h2 => frame2 x (by omega))]
    exact a1
  have b4 : ∀ k, k < nf → ld64 M2 (P1 + EVTBUF_HDR + 8 * k) = s1 k % 2 ^ 64 := by
    intro k hk
    rw [ld64_congr M2 M1 _ (fun x h1 h2 => frame2 x (by omega))]
    exact a2 k hk
  -- the search finds the first sample at once
  have hfind : find_old_event M2 P1 P2 (nr + 1) 0 none = some P1 := by
    rw [find_old_event]
    simp only [get_event_pointer]
    rw [b3, b1, if_pos rfl]
  unfold diff_event
  rw [hfind]
  simp only
  have hd : (read_event_row c e).diff = diff_for e := rfl
  have hi : (read_event_row c e).id_diff = c.EVENT_ID_DIFF e := rfl
  rw [hd, hi]
  obtain ⟨d1, d2⟩ := diff_for_spec e (st32 M2 (P2 + 8) (c.EVENT_ID_DIFF e)) (P2 + EVTBUF_HDR)
    (P1 + EVTBUF_HDR) (by left; omega)
  rw [hnf] at d1 d2
  constructor
  · rw [ld32_congr _ (st32 M2 (P2 + 8) (c.EVENT_ID_DIFF e)) _
      (fun x h1 h2 => d2 x (by omega))]
    exact ld32_st32 _ _ _
  · intro k hk
    rw [d1 k hk]
    rw [ld64_congr (st32 M2 (P2 + 8) (c.EVENT_ID_DIFF e)) M2 (P2 + EVTBUF_HDR + 8 * k)
        (fun x h1 h2 => st32_outside _ _ _ _ (by omega)),
      ld64_congr (st32 M2 (P2 + 8) (c.EVENT_ID_DIFF e)) M2 (P1 + EVTBUF_HDR + 8 * k)
        (fun x h1 h2 => st32_outside _ _ _ _ (by omega)),
      b2 k hk, b4 k hk]

theorem diff_event_first (red : read_event_data) (m : Mem) (ptr event nr : Nat) (diff : Bool)
    (h : diff = false ∨ nr = 0) :
    (if diff = true then diff_event red m ptr event nr else m) = m := by
  rcases h with h | h
  · simp [h]
  · subst h
    simp [diff_event, find_old_event]

theorem save_trigger_read_single (c : Config) (hc : c.wf) (mtdp : mcount_thread_data) (ri : Nat)
    (rstack : mcount_ret_stack) (e : read_evt) (diff : Bool)
    (sample : read_evt → Option (Nat → Nat)) :
    ∃ arg_data, get_argbuf c ri ≤ arg_data ∧
      save_trigger_read c mtdp ri rstack (c.TRIGGER_READ e) diff sample =
        ({ mtdp with argbuf := (trigger_read_step mtdp.idx arg_data (c.TRIGGER_READ e) diff sample
              { mem := mtdp.argbuf, rstack := rstack, ptr := get_argbuf c ri + rstack.event_idx }
              (read_event_row c e)).mem },
          (trigger_read_step mtdp.idx arg_data (c.TRIGGER_READ e) diff sample
              { mem := mtdp.argbuf, rstack := rstack, ptr := get_argbuf c ri + rstack.event_idx }
              (read_event_row c e)).rstack) := by
  unfold save_trigger_read
  simp only
  rw [read_events_single c hc]
  exact ⟨_, by split <;> omega, rfl⟩

theorem diff_two_calls (c : Config) (hc : c.wf) (mtdp : mcount_thread_data) (ri : Nat)
    (rstack : mcount_ret_stack) (e : read_evt)
    (sample1 sample2 : read_evt → Option (Nat → Nat)) (s1 s2 : Nat → Nat) (diff1 : Bool)
    (hraw : diff1 = false ∨ rstack.nr_events = 0)
    (h1 : sample1 e = some s1) (h2 : sample2 e = some s2)
    (hr1 : ∀ k, s1 k < 2 ^ 64) (hr2 : ∀ k, s2 k < 2 ^ 64)
    (mtdp1 mtdp2 : mcount_thread_data) (rstack1 rstack2 : mcount_ret_stack)
    (hcall1 : save_trigger_read c mtdp ri rstack (c.TRIGGER_READ e) diff1 sample1
      = (mtdp1, rstack1))
    (hst1 : rstack1.nr_events = rstack.nr_events + 1)
    (hcall2 : save_trigger_read c mtdp1 ri rstack1 (c.TRIGGER_READ e) true sample2
      = (mtdp2, rstack2))
    (hst2 : rstack2.nr_events = rstack1.nr_events + 1) :
    ld32 mtdp2.argbuf (get_argbuf c ri + rstack2.event_idx + 8) = c.EVENT_ID_DIFF e ∧
    ∀ k, k < nr_fields e →
      ld64 mtdp2.argbuf (get_argbuf c ri + rstack2.event_idx + EVTBUF_HDR + 8 * k)
        = (s2 k + 2 ^ 64 - s1 k) % 2 ^ 64 := by
  obtain ⟨hsz, _⟩ := row_size e
  have hrow_size : (read_event_row c e).size = 8 * nr_fields e := rfl
  have hrow_evt : (read_event_row c e).evt = e := rfl
  have hrow_idr : (read_event_row c e).id_read = c.EVENT_ID_READ e := rfl
  generalize hbase : get_argbuf c ri = base at *
  -- the first call
  obtain ⟨ad1, hb1, e1⟩ := save_trigger_read_single c hc mtdp ri rstack e diff1 sample1
  rw [hbase] at hb1 e1
  rw [e1] at hcall1
  simp only [Prod.mk.injEq] at hcall1
  obtain ⟨hm1, hrs1⟩ := hcall1
  rw [← hrs1] at hst1
  obtain ⟨v1, hv1, hg1, heq1⟩ := trigger_read_step_stored _ _ _ _ _ _ _ hst1
  rw [hrow_evt, h1] at hv1
  cases hv1
  rw [heq1] at hm1 hrs1
  simp only [store_event, diff_event_first _ _ _ _ _ _ hraw, hrow_size, hrow_evt, hrow_idr,
    hsz] at hm1 hrs1 hg1
  -- the second call
  obtain ⟨ad2, hb2, e2⟩ := save_trigger_read_single c hc mtdp1 ri rstack1 e true sample2
  rw [hbase] at hb2 e2
  rw [e2] at hcall2
  simp only [Prod.mk.injEq] at hcall2
  obtain ⟨hm2, hrs2⟩ := hcall2
  rw [← hrs2] at hst2
  obtain ⟨v2, hv2, hg2, heq2⟩ := trigger_read_step_stored _ _ _ _ _ _ _ hst2
  rw [hrow_evt, h2] at hv2
  cases hv2
  rw [heq2] at hm2 hrs2
  simp only [store_event, if_true, hrow_size, hrow_evt, hrow_idr, hsz] at hm2 hrs2 hg2
  subst hm2 hrs2
  subst hm1 hrs1
  simp only at hg2 ⊢
  have hA : base + rstack.event_idx - (16 + 8 * nr_fields e)
      = base + (rstack.event_idx - (16 + 8 * nr_fields e)) := by omega
  have hB : base + (rstack.event_idx - (16 + 8 * nr_fields e) - (16 + 8 * nr_fields e))
      = base + (rstack.event_idx - (16 + 8 * nr_fields e)) - (16 + 8 * nr_fields e) := by omega
  rw [hA, hB]
  have key := diff_mem_spec c e mtdp.argbuf
    (base + (rstack.event_idx - (16 + 8 * nr_fields e)))
    (base + (rstack.event_idx - (16 + 8 * nr_fields e)) - (16 + 8 * nr_fields e))
    (nr_fields e) (event_time rstack)
    (event_time { rstack with nr_events := rstack.nr_events + 1,
                              event_idx := rstack.event_idx - (16 + 8 * nr_fields e) })
    mtdp.idx mtdp.idx rstack.nr_events s1 s2 rfl (by omega)
  obtain ⟨k1, k2⟩ := key
  refine ⟨?_, ?_⟩
  · rw [k1]
    exact Nat.mod_eq_of_lt (hc.ids e).2
  · intro k hk
    rw [k2 k hk, Nat.mod_eq_of_lt (hr1 k), Nat.mod_eq_of_lt (hr2 k)]


/-- C10: for every read type of the `read_events` table and every frame, if a call of
`save_trigger_read` for that read type stores a first reading `s1` on the frame (a call
that is not in diff mode, or the first event of the frame) and a second call for the
same read type in diff mode, obtaining the reading `s2`, stores an event too, then that
second event carries the diff variant of the id and its payload is `s2 - s1` field by
field, in 64-bit wrap-around arithmetic. -/
theorem diff_sample_is_difference (c : Config) (hc : c.wf) (mtdp : mcount_thread_data)
    (ri : Nat) (rstack : mcount_ret_stack) (e : read_evt)
    (sample1 sample2 : read_evt → Option (Nat → Nat)) (s1 s2 : Nat → Nat) (diff1 : Bool)
    (hraw : diff1 = false ∨ rstack.nr_events = 0)
    (h1 : sample1 e = some s1) (h2 : sample2 e = some s2)
    (hr1 : ∀ k, s1 k < 2 ^ 64) (hr2 : ∀ k, s2 k < 2 ^ 64)
    (mtdp1 mtdp2 : mcount_thread_data) (rstack1 rstack2 : mcount_ret_stack)
    (hcall1 : save_trigger_read c mtdp ri rstack (c.TRIGGER_READ e) diff1 sample1
      = (mtdp1, rstack1))
    (hst1 : rstack1.nr_events = rstack.nr_events + 1)
    (hcall2 : save_trigger_read c mtdp1 ri rstack1 (c.TRIGGER_READ e) true sample2
      = (mtdp2, rstack2))
    (hst2 : rstack2.nr_events = rstack1.nr_events + 1) :
    ld32 mtdp2.argbuf (get_argbuf c ri + rstack2.event_idx + 8) = c.EVENT_ID_DIFF e ∧
    ∀ k, k < nr_fields e →
      ld64 mtdp2.argbuf (get_argbuf c ri + rstack2.event_idx + EVTBUF_HDR + 8 * k)
        = (s2 k + 2 ^ 64 - s1 k) % 2 ^ 64 :=
  diff_two_calls c hc mtdp ri rstack e sample1 sample2 s1 s2 diff1 hraw h1 h2 hr1 hr2 mtdp1 mtdp2
    rstack1 rstack2 hcall1 hst1 hcall2 hst2

/-- Witness of `diff_sample_is_difference`: the memory counters read at entry
(7000, 800, 90) and again at exit in diff mode (7100, 790, 95) on `entry_frame`; the
second event carries the differences 100, -10 (wrapped) and 5. -/
theorem diff_sample_is_difference_witness :
    small_config.wf ∧
    (save_trigger_read small_config new_thread 0 entry_frame
      (small_config.TRIGGER_READ read_evt.PROC_STATM) false statm_reading).2.nr_events
      = entry_frame.nr_events + 1 ∧
    (save_trigger_read small_config
      (save_trigger_read small_config new_thread 0 entry_frame
        (small_config.TRIGGER_READ read_evt.PROC_STATM) false statm_reading).1 0
      (save_trigger_read small_config new_thread 0 entry_frame
        (small_config.TRIGGER_READ read_evt.PROC_STATM) false statm_reading).2
      (small_config.TRIGGER_READ read_evt.PROC_STATM) true statm_reading_exit).2.nr_events
      = 2 ∧
    ld32 (save_trigger_read small_config
      (save_trigger_read small_config new_thread 0 entry_frame
        (small_config.TRIGGER_READ read_evt.PROC_STATM) false statm_reading).1 0
      (save_trigger_read small_config new_thread 0 entry_frame
        (small_config.TRIGGER_READ read_evt.PROC_STATM) false statm_reading).2
      (small_config.TRIGGER_READ read_evt.PROC_STATM) true statm_reading_exit).1.argbuf
      (get_argbuf small_config 0 + (save_trigger_read small_config
        (save_trigger_read small_config new_thread 0 entry_frame
          (small_config.TRIGGER_READ read_evt.PROC_STATM) false statm_reading).1 0
        (save_trigger_read small_config new_thread 0 entry_frame
          (small_config.TRIGGER_READ read_evt.PROC_STATM) false statm_reading).2
        (small_config.TRIGGER_READ read_evt.PROC_STATM) true statm_reading_exit).2.event_idx + 8)
      = small_config.EVENT_ID_DIFF read_evt.PROC_STATM :=
  ⟨small_config_wf, by decide, by decide,
    (diff_sample_is_difference small_config small_config_wf new_thread 0 entry_frame
      read_evt.PROC_STATM statm_reading statm_reading_exit
      (fun k => [7000, 800, 90].getD k 0) (fun k => [7100, 790, 95].getD k 0) false
      (Or.inl rfl) rfl rfl
      (by
        intro k
        match k with
        | 0 => decide
        | 1 => decide
        | 2 => decide
        | n + 3 => simp)
      (by
        intro k
        match k with
        | 0 => decide
        | 1 => decide
        | 2 => decide
        | n + 3 => simp)
      _ _ _ _ rfl (by decide) rfl (by decide)).1⟩

/-! ## Theorems: the frame encoder -/

theorem get_new_shmem_buffer_keeps (c : Config) (alloc : Bool) (m : mcount_thread_data) :
    (get_new_shmem_buffer c alloc m).argbuf = m.argbuf ∧
      (get_new_shmem_buffer c alloc m).event = m.event ∧
      (get_new_shmem_buffer c alloc m).shmem.done = m.shmem.done := by
  unfold get_new_shmem_buffer reuse
  dsimp only
  split_ifs <;> exact ⟨rfl, rfl, rfl⟩

theorem get_shmem_buffer_keeps (c : Config) (alloc : Bool) (m : mcount_thread_data) (size : Nat) :
    (get_shmem_buffer c alloc m size).1.argbuf = m.argbuf ∧
      (get_shmem_buffer c alloc m size).1.event = m.event ∧
      (get_shmem_buffer c alloc m size).1.shmem.done = m.shmem.done := by
  unfold get_shmem_buffer
  by_cases h1 : needs_new c m.shmem size = true
  · rw [if_pos h1]
    by_cases h2 : m.shmem.done = true
    · rw [if_pos h2]
      exact ⟨rfl, rfl, rfl⟩
    · rw [if_neg h2]
      dsimp only
      have key : ∀ m1 : mcount_thread_data, m1.argbuf = m.argbuf → m1.event = m.event →
          m1.shmem.done = m.shmem.done →
          (if (get_new_shmem_buffer c alloc m1).shmem.curr = -1 then
            (({ get_new_shmem_buffer c alloc m1 with
                shmem := { (get_new_shmem_buffer c alloc m1).shmem with
                  losts := (get_new_shmem_buffer c alloc m1).shmem.losts + 1 } } :
                mcount_thread_data), (none : Option Nat))
           else (get_new_shmem_buffer c alloc m1,
              some (get_new_shmem_buffer c alloc m1).shmem.curr.toNat)).1.argbuf = m.argbuf ∧
          (if (get_new_shmem_buffer c alloc m1).shmem.curr = -1 then
            (({ get_new_shmem_buffer c alloc m1 with
                shmem := { (get_new_shmem_buffer c alloc m1).shmem with
                  losts := (get_new_shmem_buffer c alloc m1).shmem.losts + 1 } } :
                mcount_thread_data), (none : Option Nat))
           else (get_new_shmem_buffer c alloc m1,
              some (get_new_shmem_buffer c alloc m1).shmem.curr.toNat)).1.event = m.event ∧
          (if (get_new_shmem_buffer c alloc m1).shmem.curr = -1 then
            (({ get_new_shmem_buffer c alloc m1 with
                shmem := { (get_new_shmem_buffer c alloc m1).shmem with
                  losts := (get_new_shmem_buffer c alloc m1).shmem.losts + 1 } } :
                mcount_thread_data), (none : Option Nat))
           else (get_new_shmem_buffer c alloc m1,
              some (get_new_shmem_buffer c alloc m1).shmem.curr.toNat)).1.shmem.done
            = m.shmem.done := by
        intro m1 ha he hd
        obtain ⟨k1, k2, k3⟩ := get_new_shmem_buffer_keeps c alloc m1
        split_ifs
        · exact ⟨k1.trans ha, k2.trans he, k3.trans hd⟩
        · exact ⟨k1.trans ha, k2.trans he, k3.trans hd⟩
      by_cases h3 : -1 < m.shmem.curr
      · rw [if_pos h3]
        exact key _ rfl rfl rfl
      · rw [if_neg h3]
        exact key _ rfl rfl rfl
  · rw [if_neg h1]
    exact ⟨rfl, rfl, rfl⟩

theorem get_shmem_buffer_some (c : Config) (m : mcount_thread_data) (size : Nat)
    (hd : m.shmem.done = false) :
    ∃ i, (get_shmem_buffer c true m size).2 = some i := by
  cases h : (get_shmem_buffer c true m size).2 with
  | some i => exact ⟨i, rfl⟩
  | none =>
    rw [get_shmem_buffer_none_iff] at h
    rcases h with ⟨_, h | ⟨h, _⟩⟩
    · rw [hd] at h
      cases h
    · cases h

theorem record_event_keeps (c : Config) (alloc : Bool) (m : mcount_thread_data)
    (e : mcount_event) :
    (record_event c alloc m e).1.argbuf = m.argbuf ∧
      (record_event c alloc m e).1.event = m.event ∧
      (record_event c alloc m e).1.shmem.done = m.shmem.done := by
  obtain ⟨k1, k2, k3⟩ := get_shmem_buffer_keeps c alloc m (event_size (e.dsize % 2 ^ 16))
  unfold record_event
  generalize get_shmem_buffer c alloc m (event_size (e.dsize % 2 ^ 16)) = g at k1 k2 k3
  obtain ⟨g1, g2⟩ := g
  cases g2 <;> exact ⟨k1, k2, k3⟩

theorem emit_event_keeps (c : Config) (s : record_state) (e : mcount_event) :
    (emit_event c s e).rstack = s.rstack ∧
      (emit_event c s e).mtdp.argbuf = s.mtdp.argbuf ∧
      (emit_event c s e).mtdp.event = s.mtdp.event ∧
      (emit_event c s e).mtdp.shmem.done = s.mtdp.shmem.done ∧
      (∀ n, (emit_event c s e).alloc n = s.alloc (n + 1)) := by
  obtain ⟨k1, k2, k3⟩ := record_event_keeps c (s.alloc 0) s.mtdp e
  exact ⟨rfl, k1, k2, k3, fun _ => rfl⟩

theorem emit_event_out (c : Config) (s : record_state) (e : mcount_event)
    (hd : s.mtdp.shmem.done = false) (ha : ∀ n, s.alloc n = true) :
    (emit_event c s e).out = s.out ++ [event_record e] := by
  obtain ⟨i, hi⟩ := get_shmem_buffer_some c s.mtdp (event_size (e.dsize % 2 ^ 16)) hd
  unfold emit_event
  dsimp only
  rw [ha 0, hi]
  rfl

theorem flush_async_keeps (c : Config) (T : Nat) (q : List mcount_event) (s : record_state) :
    (flush_async c T q s).rstack = s.rstack ∧
      (flush_async c T q s).mtdp.argbuf = s.mtdp.argbuf ∧
      (flush_async c T q s).mtdp.shmem.done = s.mtdp.shmem.done := by
  induction q generalizing s with
  | nil => exact ⟨rfl, rfl, rfl⟩
  | cons e rest ih =>
    unfold flush_async
    by_cases h : e.time < T
    · rw [if_pos h]
      dsimp only
      obtain ⟨k1, k2, _, k4, _⟩ := emit_event_keeps c s e
      obtain ⟨i1, i2, i3⟩ := ih
        { emit_event c s e with mtdp := { (emit_event c s e).mtdp with event := rest } }
      exact ⟨i1.trans k1, i2.trans k2, i3.trans k4⟩
    · rw [if_neg h]
      exact ⟨rfl, rfl, rfl⟩

theorem flush_async_healthy (c : Config) (T : Nat) (q : List mcount_event) (s : record_state)
    (hq : s.mtdp.event = q) (hd : s.mtdp.shmem.done = false) (ha : ∀ n, s.alloc n = true) :
    (flush_async c T q s).out
        = s.out ++ (q.takeWhile (fun e => decide (e.time < T))).map event_record ∧
      (flush_async c T q s).mtdp.event = q.dropWhile (fun e => decide (e.time < T)) ∧
      (∀ n, (flush_async c T q s).alloc n = true) := by
  induction q generalizing s with
  | nil => exact ⟨by simp [flush_async], by simp [flush_async, hq], by simpa [flush_async] using ha⟩
  | cons e rest ih =>
    unfold flush_async
    by_cases h : e.time < T
    · rw [if_pos h]
      dsimp only
      obtain ⟨_, _, _, k4, k5⟩ := emit_event_keeps c s e
      obtain ⟨i1, i2, i3⟩ := ih
        { emit_event c s e with mtdp := { (emit_event c s e).mtdp with event := rest } }
        rfl (k4.trans hd) (fun n => (k5 n).trans (ha _))
      refine ⟨?_, ?_, i3⟩
      · rw [i1]
        dsimp only
        rw [emit_event_out c s e hd ha, List.takeWhile_cons_of_pos (by simpa using h)]
        simp
      · rw [i2, List.dropWhile_cons_of_pos (by simpa using h)]
    · rw [if_neg h]
      refine ⟨?_, ?_, ha⟩
      · rw [List.takeWhile_cons_of_neg (by simpa using h)]
        simp
      · rw [List.dropWhile_cons_of_neg (by simpa using h)]
        exact hq

theorem flush_exit_fold_keeps (c : Config) (argbuf n T : Nat) (l : List Nat) (s : record_state) :
    (l.foldl
      (fun s i =>
        if ld64 s.mtdp.argbuf (get_event_pointer s.mtdp.argbuf argbuf (n - i - 1)) ≠ T then s
        else emit_event c s
          (event_at s.mtdp.argbuf (get_event_pointer s.mtdp.argbuf argbuf (n - i - 1)))) s).rstack
        = s.rstack ∧
    (l.foldl
      (fun s i =>
        if ld64 s.mtdp.argbuf (get_event_pointer s.mtdp.argbuf argbuf (n - i - 1)) ≠ T then s
        else emit_event c s
          (event_at s.mtdp.argbuf (get_event_pointer s.mtdp.argbuf argbuf (n - i - 1)))) s).mtdp.argbuf
        = s.mtdp.argbuf ∧
    (l.foldl
      (fun s i =>
        if ld64 s.mtdp.argbuf (get_event_pointer s.mtdp.argbuf argbuf (n - i - 1)) ≠ T then s
        else emit_event c s
          (event_at s.mtdp.argbuf (get_event_pointer s.mtdp.argbuf argbuf (n - i - 1)))) s).mtdp.event
        = s.mtdp.event ∧
    (l.foldl
      (fun s i =>
        if ld64 s.mtdp.argbuf (get_event_pointer s.mtdp.argbuf argbuf (n - i - 1)) ≠ T then s
        else emit_event c s
          (event_at s.mtdp.argbuf (get_event_pointer s.mtdp.argbuf argbuf (n - i - 1)))) s).mtdp.shmem.done
        = s.mtdp.shmem.done := by
  induction l generalizing s with
  | nil => exact ⟨rfl, rfl, rfl, rfl⟩
  | cons i rest ih =>
    rw [List.foldl_cons]
    by_cases h : ld64 s.mtdp.argbuf (get_event_pointer s.mtdp.argbuf argbuf (n - i - 1)) ≠ T
    · rw [if_pos h]
      exact ih s
    · rw [if_neg h]
      obtain ⟨k1, k2, k3, k4, _⟩ := emit_event_keeps c s
        (event_at s.mtdp.argbuf (get_event_pointer s.mtdp.argbuf argbuf (n - i - 1)))
      obtain ⟨i1, i2, i3, i4⟩ := ih (emit_event c s
        (event_at s.mtdp.argbuf (get_event_pointer s.mtdp.argbuf argbuf (n - i - 1))))
      exact ⟨i1.trans k1, i2.trans k2, i3.trans k3, i4.trans k4⟩

theorem flush_exit_events_keeps (c : Config) (argbuf n T : Nat) (s : record_state) :
    (flush_exit_events c argbuf n T s).rstack = s.rstack ∧
      (flush_exit_events c argbuf n T s).mtdp.argbuf = s.mtdp.argbuf ∧
      (flush_exit_events c argbuf n T s).mtdp.event = s.mtdp.event ∧
      (flush_exit_events c argbuf n T s).mtdp.shmem.done = s.mtdp.shmem.done :=
  flush_exit_fold_keeps c argbuf n T (List.range n) s

theorem event_at_time (m : Mem) (p : Nat) : (event_at m p).time = ld64 m p := rfl

theorem flush_exit_fold_healthy (c : Config) (argbuf n T : Nat) (l : List Nat) (s : record_state)
    (hd : s.mtdp.shmem.done = false) (ha : ∀ k, s.alloc k = true) :
    (l.foldl
      (fun s i =>
        if ld64 s.mtdp.argbuf (get_event_pointer s.mtdp.argbuf argbuf (n - i - 1)) ≠ T then s
        else emit_event c s
          (event_at s.mtdp.argbuf (get_event_pointer s.mtdp.argbuf argbuf (n - i - 1)))) s).out
        = s.out ++ ((l.map (fun i =>
            event_at s.mtdp.argbuf (get_event_pointer s.mtdp.argbuf argbuf (n - i - 1)))).filter
              (fun e => decide (e.time = T))).map event_record ∧
    (∀ k, (l.foldl
      (fun s i =>
        if ld64 s.mtdp.argbuf (get_event_pointer s.mtdp.argbuf argbuf (n - i - 1)) ≠ T then s
        else emit_event c s
          (event_at s.mtdp.argbuf (get_event_pointer s.mtdp.argbuf argbuf (n - i - 1)))) s).alloc k
        = true) := by
  induction l generalizing s with
  | nil => exact ⟨by simp, ha⟩
  | cons i rest ih =>
    rw [List.foldl_cons]
    by_cases h : ld64 s.mtdp.argbuf (get_event_pointer s.mtdp.argbuf argbuf (n - i - 1)) ≠ T
    · rw [if_pos h]
      obtain ⟨i1, i2⟩ := ih s hd ha
      refine ⟨?_, i2⟩
      rw [i1, List.map_cons, List.filter_cons_of_neg (by simpa [event_at_time] using h)]
    · rw [if_neg h]
      obtain ⟨_, k2, _, k4, k5⟩ := emit_event_keeps c s
        (event_at s.mtdp.argbuf (get_event_pointer s.mtdp.argbuf argbuf (n - i - 1)))
      obtain ⟨i1, i2⟩ := ih (emit_event c s
        (event_at s.mtdp.argbuf (get_event_pointer s.mtdp.argbuf argbuf (n - i - 1))))
        (k4.trans hd) (fun k => (k5 k).trans (ha _))
      refine ⟨?_, i2⟩
      rw [i1, k2, emit_event_out c s _ hd ha, List.map_cons,
        List.filter_cons_of_pos (by simpa [event_at_time] using h)]
      simp

theorem flush_entry_events_succ (c : Config) (argbuf nr T : Nat) (n i : Nat) (s : record_state) :
    flush_entry_events c argbuf nr T (n + 1) i s =
      if ld64 s.mtdp.argbuf (get_event_pointer s.mtdp.argbuf argbuf (nr - i - 1)) ≠ T then s
      else flush_entry_events c argbuf nr T n (i + 1)
        (emit_event c s
          (event_at s.mtdp.argbuf (get_event_pointer s.mtdp.argbuf argbuf (nr - i - 1)))) := by
  rw [flush_entry_events]

theorem flush_entry_events_keeps (c : Config) (argbuf nr T : Nat) (n i : Nat) (s : record_state) :
    (flush_entry_events c argbuf nr T n i s).rstack = s.rstack ∧
      (flush_entry_events c argbuf nr T n i s).mtdp.argbuf = s.mtdp.argbuf ∧
      (flush_entry_events c argbuf nr T n i s).mtdp.event = s.mtdp.event ∧
      (flush_entry_events c argbuf nr T n i s).mtdp.shmem.done = s.mtdp.shmem.done := by
  induction n generalizing i s with
  | zero => exact ⟨rfl, rfl, rfl, rfl⟩
  | succ n ih =>
    rw [flush_entry_events_succ]
    by_cases h : ld64 s.mtdp.argbuf (get_event_pointer s.mtdp.argbuf argbuf (nr - i - 1)) ≠ T
    · rw [if_pos h]
      exact ⟨rfl, rfl, rfl, rfl⟩
    · rw [if_neg h]
      obtain ⟨k1, k2, k3, k4, _⟩ := emit_event_keeps c s
        (event_at s.mtdp.argbuf (get_event_pointer s.mtdp.argbuf argbuf (nr - i - 1)))
      obtain ⟨i1, i2, i3, i4⟩ := ih (i + 1) (emit_event c s
        (event_at s.mtdp.argbuf (get_event_pointer s.mtdp.argbuf argbuf (nr - i - 1))))
      exact ⟨i1.trans k1, i2.trans k2, i3.trans k3, i4.trans k4⟩

theorem flush_entry_events_healthy (c : Config) (argbuf nr T : Nat) (n i : Nat) (s : record_state)
    (hd : s.mtdp.shmem.done = false) (ha : ∀ k, s.alloc k = true) :
    (flush_entry_events c argbuf nr T n i s).out
        = s.out ++ (((List.range' i n).map (fun i =>
            event_at s.mtdp.argbuf (get_event_pointer s.mtdp.argbuf argbuf (nr - i - 1)))).takeWhile
              (fun e => decide (e.time = T))).map event_record ∧
      (∀ k, (flush_entry_events c argbuf nr T n i s).alloc k = true) := by
  induction n generalizing i s with
  | zero => exact ⟨by simp [flush_entry_events], ha⟩
  | succ n ih =>
    rw [flush_entry_events_succ]
    by_cases h : ld64 s.mtdp.argbuf (get_event_pointer s.mtdp.argbuf argbuf (nr - i - 1)) ≠ T
    · rw [if_pos h]
      refine ⟨?_, ha⟩
      rw [List.range'_succ, List.map_cons,
        List.takeWhile_cons_of_neg (by simpa [event_at_time] using h)]
      simp
    · rw [if_neg h]
      obtain ⟨_, k2, _, k4, k5⟩ := emit_event_keeps c s
        (event_at s.mtdp.argbuf (get_event_pointer s.mtdp.argbuf argbuf (nr - i - 1)))
      obtain ⟨i1, i2⟩ := ih (i + 1) (emit_event c s
        (event_at s.mtdp.argbuf (get_event_pointer s.mtdp.argbuf argbuf (nr - i - 1))))
        (k4.trans hd) (fun k => (k5 k).trans (ha _))
      refine ⟨?_, i2⟩
      rw [i1, k2, emit_event_out c s _ hd ha, List.range'_succ, List.map_cons,
        List.takeWhile_cons_of_pos (by simpa [event_at_time] using h)]
      simp

theorem getD_set_ne (l : List mcount_ret_stack) (i j : Nat) (a d : mcount_ret_stack)
    (h : j ≠ i) : (l.set i a).getD j d = l.getD j d := by
  simp [List.getD_eq_getElem?_getD, List.getElem?_set_ne (Ne.symm h)]

theorem getD_set_self (l : List mcount_ret_stack) (i : Nat) (a d : mcount_ret_stack) :
    (l.set i a).getD i d = if i < l.length then a else d := by
  by_cases h : i < l.length
  · simp [List.getD_eq_getElem?_getD, List.getElem?_set, h]
  · simp [List.getD_eq_getElem?_getD, List.getElem?_set, h]

theorem getD_of_getElem? (l : List mcount_ret_stack) (i : Nat) (f d : mcount_ret_stack)
    (h : l[i]? = some f) : l.getD i d = f := by
  simp [List.getD_eq_getElem?_getD, h]

theorem getD_out_of_range (l : List mcount_ret_stack) (i : Nat) (d : mcount_ret_stack)
    (h : ¬ i < l.length) : l.getD i d = d := by
  rw [List.getD_eq_getElem?_getD, List.getElem?_eq_none (by omega)]
  rfl

theorem flush_before_record_keeps (c : Config) (s : record_state) (type ri T : Nat) :
    (flush_before_record c s type ri T).rstack.length = s.rstack.length ∧
    (∀ j, j ≠ ri → (flush_before_record c s type ri T).rstack.getD j no_frame
        = s.rstack.getD j no_frame) ∧
    (∃ ne, (flush_before_record c s type ri T).rstack.getD ri no_frame
        = { s.rstack.getD ri no_frame with nr_events := ne }) ∧
    (flush_before_record c s type ri T).mtdp.argbuf = s.mtdp.argbuf ∧
    (flush_before_record c s type ri T).mtdp.shmem.done = s.mtdp.shmem.done := by
  obtain ⟨a1, a2, a3⟩ := flush_async_keeps c T s.mtdp.event s
  unfold flush_before_record
  dsimp only
  by_cases h : type = c.UFTRACE_EXIT ∧ (s.rstack.getD ri no_frame).nr_events ≠ 0
  · rw [if_pos h]
    obtain ⟨e1, e2, _, e4⟩ := flush_exit_events_keeps c
      (get_argbuf c ri + (s.rstack.getD ri no_frame).event_idx)
      (s.rstack.getD ri no_frame).nr_events T (flush_async c T s.mtdp.event s)
    dsimp only
    rw [e1, a1]
    refine ⟨by simp, fun j hj => getD_set_ne _ _ _ _ _ hj, ?_, e2.trans a2, e4.trans a3⟩
    rw [getD_set_self]
    by_cases hr : ri < s.rstack.length
    · rw [if_pos hr]
      exact ⟨0, rfl⟩
    · rw [if_neg hr, getD_out_of_range _ _ _ hr]
      exact ⟨0, rfl⟩
  · rw [if_neg h]
    rw [a1]
    exact ⟨rfl, fun _ _ => rfl, ⟨_, rfl⟩, a2, a3⟩

theorem record_ret_stack_keeps (c : Config) (s : record_state) (type ri : Nat) :
    (record_ret_stack c s type ri).1.rstack.length = s.rstack.length ∧
    (∀ j, j ≠ ri → (record_ret_stack c s type ri).1.rstack.getD j no_frame
        = s.rstack.getD j no_frame) ∧
    (∃ fl ne, (record_ret_stack c s type ri).1.rstack.getD ri no_frame
        = { s.rstack.getD ri no_frame with flags := fl, nr_events := ne }) ∧
    (record_ret_stack c s type ri).1.mtdp.argbuf = s.mtdp.argbuf ∧
    (record_ret_stack c s type ri).1.mtdp.shmem.done = s.mtdp.shmem.done := by
  unfold record_ret_stack
  dsimp only
  generalize (if type = c.UFTRACE_EXIT then (s.rstack.getD ri no_frame).end_time
    else (s.rstack.getD ri no_frame).start_time) = T
  obtain ⟨b1, b2, ⟨ne, b3⟩, b4, b5⟩ := flush_before_record_keeps c s type ri T
  generalize flush_before_record c s type ri T = s2 at b1 b2 b3 b4 b5
  generalize hasz : (if has_argbuf c type (s2.rstack.getD ri no_frame).flags = true then
    ld32 s2.mtdp.argbuf (get_argbuf c ri) else 0) = asize
  obtain ⟨g1, _, g3⟩ := get_shmem_buffer_keeps c (s2.alloc 0) s2.mtdp
    (sizeof_uftrace_record + asize)
  generalize get_shmem_buffer c (s2.alloc 0) s2.mtdp (sizeof_uftrace_record + asize) = g
    at g1 g3
  obtain ⟨m1, o⟩ := g
  cases o with
  | none =>
    dsimp only
    exact ⟨b1, b2, ⟨_, ne, b3⟩, g1.trans b4, g3.trans b5⟩
  | some i =>
    dsimp only
    have base : ∀ s4 : record_state,
        s4.rstack = (store_frame_record c s2 m1 i type ri T).rstack →
        s4.mtdp.argbuf = (store_frame_record c s2 m1 i type ri T).mtdp.argbuf →
        s4.mtdp.shmem.done = (store_frame_record c s2 m1 i type ri T).mtdp.shmem.done →
        s4.rstack.length = s.rstack.length ∧
        (∀ j, j ≠ ri → s4.rstack.getD j no_frame = s.rstack.getD j no_frame) ∧
        (∃ fl ne, s4.rstack.getD ri no_frame
          = { s.rstack.getD ri no_frame with flags := fl, nr_events := ne }) ∧
        s4.mtdp.argbuf = s.mtdp.argbuf ∧ s4.mtdp.shmem.done = s.mtdp.shmem.done := by
      intro s4 e1 e2 e3
      rw [e1, e2, e3]
      refine ⟨?_, fun j hj => (getD_set_ne _ _ _ _ _ hj).trans (b2 j hj), ?_,
        g1.trans b4, g3.trans b5⟩
      · show (s2.rstack.set ri _).length = _
        simpa using b1
      · show ∃ fl ne, (s2.rstack.set ri _).getD ri no_frame = _
        rw [getD_set_self]
        by_cases hr : ri < s2.rstack.length
        · rw [if_pos hr, b3]
          exact ⟨_, _, rfl⟩
        · rw [if_neg hr, getD_out_of_range _ _ _ (by omega)]
          exact ⟨_, _, rfl⟩
    by_cases hp : (s2.rstack.getD ri no_frame).nr_events ≠ 0 ∧ type = c.UFTRACE_ENTRY
    · rw [if_pos hp]
      obtain ⟨f1, f2, _, f4⟩ := flush_entry_events_keeps c
        (get_argbuf c ri + (s2.rstack.getD ri no_frame).event_idx)
        (s2.rstack.getD ri no_frame).nr_events T (s2.rstack.getD ri no_frame).nr_events 0
        (store_frame_record c s2 m1 i type ri T)
      exact base _ f1 f2 f4
    · rw [if_neg hp]
      exact base _ rfl rfl rfl

theorem set_self_of_getElem? (l : List mcount_ret_stack) (i : Nat) (f : mcount_ret_stack)
    (h : l[i]? = some f) : l.set i f = l := by
  apply List.ext_getElem?
  intro j
  rw [List.getElem?_set]
  by_cases hj : i = j
  · subst hj
    rw [if_pos rfl, h]
    have : i < l.length := by
      by_contra hc
      rw [List.getElem?_eq_none (by omega)] at h
      cases h
    simp [this]
  · rw [if_neg hj]

theorem lt_length_of_getElem? (l : List mcount_ret_stack) (i : Nat) (f : mcount_ret_stack)
    (h : l[i]? = some f) : i < l.length := by
  by_contra hc
  rw [List.getElem?_eq_none (by omega)] at h
  cases h

theorem flush_before_record_healthy (c : Config) (s : record_state) (type ri T : Nat)
    (f : mcount_ret_stack) (hf : s.rstack[ri]? = some f)
    (hd : s.mtdp.shmem.done = false) (ha : ∀ n, s.alloc n = true) :
    (flush_before_record c s type ri T).out
      = s.out ++ (s.mtdp.event.takeWhile (fun e => decide (e.time < T))).map event_record
          ++ (if type = c.UFTRACE_EXIT then
                ((attached_events s.mtdp.argbuf (get_argbuf c ri + f.event_idx)
                  f.nr_events).filter (fun e => decide (e.time = T))).map event_record
              else []) ∧
    (flush_before_record c s type ri T).rstack
      = s.rstack.set ri { f with nr_events := if type = c.UFTRACE_EXIT then 0 else f.nr_events } ∧
    (flush_before_record c s type ri T).mtdp.argbuf = s.mtdp.argbuf ∧
    (flush_before_record c s type ri T).mtdp.event
      = s.mtdp.event.dropWhile (fun e => decide (e.time < T)) ∧
    (flush_before_record c s type ri T).mtdp.shmem.done = false ∧
    (∀ n, (flush_before_record c s type ri T).alloc n = true) := by
  obtain ⟨a1, a2, a3⟩ := flush_async_keeps c T s.mtdp.event s
  obtain ⟨h1, h2, h3⟩ := flush_async_healthy c T s.mtdp.event s rfl hd ha
  unfold flush_before_record
  dsimp only
  rw [getD_of_getElem? _ _ _ _ hf]
  by_cases h : type = c.UFTRACE_EXIT ∧ f.nr_events ≠ 0
  · rw [if_pos h, if_pos h.1, if_pos h.1]
    obtain ⟨e1, e2, e3, e4⟩ := flush_exit_events_keeps c
      (get_argbuf c ri + f.event_idx) f.nr_events T (flush_async c T s.mtdp.event s)
    obtain ⟨x1, x2⟩ := flush_exit_fold_healthy c (get_argbuf c ri + f.event_idx) f.nr_events T
      (List.range f.nr_events) (flush_async c T s.mtdp.event s) (a3.trans hd) h3
    refine ⟨?_, ?_, e2.trans a2, e3.trans h2, e4.trans (a3.trans hd), x2⟩
    · show (flush_exit_events c (get_argbuf c ri + f.event_idx) f.nr_events T
        (flush_async c T s.mtdp.event s)).out = _
      unfold flush_exit_events
      rw [x1, h1, a2]
      rfl
    · show (flush_exit_events c (get_argbuf c ri + f.event_idx) f.nr_events T
        (flush_async c T s.mtdp.event s)).rstack.set ri _ = _
      rw [e1, a1]
  · rw [if_neg h]
    refine ⟨?_, ?_, a2, h2, a3.trans hd, h3⟩
    · rw [h1]
      by_cases ht : type = c.UFTRACE_EXIT
      · have hn : f.nr_events = 0 := by
          by_contra hc
          exact h ⟨ht, hc⟩
        rw [if_pos ht, hn]
        simp [attached_events]
      · rw [if_neg ht]
        simp
    · rw [a1]
      by_cases ht : type = c.UFTRACE_EXIT
      · have hn : f.nr_events = 0 := by
          by_contra hc
          exact h ⟨ht, hc⟩
        rw [if_pos ht]
        have : ({ f with nr_events := 0 } : mcount_ret_stack) = f := by
          cases f
          simp only [mcount_ret_stack.mk.injEq, true_and, and_true] at hn ⊢
          exact hn.symm
        rw [this, set_self_of_getElem? _ _ _ hf]
      · rw [if_neg ht]
        exact (set_self_of_getElem? _ _ _ hf).symm

theorem store_frame_record_spec (c : Config) (s2 : record_state) (m1 : mcount_thread_data)
    (i type ri T : Nat) (f2 : mcount_ret_stack) (hf : s2.rstack.getD ri no_frame = f2)
    (hm : m1.argbuf = s2.mtdp.argbuf) :
    (store_frame_record c s2 m1 i type ri T).out
      = s2.out ++ [written_record.frame type ri T
          (ret_stack_rec c type (has_argbuf c type f2.flags) f2.depth f2.child_ip)
          (sizeof_uftrace_record +
            (if has_argbuf c type f2.flags then ALIGN (ld32 s2.mtdp.argbuf (get_argbuf c ri)) 8
             else 0))
          (if has_argbuf c type f2.flags then
            bytes_at (fun k => s2.mtdp.argbuf (get_argbuf c ri + 4 + k))
              (ld32 s2.mtdp.argbuf (get_argbuf c ri))
           else [])] ∧
    (store_frame_record c s2 m1 i type ri T).rstack
      = s2.rstack.set ri { f2 with flags := f2.flags ||| c.MCOUNT_FL_WRITTEN } ∧
    (store_frame_record c s2 m1 i type ri T).mtdp.argbuf = m1.argbuf ∧
    (store_frame_record c s2 m1 i type ri T).mtdp.event = m1.event ∧
    (store_frame_record c s2 m1 i type ri T).mtdp.shmem.done = m1.shmem.done ∧
    (∀ n, (store_frame_record c s2 m1 i type ri T).alloc n = s2.alloc (n + 1)) := by
  subst hf
  refine ⟨?_, rfl, rfl, rfl, rfl, fun _ => rfl⟩
  unfold store_frame_record
  dsimp only
  rw [hm]
  cases has_argbuf c type (s2.rstack.getD ri no_frame).flags <;> simp

theorem attached_events_range (m : Mem) (base n : Nat) :
    attached_events m base n
      = (List.range' 0 n).map (fun i => event_at m (get_event_pointer m base (n - i - 1))) := by
  rw [attached_events, List.range_eq_range']

theorem record_ret_stack_healthy (c : Config) (s : record_state) (type ri : Nat)
    (f : mcount_ret_stack) (hf : s.rstack[ri]? = some f)
    (ht : type = c.UFTRACE_ENTRY ∨ type = c.UFTRACE_EXIT) (hne : c.UFTRACE_ENTRY ≠ c.UFTRACE_EXIT)
    (hd : s.mtdp.shmem.done = false) (ha : ∀ n, s.alloc n = true) :
    (record_ret_stack c s type ri).2 = 0 ∧
    (record_ret_stack c s type ri).1.out
      = s.out ++ (s.mtdp.event.takeWhile
            (fun e => decide (e.time < record_time c type f))).map event_record
          ++ (if type = c.UFTRACE_EXIT then
                ((attached_events s.mtdp.argbuf (get_argbuf c ri + f.event_idx)
                  f.nr_events).filter
                    (fun e => decide (e.time = record_time c type f))).map event_record
              else [])
          ++ [frame_record c type ri f s.mtdp.argbuf]
          ++ (if type = c.UFTRACE_ENTRY then
                ((attached_events s.mtdp.argbuf (get_argbuf c ri + f.event_idx)
                  f.nr_events).takeWhile
                    (fun e => decide (e.time = record_time c type f))).map event_record
              else []) ∧
    (record_ret_stack c s type ri).1.rstack
      = s.rstack.set ri { f with flags := f.flags ||| c.MCOUNT_FL_WRITTEN,
                                 nr_events := if type = c.UFTRACE_EXIT then 0 else f.nr_events } ∧
    (record_ret_stack c s type ri).1.mtdp.argbuf = s.mtdp.argbuf ∧
    (record_ret_stack c s type ri).1.mtdp.event
      = s.mtdp.event.dropWhile (fun e => decide (e.time < record_time c type f)) ∧
    (record_ret_stack c s type ri).1.mtdp.shmem.done = false ∧
    (∀ n, (record_ret_stack c s type ri).1.alloc n = true) := by
  have hlen := lt_length_of_getElem? _ _ _ hf
  unfold record_ret_stack frame_record
  dsimp only
  rw [getD_of_getElem? _ _ _ _ hf]
  have hT : (if type = c.UFTRACE_EXIT then f.end_time else f.start_time)
      = record_time c type f := rfl
  rw [hT]
  generalize record_time c type f = T
  obtain ⟨b1, b2, b3, b4, b5, b6⟩ := flush_before_record_healthy c s type ri T f hf hd ha
  generalize flush_before_record c s type ri T = s2 at b1 b2 b3 b4 b5 b6
  have hm2 : s2.rstack.getD ri no_frame
      = { f with nr_events := if type = c.UFTRACE_EXIT then 0 else f.nr_events } := by
    rw [b2, getD_set_self, if_pos hlen]
  rw [hm2]
  dsimp only
  rw [b6 0]
  generalize (if has_argbuf c type f.flags = true then
    ld32 s2.mtdp.argbuf (get_argbuf c ri) else 0) = asize
  obtain ⟨g1, g2, g3⟩ := get_shmem_buffer_keeps c true s2.mtdp (sizeof_uftrace_record + asize)
  obtain ⟨i, g4⟩ := get_shmem_buffer_some c s2.mtdp (sizeof_uftrace_record + asize) b5
  generalize get_shmem_buffer c true s2.mtdp (sizeof_uftrace_record + asize) = g
    at g1 g2 g3 g4
  obtain ⟨m1, o⟩ := g
  dsimp only at g1 g2 g3 g4
  subst g4
  dsimp only
  obtain ⟨w1, w2, w3, w4, w5, w6⟩ := store_frame_record_spec c s2 m1 i type ri T _ hm2 g1
  dsimp only at w1 w2
  rw [b2, List.set_set] at w2
  rw [b3, b1] at w1
  generalize store_frame_record c s2 m1 i type ri T = s3 at w1 w2 w3 w4 w5 w6
  have hd3 : s3.mtdp.shmem.done = false := w5.trans (g3.trans b5)
  have ha3 : ∀ n, s3.alloc n = true := fun n => (w6 n).trans (b6 _)
  have harg3 : s3.mtdp.argbuf = s.mtdp.argbuf := w3.trans (g1.trans b3)
  have hev3 : s3.mtdp.event = s.mtdp.event.dropWhile (fun e => decide (e.time < T)) :=
    w4.trans (g2.trans b4)
  rcases ht with ht | ht
  · subst ht
    simp only [if_neg hne, if_true, and_true, List.append_nil] at w1 w2 ⊢
    by_cases hev : f.nr_events ≠ 0
    · rw [if_pos hev]
      obtain ⟨k1, k2, k3, k4⟩ := flush_entry_events_keeps c (get_argbuf c ri + f.event_idx)
        f.nr_events T f.nr_events 0 s3
      obtain ⟨x1, x2⟩ := flush_entry_events_healthy c (get_argbuf c ri + f.event_idx)
        f.nr_events T f.nr_events 0 s3 hd3 ha3
      refine ⟨rfl, ?_, k1.trans w2, k2.trans harg3, k3.trans hev3, k4.trans hd3, x2⟩
      show (flush_entry_events c (get_argbuf c ri + f.event_idx)
        f.nr_events T f.nr_events 0 s3).out = _
      rw [x1, w1, harg3, attached_events_range]
    · rw [if_neg hev]
      have hn : f.nr_events = 0 := by
        by_contra hc
        exact hev hc
      refine ⟨rfl, ?_, w2, harg3, hev3, hd3, ha3⟩
      show s3.out = _
      rw [w1, hn]
      simp [attached_events]
  · subst ht
    have hne2 : ¬ c.UFTRACE_EXIT = c.UFTRACE_ENTRY := fun h => hne h.symm
    simp only [if_true, List.append_nil] at w1 w2 ⊢
    rw [if_neg (fun h => hne2 h.2)]
    simp only [if_neg hne2, List.append_nil]
    exact ⟨trivial, w1, w2, harg3, hev3, hd3, ha3⟩

/-- What `write_frame` leaves in the segment: time and packed word at the old cursor and,
for a record with argument data, the argument bytes right after the 16-byte header; the
cursor moves by 16 plus the argument size rounded up to 8. -/
theorem write_frame_spec (T w : Nat) (args : Nat → Nat) (asize : Nat)
    (b : mcount_shmem_buffer) (hsz : b.size + 16 < 2 ^ 32) :
    ld64 (write_frame T w true args asize b).data b.size = T % 2 ^ 64 ∧
    ld64 (write_frame T w true args asize b).data (b.size + 8) = w % 2 ^ 64 ∧
    (∀ k, k < asize →
      (write_frame T w true args asize b).data (b.size + 16 + k) = args k % 256) ∧
    (write_frame T w true args asize b).size = (b.size + 16 + ALIGN asize 8) % 2 ^ 32 ∧
    (write_frame T w false args asize b).size = b.size + 16 := by
  unfold write_frame sizeof_uftrace_record
  simp only [if_true, Bool.false_eq_true, if_false]
  rw [Nat.mod_eq_of_lt hsz]
  refine ⟨?_, ?_, ?_, rfl, rfl⟩
  · unfold ld64
    rw [ldLE_memcpy_disjoint _ _ _ _ _ _ (Or.inl (by omega))]
    exact (ld64_st64_disjoint _ _ _ _ (Or.inl (by omega))).trans (ld64_st64 _ _ _)
  · unfold ld64
    rw [ldLE_memcpy_disjoint _ _ _ _ _ _ (Or.inl (by omega))]
    exact ld64_st64 _ _ _
  · intro k hk
    exact memcpy_inside _ _ _ _ _ hk

/-! ## Theorems: the trace controller -/

theorem and_or_eq_zero (x a b : Nat) : x &&& (a ||| b) = 0 ↔ x &&& a = 0 ∧ x &&& b = 0 := by
  rw [Nat.and_or_distrib_left]
  constructor
  · intro h
    constructor
    · apply Nat.eq_of_testBit_eq
      intro i
      have := congrArg (fun n => n.testBit i) h
      simp only [Nat.testBit_or, Nat.zero_testBit, Bool.or_eq_false_iff] at this
      simpa using this.1
    · apply Nat.eq_of_testBit_eq
      intro i
      have := congrArg (fun n => n.testBit i) h
      simp only [Nat.testBit_or, Nat.zero_testBit, Bool.or_eq_false_iff] at this
      simpa using this.2
  · rintro ⟨h1, h2⟩
    rw [h1, h2]
    rfl

theorem count_non_written_spec (c : Config) (rstack : List mcount_ret_stack) (nw : Nat)
    (count : Int) :
    (count_non_written c rstack nw count).1 ≤ nw ∧
    (count_non_written c rstack nw count).2 = count +
      (((List.range' (count_non_written c rstack nw count).1
          (nw - (count_non_written c rstack nw count).1)).countP
        (fun j => decide ((rstack.getD j no_frame).flags &&& SKIP_FLAGS c = 0)) : Nat) : Int) := by
  induction nw generalizing count with
  | zero => simp [count_non_written]
  | succ nw ih =>
    rw [count_non_written]
    by_cases h : (rstack.getD nw no_frame).flags &&& c.MCOUNT_FL_WRITTEN ≠ 0
    · rw [if_pos h]
      simp
    · rw [if_neg h]
      obtain ⟨i1, i2⟩ := ih
        (if (rstack.getD nw no_frame).flags &&& SKIP_FLAGS c = 0 then count + 1 else count)
      generalize count_non_written c rstack nw
        (if (rstack.getD nw no_frame).flags &&& SKIP_FLAGS c = 0 then count + 1 else count) = r
        at i1 i2
      refine ⟨by omega, ?_⟩
      rw [i2]
      have hsplit : nw + 1 - r.1 = (nw - r.1) + 1 := by omega
      rw [hsplit, List.range'_concat, List.countP_append]
      have hidx : r.1 + 1 * (nw - r.1) = nw := by omega
      rw [hidx]
      rw [List.countP_cons, List.countP_nil]
      by_cases hs : (rstack.getD nw no_frame).flags &&& SKIP_FLAGS c = 0
      · rw [if_pos hs, if_pos (decide_eq_true hs)]
        push_cast
        ring
      · rw [if_neg hs, if_neg (by simpa using hs)]
        push_cast
        ring

theorem countP_range_congr (p q : Nat → Bool) (i n : Nat)
    (h : ∀ j, i ≤ j → j < i + n → p j = q j) :
    (List.range' i n).countP p = (List.range' i n).countP q := by
  induction n generalizing i with
  | zero => rfl
  | succ n ih =>
    rw [List.range'_succ, List.countP_cons, List.countP_cons, h i (le_refl _) (by omega),
      ih (i + 1) (fun j h1 h2 => h j (by omega) (by omega))]

theorem flush_ancestors_succ (c : Config) (n i : Nat) (s : record_state) (count : Int) :
    flush_ancestors c (n + 1) i s count =
      if (s.rstack.getD i no_frame).flags &&& SKIP_FLAGS c = 0 then
        if (record_ret_stack c s c.UFTRACE_ENTRY i).2 ≠ 0 then
          ({ (record_ret_stack c s c.UFTRACE_ENTRY i).1 with
             mtdp := { (record_ret_stack c s c.UFTRACE_ENTRY i).1.mtdp with
               shmem := { (record_ret_stack c s c.UFTRACE_ENTRY i).1.mtdp.shmem with
                 losts := (((record_ret_stack c s c.UFTRACE_ENTRY i).1.mtdp.shmem.losts : Int)
                   + (count - 1)).toNat } } }, count, true)
        else flush_ancestors c n (i + 1) (record_ret_stack c s c.UFTRACE_ENTRY i).1 (count - 1)
      else flush_ancestors c n (i + 1) s count := by
  rw [flush_ancestors]

theorem flush_ancestors_count (c : Config) (n i : Nat) (s : record_state) (count : Int)
    (h : (flush_ancestors c n i s count).2.2 = false) :
    (flush_ancestors c n i s count).2.1 = count -
      (((List.range' i n).countP
        (fun j => decide ((s.rstack.getD j no_frame).flags &&& SKIP_FLAGS c = 0)) : Nat) : Int) ∧
    (∀ j, i + n ≤ j → (flush_ancestors c n i s count).1.rstack.getD j no_frame
      = s.rstack.getD j no_frame) := by
  induction n generalizing i s count with
  | zero => simp [flush_ancestors]
  | succ n ih =>
    rw [flush_ancestors_succ] at h ⊢
    by_cases hs : (s.rstack.getD i no_frame).flags &&& SKIP_FLAGS c = 0
    · rw [if_pos hs] at h ⊢
      by_cases hr : (record_ret_stack c s c.UFTRACE_ENTRY i).2 ≠ 0
      · rw [if_pos hr] at h
        cases h
      · rw [if_neg hr] at h ⊢
        obtain ⟨_, k2, _⟩ := record_ret_stack_keeps c s c.UFTRACE_ENTRY i
        obtain ⟨i1, i2⟩ := ih (i + 1) _ _ h
        refine ⟨?_, fun j hj => (i2 j (by omega)).trans (k2 j (by omega))⟩
        rw [i1, List.range'_succ, List.countP_cons,
          countP_range_congr _ (fun j => decide ((s.rstack.getD j no_frame).flags &&&
            SKIP_FLAGS c = 0)) (i + 1) n
            (fun j h1 _ => by rw [k2 j (by omega)]), if_pos (decide_eq_true hs)]
        push_cast
        ring
    · rw [if_neg hs] at h ⊢
      obtain ⟨i1, i2⟩ := ih (i + 1) _ _ h
      refine ⟨?_, fun j hj => i2 j (by omega)⟩
      rw [i1, List.range'_succ, List.countP_cons, if_neg (by simpa using hs)]
      push_cast
      ring

theorem record_current_count (c : Config) (s : record_state) (cur : Nat) (retval : Bool)
    (count : Int)
    (hcount : count =
      (if (s.rstack.getD cur no_frame).flags &&& (c.MCOUNT_FL_WRITTEN ||| SKIP_FLAGS c) = 0
        then 1 else 0) + (if (s.rstack.getD cur no_frame).end_time ≠ 0 then 1 else 0)) :
    (record_current c s cur retval count).count = none ∨
      (record_current c s cur retval count).count = some 0 := by
  unfold record_current
  dsimp only
  have key : ∀ (s1 : record_state) (n : Int),
      (s1.rstack.getD cur no_frame).end_time = (s.rstack.getD cur no_frame).end_time →
      n = (if (s.rstack.getD cur no_frame).end_time ≠ 0 then 1 else 0) →
      (if (s1.rstack.getD cur no_frame).end_time ≠ 0 then
        (if (record_ret_stack c
            (if retval = true then
              { s1 with
                mtdp := (save_retval c s1.mtdp cur (s1.rstack.getD cur no_frame)).1
                rstack := s1.rstack.set cur
                  (save_retval c s1.mtdp cur (s1.rstack.getD cur no_frame)).2 }
             else s1) c.UFTRACE_EXIT cur).2 ≠ 0 then
          ({ state := (record_ret_stack c
              (if retval = true then
                { s1 with
                  mtdp := (save_retval c s1.mtdp cur (s1.rstack.getD cur no_frame)).1
                  rstack := s1.rstack.set cur
                    (save_retval c s1.mtdp cur (s1.rstack.getD cur no_frame)).2 }
               else s1) c.UFTRACE_EXIT cur).1, ret := 0, count := none } : trace_result)
        else
          { state := (record_ret_stack c
              (if retval = true then
                { s1 with
                  mtdp := (save_retval c s1.mtdp cur (s1.rstack.getD cur no_frame)).1
                  rstack := s1.rstack.set cur
                    (save_retval c s1.mtdp cur (s1.rstack.getD cur no_frame)).2 }
               else s1) c.UFTRACE_EXIT cur).1, ret := 0, count := some (n - 1) })
       else { state := s1, ret := 0, count := some n }).count = none ∨
      (if (s1.rstack.getD cur no_frame).end_time ≠ 0 then
        (if (record_ret_stack c
            (if retval = true then
              { s1 with
                mtdp := (save_retval c s1.mtdp cur (s1.rstack.getD cur no_frame)).1
                rstack := s1.rstack.set cur
                  (save_retval c s1.mtdp cur (s1.rstack.getD cur no_frame)).2 }
             else s1) c.UFTRACE_EXIT cur).2 ≠ 0 then
          ({ state := (record_ret_stack c
              (if retval = true then
                { s1 with
                  mtdp := (save_retval c s1.mtdp cur (s1.rstack.getD cur no_frame)).1
                  rstack := s1.rstack.set cur
                    (save_retval c s1.mtdp cur (s1.rstack.getD cur no_frame)).2 }
               else s1) c.UFTRACE_EXIT cur).1, ret := 0, count := none } : trace_result)
        else
          { state := (record_ret_stack c
              (if retval = true then
                { s1 with
                  mtdp := (save_retval c s1.mtdp cur (s1.rstack.getD cur no_frame)).1
                  rstack := s1.rstack.set cur
                    (save_retval c s1.mtdp cur (s1.rstack.getD cur no_frame)).2 }
               else s1) c.UFTRACE_EXIT cur).1, ret := 0, count := some (n - 1) })
       else { state := s1, ret := 0, count := some n }).count = some 0 := by
    intro s1 n he hn
    rw [he]
    by_cases hend : (s.rstack.getD cur no_frame).end_time ≠ 0
    · rw [if_pos hend] at hn ⊢
      split_ifs
      · exact Or.inl rfl
      · right
        subst hn
        rfl
      · exact Or.inl rfl
      · right
        subst hn
        rfl
    · rw [if_neg hend] at hn ⊢
      right
      subst hn
      rfl
  by_cases hf : (s.rstack.getD cur no_frame).flags &&& (c.MCOUNT_FL_WRITTEN ||| SKIP_FLAGS c) = 0
  · rw [if_pos hf] at hcount ⊢
    dsimp only
    by_cases hr : (record_ret_stack c s c.UFTRACE_ENTRY cur).2 ≠ 0
    · rw [if_pos hr]
      exact Or.inl rfl
    · rw [if_neg hr]
      obtain ⟨_, _, ⟨fl, ne, k3⟩, _⟩ := record_ret_stack_keeps c s c.UFTRACE_ENTRY cur
      exact key _ _ (by rw [k3]) (by rw [hcount]; ring)
  · rw [if_neg hf] at hcount ⊢
    dsimp only
    rw [if_neg (by simp)]
    exact key _ _ rfl (by rw [hcount]; ring)

theorem record_trace_data_count (c : Config) (s : record_state) (mrstack : Int) (retval : Bool) :
    (record_trace_data c s mrstack retval).count = none ∨
      (record_trace_data c s mrstack retval).count = some 0 := by
  unfold record_trace_data
  by_cases h0 : mrstack < 0
  · rw [if_pos h0]
    exact Or.inl rfl
  · rw [if_neg h0]
    dsimp only
    by_cases hw : (s.rstack.getD mrstack.toNat no_frame).flags &&& c.MCOUNT_FL_WRITTEN = 0
    · rw [if_pos hw]
      dsimp only
      obtain ⟨c1, c2⟩ := count_non_written_spec c s.rstack mrstack.toNat
        (if (s.rstack.getD mrstack.toNat no_frame).flags &&& SKIP_FLAGS c = 0 then 1 else 0)
      generalize count_non_written c s.rstack mrstack.toNat
        (if (s.rstack.getD mrstack.toNat no_frame).flags &&& SKIP_FLAGS c = 0 then 1 else 0) = r
        at c1 c2
      by_cases hfail : (flush_ancestors c (mrstack.toNat - r.1) r.1 s
          (if (s.rstack.getD mrstack.toNat no_frame).end_time ≠ 0 then r.2 + 1 else r.2)).2.2
            = true
      · rw [if_pos hfail]
        exact Or.inl rfl
      · rw [if_neg hfail]
        obtain ⟨f1, f2⟩ := flush_ancestors_count c (mrstack.toNat - r.1) r.1 s
          (if (s.rstack.getD mrstack.toNat no_frame).end_time ≠ 0 then r.2 + 1 else r.2)
          (by simpa using hfail)
        apply record_current_count
        rw [f1, f2 _ (by omega), c2]
        have hb : (s.rstack.getD mrstack.toNat no_frame).flags &&&
            (c.MCOUNT_FL_WRITTEN ||| SKIP_FLAGS c) = 0 ↔
            (s.rstack.getD mrstack.toNat no_frame).flags &&& SKIP_FLAGS c = 0 := by
          rw [and_or_eq_zero]
          exact ⟨fun h => h.2, fun h => ⟨hw, h⟩⟩
        by_cases hs : (s.rstack.getD mrstack.toNat no_frame).flags &&& SKIP_FLAGS c = 0
        · rw [if_pos (hb.2 hs), if_pos hs]
          split_ifs <;> ring
        · rw [if_neg (fun h => hs (hb.1 h)), if_neg hs]
          split_ifs <;> ring
    · rw [if_neg hw]
      dsimp only
      rw [if_neg (by simp)]
      apply record_current_count
      rw [if_neg (fun h => hw ((and_or_eq_zero _ _ _).1 h).1)]
      split_ifs <;> ring

theorem frames_of_append (a b : List written_record) :
    frames_of (a ++ b) = frames_of a ++ frames_of b := by
  unfold frames_of
  rw [List.filter_append]

theorem frames_of_events (l : List mcount_event) : frames_of (l.map event_record) = [] := by
  induction l with
  | nil => rfl
  | cons e rest ih =>
    rw [List.map_cons, ← List.singleton_append, frames_of_append, ih]
    rfl

theorem frames_of_frame_record (c : Config) (type ri : Nat) (f : mcount_ret_stack) (m : Mem) :
    frames_of [frame_record c type ri f m] = [frame_record c type ri f m] := rfl

theorem or_and_self_ne (x w : Nat) (hw : w ≠ 0) : (x ||| w) &&& w ≠ 0 := by
  have : (x ||| w) &&& w = w := by
    apply Nat.eq_of_testBit_eq
    intro i
    rw [Nat.testBit_and, Nat.testBit_or]
    cases x.testBit i <;> cases w.testBit i <;> rfl
  rw [this]
  exact hw

theorem entry_records_succ (c : Config) (rstack : List mcount_ret_stack) (m : Mem) (i n : Nat) :
    entry_records c rstack m i (n + 1)
      = (if (rstack.getD i no_frame).flags &&& SKIP_FLAGS c = 0 then
          [frame_record c c.UFTRACE_ENTRY i (rstack.getD i no_frame) m] else [])
        ++ entry_records c rstack m (i + 1) n := by
  unfold entry_records
  rw [List.range'_succ, List.filter_cons]
  by_cases h : (rstack.getD i no_frame).flags &&& SKIP_FLAGS c = 0
  · rw [if_pos (decide_eq_true h), if_pos h, List.map_cons]
    rfl
  · rw [if_neg (by simpa using h), if_neg h]
    rfl

theorem entry_records_concat (c : Config) (rstack : List mcount_ret_stack) (m : Mem) (i n : Nat) :
    entry_records c rstack m i (n + 1)
      = entry_records c rstack m i n ++
        (if (rstack.getD (i + n) no_frame).flags &&& SKIP_FLAGS c = 0 then
          [frame_record c c.UFTRACE_ENTRY (i + n) (rstack.getD (i + n) no_frame) m] else []) := by
  unfold entry_records
  rw [List.range'_concat, List.filter_append, List.map_append]
  have : i + 1 * n = i + n := by omega
  rw [this, List.filter_cons]
  by_cases h : (rstack.getD (i + n) no_frame).flags &&& SKIP_FLAGS c = 0
  · rw [if_pos (decide_eq_true h), if_pos h]
    rfl
  · rw [if_neg (by simpa using h), if_neg h]
    rfl

theorem entry_records_congr (c : Config) (r1 r2 : List mcount_ret_stack) (m : Mem) (i n : Nat)
    (h : ∀ j, i ≤ j → j < i + n → r1.getD j no_frame = r2.getD j no_frame) :
    entry_records c r1 m i n = entry_records c r2 m i n := by
  induction n generalizing i with
  | zero => rfl
  | succ n ih =>
    rw [entry_records_succ, entry_records_succ, h i (le_refl _) (by omega),
      ih (i + 1) (fun j h1 h2 => h j (by omega) (by omega))]

theorem getElem?_of_lt (l : List mcount_ret_stack) (i : Nat) (h : i < l.length) :
    l[i]? = some (l.getD i no_frame) := by
  rw [List.getD_eq_getElem?_getD, List.getElem?_eq_getElem h]
  rfl

theorem record_entry_healthy (c : Config) (hc : c.wf) (s : record_state) (i : Nat)
    (hi : i < s.rstack.length)
    (hd : s.mtdp.shmem.done = false) (ha : ∀ n, s.alloc n = true) :
    (record_ret_stack c s c.UFTRACE_ENTRY i).2 = 0 ∧
    frames_of (record_ret_stack c s c.UFTRACE_ENTRY i).1.out
      = frames_of s.out ++
        [frame_record c c.UFTRACE_ENTRY i (s.rstack.getD i no_frame) s.mtdp.argbuf] ∧
    (record_ret_stack c s c.UFTRACE_ENTRY i).1.rstack
      = s.rstack.set i { s.rstack.getD i no_frame with
          flags := (s.rstack.getD i no_frame).flags ||| c.MCOUNT_FL_WRITTEN } ∧
    (record_ret_stack c s c.UFTRACE_ENTRY i).1.mtdp.argbuf = s.mtdp.argbuf ∧
    (record_ret_stack c s c.UFTRACE_ENTRY i).1.mtdp.shmem.done = false ∧
    (∀ n, (record_ret_stack c s c.UFTRACE_ENTRY i).1.alloc n = true) := by
  obtain ⟨h1, h2, h3, h4, _, h6, h7⟩ := record_ret_stack_healthy c s c.UFTRACE_ENTRY i
    (s.rstack.getD i no_frame) (getElem?_of_lt _ _ hi) (Or.inl rfl) hc.ty_ne hd ha
  refine ⟨h1, ?_, ?_, h4, h6, h7⟩
  · rw [h2, if_neg hc.ty_ne, if_pos rfl]
    simp only [frames_of_append, frames_of_events, frames_of_frame_record, List.append_nil]
  · rw [h3, if_neg hc.ty_ne]

theorem flush_ancestors_healthy (c : Config) (hc : c.wf) (n i : Nat) (s : record_state)
    (count : Int) (hi : i + n ≤ s.rstack.length)
    (hd : s.mtdp.shmem.done = false) (ha : ∀ k, s.alloc k = true) :
    (flush_ancestors c n i s count).2.2 = false ∧
    frames_of (flush_ancestors c n i s count).1.out
      = frames_of s.out ++ entry_records c s.rstack s.mtdp.argbuf i n ∧
    (flush_ancestors c n i s count).1.mtdp.argbuf = s.mtdp.argbuf ∧
    (flush_ancestors c n i s count).1.mtdp.shmem.done = false ∧
    (∀ k, (flush_ancestors c n i s count).1.alloc k = true) ∧
    (flush_ancestors c n i s count).1.rstack.length = s.rstack.length ∧
    (∀ j, (flush_ancestors c n i s count).1.rstack.getD j no_frame
      = if i ≤ j ∧ j < i + n ∧ (s.rstack.getD j no_frame).flags &&& SKIP_FLAGS c = 0 then
          { s.rstack.getD j no_frame with
            flags := (s.rstack.getD j no_frame).flags ||| c.MCOUNT_FL_WRITTEN }
        else s.rstack.getD j no_frame) := by
  induction n generalizing i s count with
  | zero =>
    refine ⟨rfl, ?_, rfl, hd, ha, rfl, ?_⟩
    · show frames_of s.out = _
      simp [entry_records]
    · intro j
      rw [if_neg (by omega)]
      rfl
  | succ n ih =>
    rw [flush_ancestors_succ, entry_records_succ]
    by_cases hs : (s.rstack.getD i no_frame).flags &&& SKIP_FLAGS c = 0
    · rw [if_pos hs, if_pos hs]
      obtain ⟨r1, r2, r3, r4, r5, r6⟩ := record_entry_healthy c hc s i (by omega) hd ha
      rw [if_neg (by rw [r1]; simp)]
      obtain ⟨i1, i2, i3, i4, i5, i6, i7⟩ := ih (i + 1)
        (record_ret_stack c s c.UFTRACE_ENTRY i).1 (count - 1)
        (by rw [r3]; simp; omega) r5 r6
      refine ⟨i1, ?_, i3.trans r4, i4, i5, ?_, ?_⟩
      · rw [i2, r2, r4, List.append_assoc]
        congr 2
        apply entry_records_congr
        intro j h1 _
        rw [r3, getD_set_ne _ _ _ _ _ (by omega)]
      · rw [i6, r3]
        simp
      · intro j
        rw [i7 j, r3]
        by_cases hj : j = i
        · subst hj
          rw [if_neg (by omega), if_pos ⟨le_refl _, by omega, hs⟩, getD_set_self,
            if_pos (by omega)]
        · rw [getD_set_ne _ _ _ _ _ hj]
          by_cases hp : i + 1 ≤ j ∧ j < i + 1 + n ∧
              (s.rstack.getD j no_frame).flags &&& SKIP_FLAGS c = 0
          · rw [if_pos hp, if_pos ⟨by omega, by omega, hp.2.2⟩]
          · rw [if_neg hp, if_neg]
            rintro ⟨q1, q2, q3⟩
            exact hp ⟨by omega, by omega, q3⟩
    · rw [if_neg hs, if_neg hs]
      obtain ⟨i1, i2, i3, i4, i5, i6, i7⟩ := ih (i + 1) s count (by omega) hd ha
      refine ⟨i1, ?_, i3, i4, i5, i6, ?_⟩
      · rw [i2]
        rfl
      · intro j
        rw [i7 j]
        by_cases hp : i + 1 ≤ j ∧ j < i + 1 + n ∧
            (s.rstack.getD j no_frame).flags &&& SKIP_FLAGS c = 0
        · rw [if_pos hp, if_pos ⟨by omega, by omega, hp.2.2⟩]
        · rw [if_neg hp, if_neg]
          rintro ⟨q1, q2, q3⟩
          by_cases hj : j = i
          · subst hj
            exact hs q3
          · exact hp ⟨by omega, by omega, q3⟩

theorem save_retval_keeps (c : Config) (m : mcount_thread_data) (ri : Nat)
    (f : mcount_ret_stack) :
    (save_retval c m ri f).1.shmem = m.shmem ∧
    (save_retval c m ri f).2
      = { f with flags := (save_retval c m ri f).2.flags } := by
  unfold save_retval
  dsimp only
  split_ifs <;> exact ⟨rfl, rfl⟩

theorem save_retval_congr (c : Config) (m m' : mcount_thread_data) (ri : Nat)
    (f : mcount_ret_stack) (h : m.argbuf = m'.argbuf) :
    (save_retval c m ri f).2 = (save_retval c m' ri f).2 ∧
    (save_retval c m ri f).1.argbuf = (save_retval c m' ri f).1.argbuf := by
  unfold save_retval
  dsimp only
  rw [h]
  split_ifs <;> exact ⟨rfl, rfl⟩

theorem record_exit_healthy (c : Config) (hc : c.wf) (s : record_state) (i : Nat)
    (hi : i < s.rstack.length)
    (hd : s.mtdp.shmem.done = false) (ha : ∀ n, s.alloc n = true) :
    (record_ret_stack c s c.UFTRACE_EXIT i).2 = 0 ∧
    frames_of (record_ret_stack c s c.UFTRACE_EXIT i).1.out
      = frames_of s.out ++
        [frame_record c c.UFTRACE_EXIT i (s.rstack.getD i no_frame) s.mtdp.argbuf] ∧
    (record_ret_stack c s c.UFTRACE_EXIT i).1.rstack
      = s.rstack.set i { s.rstack.getD i no_frame with
          flags := (s.rstack.getD i no_frame).flags ||| c.MCOUNT_FL_WRITTEN,
          nr_events := 0 } := by
  obtain ⟨h1, h2, h3, _⟩ := record_ret_stack_healthy c s c.UFTRACE_EXIT i
    (s.rstack.getD i no_frame) (getElem?_of_lt _ _ hi) (Or.inr rfl) hc.ty_ne hd ha
  refine ⟨h1, ?_, ?_⟩
  · rw [h2, if_pos rfl, if_neg (fun h => hc.ty_ne h.symm)]
    simp only [frames_of_append, frames_of_events, frames_of_frame_record, List.append_nil]
  · rw [h3, if_pos rfl]

theorem record_current_healthy (c : Config) (hc : c.wf) (s : record_state) (cur : Nat)
    (retval : Bool) (count : Int) (hi : cur < s.rstack.length)
    (hd : s.mtdp.shmem.done = false) (ha : ∀ n, s.alloc n = true) :
    frames_of (record_current c s cur retval count).state.out
      = frames_of s.out
        ++ (if (s.rstack.getD cur no_frame).flags &&&
              (c.MCOUNT_FL_WRITTEN ||| SKIP_FLAGS c) = 0 then
            [frame_record c c.UFTRACE_ENTRY cur (s.rstack.getD cur no_frame) s.mtdp.argbuf]
           else [])
        ++ (if (s.rstack.getD cur no_frame).end_time ≠ 0 then
            [frame_record c c.UFTRACE_EXIT cur
              (if retval then
                (save_retval c s.mtdp cur
                  (if (s.rstack.getD cur no_frame).flags &&&
                      (c.MCOUNT_FL_WRITTEN ||| SKIP_FLAGS c) = 0 then
                    { s.rstack.getD cur no_frame with
                      flags := (s.rstack.getD cur no_frame).flags ||| c.MCOUNT_FL_WRITTEN }
                   else s.rstack.getD cur no_frame)).2
               else
                (if (s.rstack.getD cur no_frame).flags &&&
                    (c.MCOUNT_FL_WRITTEN ||| SKIP_FLAGS c) = 0 then
                  { s.rstack.getD cur no_frame with
                    flags := (s.rstack.getD cur no_frame).flags ||| c.MCOUNT_FL_WRITTEN }
                 else s.rstack.getD cur no_frame))
              (if retval then
                (save_retval c s.mtdp cur
                  (if (s.rstack.getD cur no_frame).flags &&&
                      (c.MCOUNT_FL_WRITTEN ||| SKIP_FLAGS c) = 0 then
                    { s.rstack.getD cur no_frame with
                      flags := (s.rstack.getD cur no_frame).flags ||| c.MCOUNT_FL_WRITTEN }
                   else s.rstack.getD cur no_frame)).1.argbuf
               else s.mtdp.argbuf)]
           else []) ∧
    (∀ j, j ≠ cur → (record_current c s cur retval count).state.rstack.getD j no_frame
      = s.rstack.getD j no_frame) ∧
    ((s.rstack.getD cur no_frame).flags &&& (c.MCOUNT_FL_WRITTEN ||| SKIP_FLAGS c) = 0 →
      ((record_current c s cur retval count).state.rstack.getD cur no_frame).flags &&&
        c.MCOUNT_FL_WRITTEN ≠ 0) := by
  unfold record_current
  dsimp only
  -- the state after the ENTRY stage
  have stage1 : ∃ s1 : record_state,
      (if (s.rstack.getD cur no_frame).flags &&& (c.MCOUNT_FL_WRITTEN ||| SKIP_FLAGS c) = 0 then
        (record_ret_stack c s c.UFTRACE_ENTRY cur, count - 1) else ((s, 0), count))
        = ((s1, 0), if (s.rstack.getD cur no_frame).flags &&&
            (c.MCOUNT_FL_WRITTEN ||| SKIP_FLAGS c) = 0 then count - 1 else count) ∧
      frames_of s1.out = frames_of s.out
        ++ (if (s.rstack.getD cur no_frame).flags &&&
              (c.MCOUNT_FL_WRITTEN ||| SKIP_FLAGS c) = 0 then
            [frame_record c c.UFTRACE_ENTRY cur (s.rstack.getD cur no_frame) s.mtdp.argbuf]
           else []) ∧
      s1.rstack = s.rstack.set cur
        (if (s.rstack.getD cur no_frame).flags &&&
            (c.MCOUNT_FL_WRITTEN ||| SKIP_FLAGS c) = 0 then
          { s.rstack.getD cur no_frame with
            flags := (s.rstack.getD cur no_frame).flags ||| c.MCOUNT_FL_WRITTEN }
         else s.rstack.getD cur no_frame) ∧
      s1.mtdp.argbuf = s.mtdp.argbuf ∧ s1.mtdp.shmem.done = false ∧
      (∀ n, s1.alloc n = true) := by
    by_cases hf : (s.rstack.getD cur no_frame).flags &&&
        (c.MCOUNT_FL_WRITTEN ||| SKIP_FLAGS c) = 0
    · simp only [if_pos hf]
      obtain ⟨r1, r2, r3, r4, r5, r6⟩ := record_entry_healthy c hc s cur hi hd ha
      refine ⟨(record_ret_stack c s c.UFTRACE_ENTRY cur).1, ?_, r2, r3, r4, r5, r6⟩
      rw [← r1]
    · simp only [if_neg hf]
      refine ⟨s, rfl, by simp, ?_, rfl, hd, ha⟩
      exact (set_self_of_getElem? _ _ _ (getElem?_of_lt _ _ hi)).symm
  obtain ⟨s1, e0, e1, e2, e3, e4, e5⟩ := stage1
  rw [e0]
  dsimp only
  rw [if_neg (by simp)]
  generalize hf1 : (if (s.rstack.getD cur no_frame).flags &&&
      (c.MCOUNT_FL_WRITTEN ||| SKIP_FLAGS c) = 0 then
        ({ s.rstack.getD cur no_frame with
          flags := (s.rstack.getD cur no_frame).flags ||| c.MCOUNT_FL_WRITTEN } :
          mcount_ret_stack)
       else s.rstack.getD cur no_frame) = f1 at e2 ⊢
  have hg1 : s1.rstack.getD cur no_frame = f1 := by
    rw [e2, getD_set_self, if_pos hi]
  have hend1 : f1.end_time = (s.rstack.getD cur no_frame).end_time := by
    rw [← hf1]
    split_ifs <;> rfl
  have hlen1 : s1.rstack.length = s.rstack.length := by
    rw [e2]
    simp
  have hw1 : (s.rstack.getD cur no_frame).flags &&& (c.MCOUNT_FL_WRITTEN ||| SKIP_FLAGS c) = 0 →
      f1.flags &&& c.MCOUNT_FL_WRITTEN ≠ 0 := by
    intro h
    rw [← hf1, if_pos h]
    exact or_and_self_ne _ _ hc.written_ne
  rw [hg1, hend1]
  by_cases hend : (s.rstack.getD cur no_frame).end_time ≠ 0
  · rw [if_pos hend, if_pos hend]
    -- the state before the EXIT record
    have stage2 : ∃ s2 : record_state,
        (if retval = true then
          ({ s1 with mtdp := (save_retval c s1.mtdp cur f1).1
                     rstack := s1.rstack.set cur (save_retval c s1.mtdp cur f1).2 } :
            record_state)
         else s1) = s2 ∧
        s2.out = s1.out ∧
        s2.rstack = s.rstack.set cur
          (if retval = true then (save_retval c s.mtdp cur f1).2 else f1) ∧
        s2.mtdp.argbuf
          = (if retval = true then (save_retval c s.mtdp cur f1).1.argbuf else s.mtdp.argbuf) ∧
        s2.mtdp.shmem.done = false ∧ (∀ n, s2.alloc n = true) := by
      cases retval with
      | true =>
        obtain ⟨q1, q2⟩ := save_retval_congr c s1.mtdp s.mtdp cur f1 e3
        refine ⟨_, rfl, rfl, ?_, ?_, ?_, e5⟩
        · simp only [if_true]
          rw [e2, List.set_set, q1]
        · simp only [if_true]
          exact q2
        · show (save_retval c s1.mtdp cur f1).1.shmem.done = false
          rw [(save_retval_keeps c s1.mtdp cur f1).1]
          exact e4
      | false =>
        refine ⟨_, rfl, rfl, ?_, ?_, e4, e5⟩
        · simpa using e2
        · simpa using e3
    obtain ⟨s2, t0, t1, t2, t3, t4, t5⟩ := stage2
    rw [t0]
    have hlen2 : cur < s2.rstack.length := by
      rw [t2]
      simpa using hi
    obtain ⟨x1, x2, x3⟩ := record_exit_healthy c hc s2 cur hlen2 t4 t5
    rw [if_neg (by rw [x1]; simp)]
    dsimp only
    have hg2 : s2.rstack.getD cur no_frame
        = (if retval = true then (save_retval c s.mtdp cur f1).2 else f1) := by
      rw [t2, getD_set_self, if_pos hi]
    refine ⟨?_, ?_, ?_⟩
    · rw [x2, t1, e1, hg2, t3]
    · intro j hj
      rw [x3, getD_set_ne _ _ _ _ _ hj, t2, getD_set_ne _ _ _ _ _ hj]
    · intro _
      rw [x3, getD_set_self, if_pos hlen2]
      exact or_and_self_ne _ _ hc.written_ne
  · rw [if_neg hend, if_neg hend]
    dsimp only
    refine ⟨?_, ?_, ?_⟩
    · rw [e1]
      simp
    · intro j hj
      rw [e2, getD_set_ne _ _ _ _ _ hj]
    · intro h
      rw [hg1]
      exact hw1 h

theorem count_non_written_fst (c : Config) (rstack : List mcount_ret_stack) (nw : Nat)
    (count : Int) :
    (count_non_written c rstack nw count).1 ≤ nw ∧
    (∀ j, (count_non_written c rstack nw count).1 ≤ j → j < nw →
      (rstack.getD j no_frame).flags &&& c.MCOUNT_FL_WRITTEN = 0) ∧
    ((count_non_written c rstack nw count).1 = 0 ∨
      (rstack.getD ((count_non_written c rstack nw count).1 - 1) no_frame).flags &&&
        c.MCOUNT_FL_WRITTEN ≠ 0) := by
  induction nw generalizing count with
  | zero =>
    refine ⟨le_refl _, fun j _ h => absurd h (by omega), Or.inl rfl⟩
  | succ nw ih =>
    rw [count_non_written]
    by_cases h : (rstack.getD nw no_frame).flags &&& c.MCOUNT_FL_WRITTEN ≠ 0
    · rw [if_pos h]
      exact ⟨le_refl _, fun j h1 h2 => absurd h2 (by dsimp only at h1; omega), Or.inr h⟩
    · rw [if_neg h]
      obtain ⟨i1, i2, i3⟩ := ih
        (if (rstack.getD nw no_frame).flags &&& SKIP_FLAGS c = 0 then count + 1 else count)
      refine ⟨by omega, ?_, i3⟩
      intro j h1 h2
      by_cases hj : j = nw
      · subst hj
        simpa using h
      · exact i2 j h1 (by omega)

theorem exit_frame_eq (c : Config) (m m' : mcount_thread_data) (cur : Nat)
    (f : mcount_ret_stack) (retval : Bool) (h : m.argbuf = m'.argbuf) :
    exit_frame c m cur f retval = exit_frame c m' cur f retval := by
  unfold exit_frame
  dsimp only
  cases retval with
  | true =>
    simp only [if_true]
    obtain ⟨q1, q2⟩ := save_retval_congr c m m' cur
      (if f.flags &&& (c.MCOUNT_FL_WRITTEN ||| SKIP_FLAGS c) = 0 then
        { f with flags := f.flags ||| c.MCOUNT_FL_WRITTEN } else f) h
    rw [q1, q2]
  | false =>
    simp only [Bool.false_eq_true, if_false]
    rw [h]

theorem record_current_exit (c : Config) (hc : c.wf) (s : record_state) (cur : Nat)
    (retval : Bool) (count : Int) (hi : cur < s.rstack.length)
    (hd : s.mtdp.shmem.done = false) (ha : ∀ n, s.alloc n = true) :
    frames_of (record_current c s cur retval count).state.out
      = frames_of s.out
        ++ (if (s.rstack.getD cur no_frame).flags &&&
              (c.MCOUNT_FL_WRITTEN ||| SKIP_FLAGS c) = 0 then
            [frame_record c c.UFTRACE_ENTRY cur (s.rstack.getD cur no_frame) s.mtdp.argbuf]
           else [])
        ++ (if (s.rstack.getD cur no_frame).end_time ≠ 0 then
            [frame_record c c.UFTRACE_EXIT cur
              (exit_frame c s.mtdp cur (s.rstack.getD cur no_frame) retval).1
              (exit_frame c s.mtdp cur (s.rstack.getD cur no_frame) retval).2]
           else []) := by
  rw [(record_current_healthy c hc s cur retval count hi hd ha).1]
  unfold exit_frame
  cases retval <;> rfl

theorem record_trace_data_healthy (c : Config) (hc : c.wf) (s : record_state) (cur nw : Nat)
    (retval : Bool) (hcur : cur < s.rstack.length)
    (hd : s.mtdp.shmem.done = false) (ha : ∀ n, s.alloc n = true)
    (hnw : nw ≤ cur + 1)
    (hrun : ∀ j, nw ≤ j → j ≤ cur → (s.rstack.getD j no_frame).flags &&& c.MCOUNT_FL_WRITTEN = 0)
    (hmax : nw = 0 ∨ (s.rstack.getD (nw - 1) no_frame).flags &&& c.MCOUNT_FL_WRITTEN ≠ 0) :
    frames_of (record_trace_data c s (cur : Int) retval).state.out
      = frames_of s.out ++ entry_records c s.rstack s.mtdp.argbuf nw (cur + 1 - nw)
        ++ (if (s.rstack.getD cur no_frame).end_time ≠ 0 then
            [frame_record c c.UFTRACE_EXIT cur
              (exit_frame c s.mtdp cur (s.rstack.getD cur no_frame) retval).1
              (exit_frame c s.mtdp cur (s.rstack.getD cur no_frame) retval).2]
           else []) ∧
    (∀ j, nw ≤ j → j ≤ cur → (s.rstack.getD j no_frame).flags &&& SKIP_FLAGS c = 0 →
      ((record_trace_data c s (cur : Int) retval).state.rstack.getD j no_frame).flags &&&
        c.MCOUNT_FL_WRITTEN ≠ 0) ∧
    (∀ j, j ≠ cur → ¬ (nw ≤ j ∧ j ≤ cur ∧ (s.rstack.getD j no_frame).flags &&& SKIP_FLAGS c = 0) →
      (record_trace_data c s (cur : Int) retval).state.rstack.getD j no_frame
        = s.rstack.getD j no_frame) := by
  unfold record_trace_data
  rw [if_neg (by omega)]
  dsimp only
  rw [Int.toNat_ofNat]
  by_cases hw : (s.rstack.getD cur no_frame).flags &&& c.MCOUNT_FL_WRITTEN = 0
  · rw [if_pos hw]
    dsimp only
    obtain ⟨c1, c2, c3⟩ := count_non_written_fst c s.rstack cur
      (if (s.rstack.getD cur no_frame).flags &&& SKIP_FLAGS c = 0 then 1 else 0)
    generalize count_non_written c s.rstack cur
      (if (s.rstack.getD cur no_frame).flags &&& SKIP_FLAGS c = 0 then 1 else 0) = r
      at c1 c2 c3
    have hnw1 : nw ≤ cur := by
      by_contra hcon
      have : nw = cur + 1 := by omega
      subst this
      rcases hmax with h | h
      · omega
      · exact h hw
    have hr : r.1 = nw := by
      by_contra hcon
      rcases Nat.lt_or_gt_of_ne hcon with h | h
      · rcases hmax with h0 | h0
        · omega
        · exact h0 (c2 (nw - 1) (by omega) (by omega))
      · rcases c3 with h0 | h0
        · omega
        · exact h0 (hrun (r.1 - 1) (by omega) (by omega))
    rw [hr]
    generalize (if (s.rstack.getD cur no_frame).end_time ≠ 0 then r.2 + 1 else r.2) = count
    obtain ⟨w1, w2, w3, w4, w5, w6, w7⟩ := flush_ancestors_healthy c hc (cur - nw) nw s count
      (by omega) hd ha
    rw [if_neg (by rw [w1]; simp)]
    have hcur' : cur < (flush_ancestors c (cur - nw) nw s count).1.rstack.length := by
      rw [w6]
      exact hcur
    have hfc : (flush_ancestors c (cur - nw) nw s count).1.rstack.getD cur no_frame
        = s.rstack.getD cur no_frame := by
      rw [w7 cur, if_neg]
      rintro ⟨_, q, _⟩
      omega
    obtain ⟨x1, x2, x3⟩ := record_current_healthy c hc _ cur retval
      (flush_ancestors c (cur - nw) nw s count).2.1 hcur' w4 w5
    have hb : (s.rstack.getD cur no_frame).flags &&&
        (c.MCOUNT_FL_WRITTEN ||| SKIP_FLAGS c) = 0 ↔
        (s.rstack.getD cur no_frame).flags &&& SKIP_FLAGS c = 0 := by
      rw [and_or_eq_zero]
      exact ⟨fun h => h.2, fun h => ⟨hw, h⟩⟩
    refine ⟨?_, ?_, ?_⟩
    · rw [record_current_exit c hc _ cur retval _ hcur' w4 w5, hfc, w2, w3,
        exit_frame_eq c _ s.mtdp cur _ retval w3]
      have hsplit : cur + 1 - nw = (cur - nw) + 1 := by omega
      rw [hsplit, entry_records_concat]
      have hidx : nw + (cur - nw) = cur := by omega
      rw [hidx]
      by_cases hs : (s.rstack.getD cur no_frame).flags &&& SKIP_FLAGS c = 0
      · rw [if_pos (hb.2 hs), if_pos hs]
        simp only [List.append_assoc]
      · rw [if_neg (fun h => hs (hb.1 h)), if_neg hs]
        simp only [List.append_assoc]
    · intro j h1 h2 h3
      by_cases hj : j = cur
      · subst hj
        exact x3 (by rw [hfc]; exact hb.2 h3)
      · rw [x2 j hj, w7 j, if_pos ⟨h1, by omega, h3⟩]
        exact or_and_self_ne _ _ hc.written_ne
    · intro j hj hn
      rw [x2 j hj, w7 j, if_neg]
      rintro ⟨q1, q2, q3⟩
      exact hn ⟨q1, by omega, q3⟩
  · rw [if_neg hw]
    dsimp only
    rw [if_neg (by simp)]
    have hnw1 : nw = cur + 1 := by
      by_contra hcon
      exact hw (hrun cur (by omega) (le_refl _))
    obtain ⟨x1, x2, x3⟩ := record_current_healthy c hc s cur retval
      (if (s.rstack.getD cur no_frame).end_time ≠ 0 then (0 : Int) + 1 else 0) hcur hd ha
    have hb : ¬ (s.rstack.getD cur no_frame).flags &&&
        (c.MCOUNT_FL_WRITTEN ||| SKIP_FLAGS c) = 0 :=
      fun h => hw ((and_or_eq_zero _ _ _).1 h).1
    refine ⟨?_, ?_, ?_⟩
    · rw [record_current_exit c hc s cur retval _ hcur hd ha, if_neg hb, hnw1]
      simp [entry_records]
    · intro j h1 h2 _
      omega
    · intro j hj _
      exact x2 j hj

/-! ## C11: the order of the ENTRY records -/

/-- C11: on a pool that is not closed and whose segment creations all succeed (so that no
acquisition fails), for every stack, current frame `cur` and run `nw .. cur` of frames
without `WRITTEN` that cannot be extended downwards (`nw = cur + 1` when the current
frame is `WRITTEN`), the frame records `record_trace_data` appends are: one ENTRY record
for every frame of the run that carries neither `NORECORD` nor `DISABLED`, bottom
frame first, each with the argument bytes pending in its slot when it has `ARGUMENT`;
then, if the current frame has an end time, one EXIT record of the current frame.  Every
frame that got an ENTRY record ends with `WRITTEN` set, and every other frame except the
current one is unchanged. -/
theorem record_trace_data_entry_order (c : Config) (hc : c.wf) (s : record_state)
    (cur nw : Nat) (retval : Bool) (hcur : cur < s.rstack.length)
    (hd : s.mtdp.shmem.done = false) (ha : ∀ n, s.alloc n = true)
    (hnw : nw ≤ cur + 1)
    (hrun : ∀ j, nw ≤ j → j ≤ cur → (s.rstack.getD j no_frame).flags &&& c.MCOUNT_FL_WRITTEN = 0)
    (hmax : nw = 0 ∨ (s.rstack.getD (nw - 1) no_frame).flags &&& c.MCOUNT_FL_WRITTEN ≠ 0) :
    frames_of (record_trace_data c s (cur : Int) retval).state.out
      = frames_of s.out ++ entry_records c s.rstack s.mtdp.argbuf nw (cur + 1 - nw)
        ++ (if (s.rstack.getD cur no_frame).end_time ≠ 0 then
            [frame_record c c.UFTRACE_EXIT cur
              (exit_frame c s.mtdp cur (s.rstack.getD cur no_frame) retval).1
              (exit_frame c s.mtdp cur (s.rstack.getD cur no_frame) retval).2]
           else []) ∧
    (∀ j, nw ≤ j → j ≤ cur → (s.rstack.getD j no_frame).flags &&& SKIP_FLAGS c = 0 →
      ((record_trace_data c s (cur : Int) retval).state.rstack.getD j no_frame).flags &&&
        c.MCOUNT_FL_WRITTEN ≠ 0) ∧
    (∀ j, j ≠ cur → ¬ (nw ≤ j ∧ j ≤ cur ∧ (s.rstack.getD j no_frame).flags &&& SKIP_FLAGS c = 0) →
      (record_trace_data c s (cur : Int) retval).state.rstack.getD j no_frame
        = s.rstack.getD j no_frame) :=
  record_trace_data_healthy c hc s cur nw retval hcur hd ha hnw hrun hmax

/-- Witness of `record_trace_data_entry_order`: on `mixed_state` the run is the frames
1 .. 3 above a written frame; frame 2 is filtered, so the ENTRY records of the frames 1
and 3 are written, then the EXIT record of frame 3. -/
theorem record_trace_data_entry_order_witness :
    small_config.wf ∧ 3 < mixed_state.rstack.length ∧
    mixed_state.mtdp.shmem.done = false ∧ (∀ n, mixed_state.alloc n = true) ∧
    1 ≤ 3 + 1 ∧
    (∀ j, 1 ≤ j → j ≤ 3 →
      (mixed_state.rstack.getD j no_frame).flags &&& small_config.MCOUNT_FL_WRITTEN = 0) ∧
    (1 = 0 ∨ (mixed_state.rstack.getD (1 - 1) no_frame).flags &&&
      small_config.MCOUNT_FL_WRITTEN ≠ 0) ∧
    frames_of (record_trace_data small_config mixed_state ((3 : Nat) : Int) false).state.out
      = frames_of mixed_state.out
        ++ entry_records small_config mixed_state.rstack mixed_state.mtdp.argbuf 1 (3 + 1 - 1)
        ++ (if (mixed_state.rstack.getD 3 no_frame).end_time ≠ 0 then
            [frame_record small_config small_config.UFTRACE_EXIT 3
              (exit_frame small_config mixed_state.mtdp 3
                (mixed_state.rstack.getD 3 no_frame) false).1
              (exit_frame small_config mixed_state.mtdp 3
                (mixed_state.rstack.getD 3 no_frame) false).2]
           else []) ∧
    entry_records small_config mixed_state.rstack mixed_state.mtdp.argbuf 1 (3 + 1 - 1)
      = [written_record.frame small_config.UFTRACE_ENTRY 1 1000 275166658600 16 [],
         written_record.frame small_config.UFTRACE_ENTRY 3 1020 275179110568 16 []] :=
  have hrun : ∀ j, 1 ≤ j → j ≤ 3 →
      (mixed_state.rstack.getD j no_frame).flags &&& small_config.MCOUNT_FL_WRITTEN = 0 := by
    intro j h1 h2
    interval_cases j <;> decide
  ⟨small_config_wf, by decide, rfl, fun _ => rfl, by decide, hrun, Or.inr (by decide),
    (record_trace_data_entry_order small_config small_config_wf mixed_state 3 1 false
      (by decide) rfl (fun _ => rfl) (by decide) hrun (Or.inr (by decide))).1,
    by decide⟩

/-! ## C12: three nested calls -/

/-- C12, counterexample: `frame_A` and `frame_B` carry `NORECORD`, `frame_C` does not and
has returned; nothing is written yet and every acquisition succeeds.  The records that
`record_trace_data` writes at the exit of `frame_C` are the ENTRY and the EXIT record of
frame 2 only: the filtered frames get no ENTRY record. -/
theorem skipped_ancestors_get_no_entry :
    (frame_A.flags &&& SKIP_FLAGS small_config ≠ 0 ∧
      frame_B.flags &&& SKIP_FLAGS small_config ≠ 0 ∧
      frame_C.flags &&& SKIP_FLAGS small_config = 0) ∧
    (record_trace_data small_config skip_state 2 false).state.out
      = [written_record.frame small_config.UFTRACE_ENTRY 2 1020 275179110568 16 [],
         written_record.frame small_config.UFTRACE_EXIT 2 1090 275179110569 16 []] := by
  decide

/-- C12, amended: for three nested unwritten frames A, B, C of which C carries no skip
flag and has returned, on a pool that is not closed and whose segment creations
succeed, the frame records written at the exit of C are the ENTRY records of those of A
and B that carry neither `NORECORD` nor `DISABLED`, in that order, then the ENTRY record
of C, then the EXIT record of C; there is no EXIT record of A or B. -/
theorem unwritten_ancestors_get_entries (c : Config) (hc : c.wf) (s : record_state)
    (A B C : mcount_ret_stack) (retval : Bool) (hst : s.rstack = [A, B, C])
    (hA : A.flags &&& c.MCOUNT_FL_WRITTEN = 0) (hB : B.flags &&& c.MCOUNT_FL_WRITTEN = 0)
    (hC : C.flags &&& c.MCOUNT_FL_WRITTEN = 0) (hCs : C.flags &&& SKIP_FLAGS c = 0)
    (hend : C.end_time ≠ 0)
    (hd : s.mtdp.shmem.done = false) (ha : ∀ n, s.alloc n = true) :
    frames_of (record_trace_data c s 2 retval).state.out
      = frames_of s.out
        ++ (if A.flags &&& SKIP_FLAGS c = 0 then
              [frame_record c c.UFTRACE_ENTRY 0 A s.mtdp.argbuf] else [])
        ++ (if B.flags &&& SKIP_FLAGS c = 0 then
              [frame_record c c.UFTRACE_ENTRY 1 B s.mtdp.argbuf] else [])
        ++ [frame_record c c.UFTRACE_ENTRY 2 C s.mtdp.argbuf,
            frame_record c c.UFTRACE_EXIT 2 (exit_frame c s.mtdp 2 C retval).1
              (exit_frame c s.mtdp 2 C retval).2] := by
  have hrun : ∀ j, 0 ≤ j → j ≤ 2 →
      (s.rstack.getD j no_frame).flags &&& c.MCOUNT_FL_WRITTEN = 0 := by
    intro j _ h2
    rw [hst]
    interval_cases j
    · exact hA
    · exact hB
    · exact hC
  have h := (record_trace_data_healthy c hc s 2 0 retval (by rw [hst]; simp) hd ha
    (by decide) hrun (Or.inl rfl)).1
  have e : ((2 : Nat) : Int) = 2 := rfl
  rw [e] at h
  rw [h, hst]
  have h3 : 2 + 1 - 0 = 0 + 1 + 1 + 1 := rfl
  rw [h3, entry_records_succ, entry_records_succ, entry_records_succ]
  have gA : ([A, B, C] : List mcount_ret_stack).getD 0 no_frame = A := rfl
  have gB : ([A, B, C] : List mcount_ret_stack).getD (0 + 1) no_frame = B := rfl
  have gC : ([A, B, C] : List mcount_ret_stack).getD (0 + 1 + 1) no_frame = C := rfl
  rw [gA, gB, gC, if_pos hCs, if_pos hend]
  simp [entry_records]

/-- Witness of `unwritten_ancestors_get_entries`: the three calls of `plain_state`, none
of them filtered. -/
theorem unwritten_ancestors_get_entries_witness :
    small_config.wf ∧
    plain_state.rstack = [{ frame_A with flags := 0 }, { frame_B with flags := 0 }, frame_C] ∧
    ({ frame_A with flags := 0 } : mcount_ret_stack).flags &&& small_config.MCOUNT_FL_WRITTEN = 0 ∧
    ({ frame_B with flags := 0 } : mcount_ret_stack).flags &&& small_config.MCOUNT_FL_WRITTEN = 0 ∧
    frame_C.flags &&& small_config.MCOUNT_FL_WRITTEN = 0 ∧
    frame_C.flags &&& SKIP_FLAGS small_config = 0 ∧ frame_C.end_time ≠ 0 ∧
    plain_state.mtdp.shmem.done = false ∧ (∀ n, plain_state.alloc n = true) ∧
    frames_of (record_trace_data small_config plain_state 2 false).state.out
      = frames_of plain_state.out
        ++ (if ({ frame_A with flags := 0 } : mcount_ret_stack).flags &&&
              SKIP_FLAGS small_config = 0 then
              [frame_record small_config small_config.UFTRACE_ENTRY 0 { frame_A with flags := 0 }
                plain_state.mtdp.argbuf] else [])
        ++ (if ({ frame_B with flags := 0 } : mcount_ret_stack).flags &&&
              SKIP_FLAGS small_config = 0 then
              [frame_record small_config small_config.UFTRACE_ENTRY 1 { frame_B with flags := 0 }
                plain_state.mtdp.argbuf] else [])
        ++ [frame_record small_config small_config.UFTRACE_ENTRY 2 frame_C
              plain_state.mtdp.argbuf,
            frame_record small_config small_config.UFTRACE_EXIT 2
              (exit_frame small_config plain_state.mtdp 2 frame_C false).1
              (exit_frame small_config plain_state.mtdp 2 frame_C false).2] :=
  ⟨small_config_wf, rfl, by decide, by decide, by decide, by decide, by decide, rfl,
    fun _ => rfl,
    unwritten_ancestors_get_entries small_config small_config_wf plain_state _ _ _ false rfl
      (by decide) (by decide) (by decide) (by decide) (by decide) rfl (fun _ => rfl)⟩

/-! ## C13: a return value that does not fit its slot -/

theorem copy_str_below (str : Nat → Nat) (dst fuel i len : Nat) (m : Mem) (x : Nat)
    (h : x < dst) : (copy_str str dst fuel i len m).1 x = m x := by
  induction fuel generalizing i len m with
  | zero => rfl
  | succ fuel ih =>
    rw [copy_str]
    have ha : st8 (st8 (st8 (st8 (st8 m (dst + i) (str i)) (dst + (i - 3)) 46) (dst + (i - 2)) 46)
        (dst + (i - 1)) 46) (dst + i) 0 x = m x := by
      rw [st8_other _ _ _ _ (by omega), st8_other _ _ _ _ (by omega),
        st8_other _ _ _ _ (by omega), st8_other _ _ _ _ (by omega),
        st8_other _ _ _ _ (by omega)]
    have hb : st8 m (dst + i) (str i) x = m x := st8_other _ _ _ _ (by omega)
    split_ifs with h3 h4 h5
    · exact ha
    · rw [ih]
      exact ha
    · exact hb
    · rw [ih]
      exact hb

theorem save_spec_below (c : Config) (is_retval : Bool) (st : argbuf_state)
    (spec : uftrace_arg_spec) (x : Nat) (h : x < st.ptr) :
    (save_spec c is_retval st spec).mem x = st.mem x ∧
      st.ptr ≤ (save_spec c is_retval st spec).ptr := by
  unfold save_spec
  split_ifs with h1 h2
  · exact ⟨rfl, le_refl _⟩
  · cases hs : spec.str with
    | some str =>
      dsimp only
      refine ⟨?_, by omega⟩
      rw [st16_outside _ _ _ _ (by omega), copy_str_below _ _ _ _ _ _ _ (by omega)]
    | none =>
      dsimp only
      refine ⟨?_, by omega⟩
      rw [memcpy_outside _ _ _ _ _ (by omega), memcpy_outside _ _ _ _ _ (by omega)]
  · dsimp only
    refine ⟨?_, by omega⟩
    rw [memcpy_outside _ _ _ _ _ (by omega)]

theorem save_specs_below (c : Config) (is_retval : Bool) (specs : List uftrace_arg_spec)
    (st : argbuf_state) (x : Nat) (h : x < st.ptr) :
    (specs.foldl (save_spec c is_retval) st).mem x = st.mem x := by
  induction specs generalizing st with
  | nil => rfl
  | cons spec rest ih =>
    rw [List.foldl_cons]
    obtain ⟨h1, h2⟩ := save_spec_below c is_retval st spec x h
    rw [ih _ (by omega), h1]

theorem and_not_and (x r : Nat) (hr : r < 2 ^ 32) : (x &&& (r ^^^ (2 ^ 32 - 1))) &&& r = 0 := by
  apply Nat.eq_of_testBit_eq
  intro i
  rw [Nat.testBit_and, Nat.testBit_and, Nat.testBit_xor, Nat.testBit_two_pow_sub_one,
    Nat.zero_testBit]
  by_cases hi : i < 32
  · cases x.testBit i <;> cases r.testBit i <;> simp [hi]
  · have : r.testBit i = false :=
      Nat.testBit_eq_false_of_lt (lt_of_lt_of_le hr (Nat.pow_le_pow_right (by omega) (by omega)))
    rw [this]
    simp

theorem and_not_testBit (x r : Nat) (hx : x < 2 ^ 32) (i : Nat) (hi : r.testBit i = false) :
    (x &&& (r ^^^ (2 ^ 32 - 1))).testBit i = x.testBit i := by
  rw [Nat.testBit_and, Nat.testBit_xor, Nat.testBit_two_pow_sub_one, hi]
  by_cases h : i < 32
  · simp [h]
  · have : x.testBit i = false :=
      Nat.testBit_eq_false_of_lt (lt_of_lt_of_le hx (Nat.pow_le_pow_right (by omega) (by omega)))
    rw [this]
    simp

theorem save_retval_oversize (c : Config) (m : mcount_thread_data) (ri : Nat)
    (f : mcount_ret_stack)
    (hover : max_size c < (f.pargs.foldl (save_spec c true)
      { mem := m.argbuf, ptr := get_argbuf c ri + 4, total_size := 0 }).total_size) :
    (save_retval c m ri f).2
      = { f with flags := f.flags &&& (c.MCOUNT_FL_RETVAL ^^^ (2 ^ 32 - 1)) } ∧
    (∀ x, x < get_argbuf c ri + 4 → (save_retval c m ri f).1.argbuf x = m.argbuf x) := by
  unfold save_retval save_to_argbuf
  dsimp only
  rw [if_pos hover, if_pos rfl]
  refine ⟨rfl, fun x hx => ?_⟩
  exact save_specs_below c true f.pargs _ x hx

theorem ret_stack_rec_word (c : Config) (hm : c.RECORD_MAGIC < 8) (type : Nat)
    (depth child_ip : Nat) (ht : type < 4) (hd : depth < 1024) (ha : child_ip < 2 ^ 48) :
    ret_stack_rec c type false depth child_ip
      = uftrace_record_word type 0 c.RECORD_MAGIC depth child_ip := by
  rw [ret_stack_rec_eq c hm type false depth child_ip ht hd ha]
  unfold uftrace_record_word
  simp only [Bool.false_eq_true, if_false]
  omega

theorem run_start_exists (c : Config) (rstack : List mcount_ret_stack) (cur : Nat) :
    ∃ nw, nw ≤ cur + 1 ∧
      (∀ j, nw ≤ j → j ≤ cur → (rstack.getD j no_frame).flags &&& c.MCOUNT_FL_WRITTEN = 0) ∧
      (nw = 0 ∨ (rstack.getD (nw - 1) no_frame).flags &&& c.MCOUNT_FL_WRITTEN ≠ 0) := by
  obtain ⟨c1, c2, c3⟩ := count_non_written_fst c rstack (cur + 1) 0
  exact ⟨_, c1, fun j h1 h2 => c2 j h1 (by omega), c3⟩

/-- C13: for a frame (32-bit flags, depth below 1024, address below 2^48, with an end
time) whose return value specifications add up to more than `ARGBUF_SIZE - 4` bytes,
`save_retval` clears exactly the bits of `RETVAL` in the flags and leaves the size header
of the slot as it was; and on a pool that is not closed and whose segment creations
succeed, the last frame record `record_trace_data` then writes is the EXIT record of the
frame: 16 bytes, no argument bytes, the end time, and the packed word with `more = 0`
and the depth and the address of the frame. -/
theorem oversize_retval_exit (c : Config) (hc : c.wf) (s : record_state) (cur : Nat)
    (f : mcount_ret_stack) (hf : s.rstack[cur]? = some f)
    (hflags : f.flags < 2 ^ 32) (hend : f.end_time ≠ 0)
    (hdepth : f.depth < 1024) (haddr : f.child_ip < 2 ^ 48)
    (hd : s.mtdp.shmem.done = false) (ha : ∀ n, s.alloc n = true)
    (hover : max_size c < (f.pargs.foldl (save_spec c true)
      { mem := s.mtdp.argbuf, ptr := get_argbuf c cur + 4, total_size := 0 }).total_size) :
    (save_retval c s.mtdp cur f).2.flags &&& c.MCOUNT_FL_RETVAL = 0 ∧
    (∀ i, c.MCOUNT_FL_RETVAL.testBit i = false →
      (save_retval c s.mtdp cur f).2.flags.testBit i = f.flags.testBit i) ∧
    ld32 (save_retval c s.mtdp cur f).1.argbuf (get_argbuf c cur)
      = ld32 s.mtdp.argbuf (get_argbuf c cur) ∧
    (frames_of (record_trace_data c s (cur : Int) true).state.out).getLast?
      = some (written_record.frame c.UFTRACE_EXIT cur f.end_time
          (uftrace_record_word c.UFTRACE_EXIT 0 c.RECORD_MAGIC f.depth f.child_ip)
          sizeof_uftrace_record []) := by
  have hlen := lt_length_of_getElem? _ _ _ hf
  have hg := getD_of_getElem? _ _ _ no_frame hf
  obtain ⟨o1, o2⟩ := save_retval_oversize c s.mtdp cur f hover
  refine ⟨?_, ?_, ?_, ?_⟩
  · rw [o1]
    exact and_not_and _ _ hc.retval_lt
  · intro i hi
    rw [o1]
    exact and_not_testBit _ _ hflags i hi
  · apply ld32_congr
    intro x _ h2
    exact o2 x (by omega)
  · obtain ⟨nw, n1, n2, n3⟩ := run_start_exists c s.rstack cur
    rw [(record_trace_data_healthy c hc s cur nw true hlen hd ha n1 n2 n3).1, hg, if_pos hend,
      List.getLast?_concat]
    congr 1
    unfold exit_frame
    dsimp only
    simp only [if_true]
    generalize hf1 : (if f.flags &&& (c.MCOUNT_FL_WRITTEN ||| SKIP_FLAGS c) = 0 then
      ({ f with flags := f.flags ||| c.MCOUNT_FL_WRITTEN } : mcount_ret_stack) else f) = f1
    have hp : f1.pargs = f.pargs ∧ f1.end_time = f.end_time ∧ f1.depth = f.depth ∧
        f1.child_ip = f.child_ip := by
      rw [← hf1]
      split_ifs <;> exact ⟨rfl, rfl, rfl, rfl⟩
    obtain ⟨p1, p2, p3, p4⟩ := hp
    obtain ⟨q1, _⟩ := save_retval_oversize c s.mtdp cur f1 (by rw [p1]; exact hover)
    rw [q1]
    unfold frame_record record_time
    have hab : has_argbuf c c.UFTRACE_EXIT
        (f1.flags &&& (c.MCOUNT_FL_RETVAL ^^^ (2 ^ 32 - 1))) = false := by
      unfold has_argbuf
      rw [and_not_and _ _ hc.retval_lt]
      simp [hc.ty_ne.symm]
    dsimp only
    rw [hab, if_pos rfl, p2, p3, p4,
      ret_stack_rec_word c hc.magic c.UFTRACE_EXIT f.depth f.child_ip hc.ty_exit hdepth haddr]
    simp

/-- Witness of `oversize_retval_exit`: `big_retval_frame` describes its return value as a
1024-byte value, more than the 1020 bytes a slot of `small_config` holds. -/
theorem oversize_retval_exit_witness :
    small_config.wf ∧ big_retval_state.rstack[0]? = some big_retval_frame ∧
    big_retval_frame.flags < 2 ^ 32 ∧ big_retval_frame.end_time ≠ 0 ∧
    big_retval_frame.depth < 1024 ∧ big_retval_frame.child_ip < 2 ^ 48 ∧
    big_retval_state.mtdp.shmem.done = false ∧ (∀ n, big_retval_state.alloc n = true) ∧
    max_size small_config < (big_retval_frame.pargs.foldl (save_spec small_config true)
      { mem := big_retval_state.mtdp.argbuf, ptr := get_argbuf small_config 0 + 4,
        total_size := 0 }).total_size ∧
    (frames_of (record_trace_data small_config big_retval_state ((0 : Nat) : Int)
        true).state.out).getLast?
      = some (written_record.frame small_config.UFTRACE_EXIT 0 big_retval_frame.end_time
          (uftrace_record_word small_config.UFTRACE_EXIT 0 small_config.RECORD_MAGIC
            big_retval_frame.depth big_retval_frame.child_ip)
          sizeof_uftrace_record []) :=
  ⟨small_config_wf, rfl, by decide, by decide, by decide, by decide, rfl, fun _ => rfl,
    by decide,
    (oversize_retval_exit small_config small_config_wf big_retval_state 0 big_retval_frame rfl
      (by decide) (by decide) (by decide) (by decide) rfl (fun _ => rfl) (by decide)).2.2.2⟩

/-! ## C14: the queue of asynchronous events -/

/-- C14, counterexample: `sample_event` (time 1000) is queued and the ENTRY record of
`late_frame` (time 2000) is written on a full pool; the segment creation fails for the
event and succeeds for the frame record.  The event is removed from the queue but not
written: the only record is the frame record. -/
theorem async_event_dropped_without_segment :
    flaky_state.mtdp.event.map mcount_event.time = [1000] ∧
    (record_ret_stack small_config flaky_state small_config.UFTRACE_ENTRY 0).1.out
      = [written_record.frame small_config.UFTRACE_ENTRY 0 2000 275166658600 16 []] ∧
    (record_ret_stack small_config flaky_state small_config.UFTRACE_ENTRY 0).1.mtdp.event.length
      = 0 := by
  decide

theorem sorted_takeWhile (l : List mcount_event) (T : Nat)
    (hs : l.Pairwise (fun a b => a.time ≤ b.time)) :
    l.takeWhile (fun e => decide (e.time < T)) = l.filter (fun e => decide (e.time < T)) ∧
    l.dropWhile (fun e => decide (e.time < T)) = l.filter (fun e => !decide (e.time < T)) := by
  induction l with
  | nil => exact ⟨rfl, rfl⟩
  | cons e rest ih =>
    rw [List.pairwise_cons] at hs
    obtain ⟨h1, h2⟩ := hs
    obtain ⟨i1, i2⟩ := ih h2
    by_cases h : e.time < T
    · rw [List.takeWhile_cons_of_pos (by simpa using h),
        List.dropWhile_cons_of_pos (by simpa using h),
        List.filter_cons_of_pos (by simpa using h),
        List.filter_cons_of_neg (by simpa using h), i1, i2]
      exact ⟨rfl, rfl⟩
    · rw [List.takeWhile_cons_of_neg (by simpa using h),
        List.dropWhile_cons_of_neg (by simpa using h),
        List.filter_cons_of_neg (by simpa using h),
        List.filter_cons_of_pos (by simpa using h)]
      constructor
      · symm
        rw [List.filter_eq_nil_iff]
        intro b hb
        have := h1 b hb
        simp only [decide_eq_true_eq]
        omega
      · congr 1
        symm
        rw [List.filter_eq_self]
        intro b hb
        have := h1 b hb
        simp only [Bool.not_eq_true', decide_eq_false_iff_not]
        omega

theorem wide_config_wf : wide_config.wf :=
  { small_config_wf with bufsize := by decide }

/-- C14, amended: for a queue of asynchronous events sorted by time, on a pool that is
not closed and whose segment creations succeed, `record_ret_stack` for a frame record
with timestamp `T` appends the queued events with a time below `T` in queue order, then
(at EXIT) the events attached to the frame, then the frame record, then (at ENTRY) the
events attached to the frame; the queue keeps exactly the events with a time of at least
`T`, in their order. -/
theorem record_ret_stack_flushes_async (c : Config) (hc : c.wf) (s : record_state)
    (type ri : Nat) (f : mcount_ret_stack) (hf : s.rstack[ri]? = some f)
    (ht : type = c.UFTRACE_ENTRY ∨ type = c.UFTRACE_EXIT)
    (hd : s.mtdp.shmem.done = false) (ha : ∀ n, s.alloc n = true)
    (hs : s.mtdp.event.Pairwise (fun a b => a.time ≤ b.time)) :
    (record_ret_stack c s type ri).1.out
      = s.out ++ (s.mtdp.event.filter
            (fun e => decide (e.time < record_time c type f))).map event_record
          ++ (if type = c.UFTRACE_EXIT then
                ((attached_events s.mtdp.argbuf (get_argbuf c ri + f.event_idx)
                  f.nr_events).filter
                    (fun e => decide (e.time = record_time c type f))).map event_record
              else [])
          ++ [frame_record c type ri f s.mtdp.argbuf]
          ++ (if type = c.UFTRACE_ENTRY then
                ((attached_events s.mtdp.argbuf (get_argbuf c ri + f.event_idx)
                  f.nr_events).takeWhile
                    (fun e => decide (e.time = record_time c type f))).map event_record
              else []) ∧
    (record_ret_stack c s type ri).1.mtdp.event
      = s.mtdp.event.filter (fun e => !decide (e.time < record_time c type f)) := by
  obtain ⟨_, h2, _, _, h5, _⟩ := record_ret_stack_healthy c s type ri f hf ht hc.ty_ne hd ha
  obtain ⟨t1, t2⟩ := sorted_takeWhile s.mtdp.event (record_time c type f) hs
  rw [h2, h5, t1, t2]
  exact ⟨rfl, rfl⟩

/-- Witness of `record_ret_stack_flushes_async`: the queue of `queue_state` holds an event
of time 1000 and one of time 3000; the ENTRY record of `late_frame` has time 2000. -/
theorem record_ret_stack_flushes_async_witness :
    wide_config.wf ∧ queue_state.rstack[0]? = some late_frame ∧
    (wide_config.UFTRACE_ENTRY = wide_config.UFTRACE_ENTRY ∨
      wide_config.UFTRACE_ENTRY = wide_config.UFTRACE_EXIT) ∧
    queue_state.mtdp.shmem.done = false ∧ (∀ n, queue_state.alloc n = true) ∧
    queue_state.mtdp.event.Pairwise (fun a b => a.time ≤ b.time) ∧
    ((record_ret_stack wide_config queue_state wide_config.UFTRACE_ENTRY 0).1.out
      = queue_state.out ++ (queue_state.mtdp.event.filter
            (fun e => decide (e.time < record_time wide_config wide_config.UFTRACE_ENTRY
              late_frame))).map event_record
          ++ (if wide_config.UFTRACE_ENTRY = wide_config.UFTRACE_EXIT then
                ((attached_events queue_state.mtdp.argbuf
                  (get_argbuf wide_config 0 + late_frame.event_idx)
                  late_frame.nr_events).filter
                    (fun e => decide (e.time = record_time wide_config wide_config.UFTRACE_ENTRY
                      late_frame))).map event_record
              else [])
          ++ [frame_record wide_config wide_config.UFTRACE_ENTRY 0 late_frame
                queue_state.mtdp.argbuf]
          ++ (if wide_config.UFTRACE_ENTRY = wide_config.UFTRACE_ENTRY then
                ((attached_events queue_state.mtdp.argbuf
                  (get_argbuf wide_config 0 + late_frame.event_idx)
                  late_frame.nr_events).takeWhile
                    (fun e => decide (e.time = record_time wide_config wide_config.UFTRACE_ENTRY
                      late_frame))).map event_record
              else []) ∧
    (record_ret_stack wide_config queue_state wide_config.UFTRACE_ENTRY 0).1.mtdp.event
      = queue_state.mtdp.event.filter
          (fun e => !decide (e.time < record_time wide_config wide_config.UFTRACE_ENTRY
            late_frame))) :=
  have hs : queue_state.mtdp.event.Pairwise (fun a b => a.time ≤ b.time) := by decide
  ⟨wide_config_wf, rfl, Or.inl rfl, rfl, fun _ => rfl, hs,
    record_ret_stack_flushes_async wide_config wide_config_wf queue_state wide_config.UFTRACE_ENTRY 0
      late_frame rfl (Or.inl rfl) rfl (fun _ => rfl) hs⟩

/-! ## C15: the snapshot of the process map -/

/-- C15: the failing input evaluated.  Of the three lines of `proc_maps_sample` the map
file gets the first and the third: the second line, a further mapping of
`/usr/bin/prog`, is left out of the file as well as of the descriptor list, while the
anonymous mapping is written. -/
theorem record_proc_maps_drops_repeated_mapping :
    (record_proc_maps proc_maps_sample).file = [prog_text.text, anon_mapping.text] ∧
    (record_proc_maps proc_maps_sample).file ≠ proc_maps_sample.map maps_line.text ∧
    (record_proc_maps proc_maps_sample).maps
      = [{ start := 4194304, «end» := 4198400, len := 16, prot := "r-xp",
           libname := "/usr/bin/prog" }] := by
  decide

/-! ## C16: when the pool shrinks -/

/-- C16, counterexample: after `scattered_trace` segment 3 is current and the segments 0,
1, 2 and 4 are drained, so the drained run at the tail of the pool is segment 4 alone.
The next rotation reuses segment 0 and removes segment 4: three segments beyond index 0
have the flag `WRITTEN` (1, 2 and 4) and the last one is among them. -/
theorem shrink_without_drained_tail :
    scattered_pool.shmem.buffer.map mcount_shmem_buffer.flag = [2, 2, 2, 6, 2] ∧
    scattered_pool.shmem.curr = 3 ∧
    (get_shmem_buffer small_config true scattered_pool 32).2 = some 0 ∧
    (get_shmem_buffer small_config true scattered_pool 32).1.shmem.buffer.map
      mcount_shmem_buffer.flag = [6, 2, 2, 6] := by
  decide

theorem reuse_length (c : Config) (idx : Nat) (mtdp : mcount_thread_data) :
    (reuse c idx mtdp).shmem.buffer.length
      = (shrink_unused c idx (update_buffer mtdp.shmem.buffer idx
          (fun b => { b with flag := b.flag ||| c.SHMEM_FL_RECORDING, size := 0 }))).length := by
  unfold reuse
  dsimp only
  split_ifs
  · dsimp only
    rw [update_buffer_length]
  · rfl

theorem shrink_unused_length (c : Config) (idx : Nat) (l : List mcount_shmem_buffer)
    (f : mcount_shmem_buffer → mcount_shmem_buffer) :
    (shrink_unused c idx (update_buffer l idx f)).length
      = if idx + 3 ≤ l.length ∧
          3 ≤ (l.drop (idx + 1)).countP (fun b => b.flag == c.SHMEM_FL_WRITTEN) ∧
          (l.getD (l.length - 1) fresh_shmem_buffer).flag = c.SHMEM_FL_WRITTEN
        then l.length - 1 else l.length := by
  unfold shrink_unused
  rw [update_buffer_length]
  by_cases h1 : idx + 3 ≤ l.length
  · rw [if_pos h1]
    dsimp only
    have hdrop : (update_buffer l idx f).drop (idx + 1) = l.drop (idx + 1) := by
      unfold update_buffer
      rw [List.drop_set_of_lt _ _ (by omega)]
    have hlast : (update_buffer l idx f).getD (l.length - 1) fresh_shmem_buffer
        = l.getD (l.length - 1) fresh_shmem_buffer := by
      rw [List.getD_eq_getElem?_getD, List.getD_eq_getElem?_getD, update_buffer_getElem?,
        if_neg (by omega)]
    rw [hdrop, hlast]
    by_cases h2 : 3 ≤ (l.drop (idx + 1)).countP (fun b => b.flag == c.SHMEM_FL_WRITTEN) ∧
        (l.getD (l.length - 1) fresh_shmem_buffer).flag = c.SHMEM_FL_WRITTEN
    · rw [if_pos h2, if_pos ⟨h1, h2⟩, List.length_dropLast, update_buffer_length]
    · rw [if_neg h2, if_neg (fun h => h2 h.2), update_buffer_length]
  · rw [if_neg h1, if_neg (fun h => h1 h.1), update_buffer_length]

/-- C16, amended: `get_new_shmem_buffer` removes a segment exactly when it reuses the
segment at `idx` (the first one without `RECORDING`), at least three segments follow
`idx`, at least three of the segments after `idx` have a flag word equal to `WRITTEN`
(wherever they are), and the last segment is one of them; it then removes one segment,
so `nr_buf` drops by one.  Otherwise `nr_buf` stays, or grows by one when no segment
is available and a new one is created. -/
theorem get_new_shmem_buffer_shrinks (c : Config) (alloc : Bool) (mtdp : mcount_thread_data) :
    (get_new_shmem_buffer c alloc mtdp).shmem.nr_buf
      = if first_available c mtdp.shmem.buffer + 3 ≤ mtdp.shmem.nr_buf ∧
          3 ≤ (mtdp.shmem.buffer.drop (first_available c mtdp.shmem.buffer + 1)).countP
                (fun b => b.flag == c.SHMEM_FL_WRITTEN) ∧
          (mtdp.shmem.buffer.getD (mtdp.shmem.nr_buf - 1) fresh_shmem_buffer).flag
            = c.SHMEM_FL_WRITTEN
        then mtdp.shmem.nr_buf - 1
        else if first_available c mtdp.shmem.buffer < mtdp.shmem.nr_buf then mtdp.shmem.nr_buf
        else if alloc then mtdp.shmem.nr_buf + 1
        else mtdp.shmem.nr_buf := by
  unfold get_new_shmem_buffer mcount_shmem.nr_buf
  dsimp only
  by_cases h1 : first_available c mtdp.shmem.buffer < mtdp.shmem.buffer.length
  · simp only [if_pos h1]
    rw [reuse_length, shrink_unused_length]
  · have hcond : ¬ (first_available c mtdp.shmem.buffer + 3 ≤ mtdp.shmem.buffer.length ∧
        3 ≤ (mtdp.shmem.buffer.drop (first_available c mtdp.shmem.buffer + 1)).countP
              (fun b => b.flag == c.SHMEM_FL_WRITTEN) ∧
        (mtdp.shmem.buffer.getD (mtdp.shmem.buffer.length - 1) fresh_shmem_buffer).flag
          = c.SHMEM_FL_WRITTEN) := fun h => h1 (by have := h.1; omega)
    simp only [if_neg h1, if_neg hcond]
    cases alloc with
    | true =>
      simp only [if_true]
      rw [reuse_length, shrink_unused_length]
      dsimp only
      rw [if_neg (fun h => h1 (by have := h.1; simp at this; omega))]
      simp
    | false => rfl

/-! ## C17: a failure during the walk -/

/-- C17: the failing input evaluated.  `lost_state` has two unwritten frames, the current
one returned, so three records are expected; the pool is full and no segment can be
created.  The walk fails at the first ENTRY record, nothing is written, the function
returns before the assertion, and the lost counter has risen from 0 to 4, not to 3. -/
theorem failed_walk_charges_one_too_many :
    (count_non_written small_config lost_state.rstack 1 1).2 + 1 = 3 ∧
    (record_trace_data small_config lost_state 1 false).state.out = [] ∧
    (record_trace_data small_config lost_state 1 false).count = none ∧
    lost_state.mtdp.shmem.losts = 0 ∧
    (record_trace_data small_config lost_state 1 false).state.mtdp.shmem.losts = 4 := by
  decide

/-! ## C18: the assertion on the expected-write counter -/

/-- C18: for every configuration, state (stack, flags, end times, pool, closed or not,
allocator answers), current frame and `retval`, `record_trace_data` either returns before
`assert(count == 0)` or reaches it with `count = 0`. -/
theorem record_trace_data_assert_holds (c : Config) (s : record_state) (mrstack : Int)
    (retval : Bool) :
    (record_trace_data c s mrstack retval).count = none ∨
      (record_trace_data c s mrstack retval).count = some 0 :=
  record_trace_data_count c s mrstack retval

/-- The assertion is reached: on a closed pool, where `record_ret_stack` returns 0 without
writing, and on a healthy pool after all records have been written. -/
theorem assert_reached_on_closed_pool :
    closed_state.mtdp.shmem.done = true ∧
    (record_trace_data small_config closed_state 1 false).count = some 0 ∧
    (record_trace_data small_config closed_state 1 false).state.out = [] ∧
    (record_trace_data small_config plain_state 2 false).count = some 0 := by
  decide

/-! ## C19: the events attached to a frame -/

/-- C19, counterexample: the trigger read at the entry of `entry_frame` stores the memory
counters (id 100001) and then the page faults (id 100002), both with the start time of
the frame; the event cursor (offset 952) points to the page faults, the event stored
last.  `record_ret_stack` writes, after the ENTRY record, the memory counters first and
the page faults second: oldest first. -/
theorem attached_events_emitted_oldest_first :
    (two_reads_state.rstack.map mcount_ret_stack.nr_events = [2] ∧
     (attached_events two_reads_state.mtdp.argbuf 952 2).map mcount_event.id = [100001, 100002] ∧
     ld32 two_reads_state.mtdp.argbuf (952 + 8) = 100002) ∧
    (record_ret_stack wide_config two_reads_state wide_config.UFTRACE_ENTRY 0).1.out
      = [written_record.frame wide_config.UFTRACE_ENTRY 0 1000 275166658600 16 [],
         written_record.event 100001 1000
           [88, 27, 0, 0, 0, 0, 0, 0, 32, 3, 0, 0, 0, 0, 0, 0, 90, 0, 0, 0, 0, 0, 0, 0],
         written_record.event 100002 1000 [3, 0, 0, 0, 0, 0, 0, 0, 250, 0, 0, 0, 0, 0, 0, 0]] := by
  decide

theorem attached_events_last (m : Mem) (base n : Nat) :
    (attached_events m base (n + 1)).getLast? = some (event_at m base) := by
  unfold attached_events
  rw [List.range_succ, List.map_append, List.map_singleton, List.getLast?_concat]
  have : n + 1 - n - 1 = 0 := by omega
  rw [this]
  rfl

/-- C19, amended: the loops of `record_ret_stack` visit the events attached to a frame in
the order of `attached_events`, which ends with the event at the event cursor (the one
stored last).  On a pool that is not closed and whose segment creations succeed: at EXIT
the events whose time is the end time of the frame are written, in that order, before
the frame record, and the event count of the frame is 0 afterwards; at ENTRY the events
of the longest prefix of that order whose time is the start time of the frame are
written after the frame record. -/
theorem record_ret_stack_attached_events (c : Config) (hc : c.wf) (s : record_state)
    (type ri : Nat) (f : mcount_ret_stack) (hf : s.rstack[ri]? = some f)
    (ht : type = c.UFTRACE_ENTRY ∨ type = c.UFTRACE_EXIT)
    (hd : s.mtdp.shmem.done = false) (ha : ∀ n, s.alloc n = true) :
    (∀ n, (attached_events s.mtdp.argbuf (get_argbuf c ri + f.event_idx) (n + 1)).getLast?
      = some (event_at s.mtdp.argbuf (get_argbuf c ri + f.event_idx))) ∧
    (type = c.UFTRACE_EXIT →
      (∃ pre, (record_ret_stack c s type ri).1.out
        = pre ++ ((attached_events s.mtdp.argbuf (get_argbuf c ri + f.event_idx)
              f.nr_events).filter (fun e => decide (e.time = f.end_time))).map event_record
            ++ [frame_record c type ri f s.mtdp.argbuf]) ∧
      ((record_ret_stack c s type ri).1.rstack.getD ri no_frame).nr_events = 0) ∧
    (type = c.UFTRACE_ENTRY →
      ∃ pre, (record_ret_stack c s type ri).1.out
        = pre ++ [frame_record c type ri f s.mtdp.argbuf]
            ++ ((attached_events s.mtdp.argbuf (get_argbuf c ri + f.event_idx)
              f.nr_events).takeWhile (fun e => decide (e.time = f.start_time))).map
                event_record) := by
  have hlen := lt_length_of_getElem? _ _ _ hf
  obtain ⟨_, h2, h3, _⟩ := record_ret_stack_healthy c s type ri f hf ht hc.ty_ne hd ha
  refine ⟨fun n => attached_events_last _ _ n, ?_, ?_⟩
  · intro he
    subst he
    have hT : record_time c c.UFTRACE_EXIT f = f.end_time := by
      unfold record_time
      rw [if_pos rfl]
    rw [hT, if_pos rfl, if_neg (fun h => hc.ty_ne h.symm), List.append_nil] at h2
    rw [if_pos rfl] at h3
    refine ⟨⟨_, h2⟩, ?_⟩
    rw [h3, getD_set_self, if_pos hlen]
  · intro he
    subst he
    have hT : record_time c c.UFTRACE_ENTRY f = f.start_time := by
      unfold record_time
      rw [if_neg hc.ty_ne]
    rw [hT, if_neg hc.ty_ne, if_pos rfl, List.append_nil] at h2
    exact ⟨_, h2⟩

/-- Witness of `record_ret_stack_attached_events`: the ENTRY record of the frame of
`two_reads_state`, which has two events attached. -/
theorem record_ret_stack_attached_events_witness :
    wide_config.wf ∧
    two_reads_state.rstack[0]? = some (save_trigger_read wide_config
      (prepare_shmem_buffer wide_config new_thread) 0 entry_frame 3 false entry_readings).2 ∧
    (wide_config.UFTRACE_ENTRY = wide_config.UFTRACE_ENTRY ∨
      wide_config.UFTRACE_ENTRY = wide_config.UFTRACE_EXIT) ∧
    two_reads_state.mtdp.shmem.done = false ∧ (∀ n, two_reads_state.alloc n = true) ∧
    (wide_config.UFTRACE_ENTRY = wide_config.UFTRACE_ENTRY →
      ∃ pre, (record_ret_stack wide_config two_reads_state wide_config.UFTRACE_ENTRY 0).1.out
        = pre ++ [frame_record wide_config wide_config.UFTRACE_ENTRY 0
              (save_trigger_read wide_config (prepare_shmem_buffer wide_config new_thread) 0
                entry_frame 3 false entry_readings).2 two_reads_state.mtdp.argbuf]
            ++ ((attached_events two_reads_state.mtdp.argbuf
                (get_argbuf wide_config 0 + (save_trigger_read wide_config
                  (prepare_shmem_buffer wide_config new_thread) 0 entry_frame 3 false
                  entry_readings).2.event_idx)
                (save_trigger_read wide_config (prepare_shmem_buffer wide_config new_thread) 0
                  entry_frame 3 false entry_readings).2.nr_events).takeWhile
                (fun e => decide (e.time = (save_trigger_read wide_config
                  (prepare_shmem_buffer wide_config new_thread) 0 entry_frame 3 false
                  entry_readings).2.start_time))).map event_record) :=
  ⟨wide_config_wf, rfl, Or.inl rfl, rfl, fun _ => rfl,
    (record_ret_stack_attached_events wide_config wide_config_wf two_reads_state
      wide_config.UFTRACE_ENTRY 0 _ rfl (Or.inl rfl) rfl (fun _ => rfl)).2.2⟩

/-! ## C20: a diff-mode read without an earlier reading -/

set_option maxRecDepth 1000000 in
/-- C20: the failing input evaluated.  After the read at entry the frame has one event,
the page faults (3, 250).  The diff-mode read at exit stores the page fault difference
and then reads the cycles (5000, 9000): none of the two events recorded so far has the
id of a cycle reading (their ids are 100004 and 100002), yet the new event, at offset
928, carries the diff id of the cycles and the payload 5000 - 3, 9000 - 250: the page
faults read at entry have been subtracted. -/
theorem diff_against_unrelated_event :
    after_entry_read.2.nr_events = 1 ∧
    (List.range 3).map (fun i => ld32 after_exit_read.1.argbuf
      (get_event_pointer after_exit_read.1.argbuf after_exit_read.2.event_idx i + 8))
      = [small_config.EVENT_ID_DIFF read_evt.PMU_CYCLE,
         small_config.EVENT_ID_DIFF read_evt.PAGE_FAULT,
         small_config.EVENT_ID_READ read_evt.PAGE_FAULT] ∧
    small_config.EVENT_ID_READ read_evt.PMU_CYCLE ≠ small_config.EVENT_ID_DIFF read_evt.PAGE_FAULT ∧
    small_config.EVENT_ID_READ read_evt.PMU_CYCLE ≠ small_config.EVENT_ID_READ read_evt.PAGE_FAULT ∧
    after_exit_read.2.event_idx = 928 ∧
    ld64 after_exit_read.1.argbuf (928 + EVTBUF_HDR) = 5000 - 3 ∧
    ld64 after_exit_read.1.argbuf (928 + EVTBUF_HDR + 8) = 9000 - 250 := by
  decide

/-! ## C22: the pool after a rotation -/

theorem reuse_at (c : Config) (hc : c.wf) (idx : Nat) (mtdp : mcount_thread_data)
    (hidx : idx < mtdp.shmem.buffer.length) :
    ∃ b, (reuse c idx mtdp).shmem.buffer[idx]? = some b ∧ (b.size = 0 ∨ b.size = 16) ∧
      recording c b = true := by
  obtain ⟨b0, hb0⟩ : ∃ b0, mtdp.shmem.buffer[idx]? = some b0 :=
    ⟨_, List.getElem?_eq_getElem hidx⟩
  have h1 : (shrink_unused c idx (update_buffer mtdp.shmem.buffer idx
      (fun b => { b with flag := b.flag ||| c.SHMEM_FL_RECORDING, size := 0 })))[idx]?
      = some { b0 with flag := b0.flag ||| c.SHMEM_FL_RECORDING, size := 0 } := by
    rw [shrink_unused_getElem?_idx, update_buffer_getElem?, if_pos rfl, hb0]
    rfl
  unfold reuse
  dsimp only
  by_cases hl : mtdp.shmem.losts ≠ 0
  · rw [if_pos hl]
    dsimp only
    rw [update_buffer_getElem?, if_pos rfl, h1]
    refine ⟨_, rfl, Or.inr ?_, ?_⟩
    · exact (write_lost_spec c hc _ _).1
    · exact recording_set c hc _ b0.flag rfl
  · rw [if_neg hl]
    dsimp only
    rw [h1]
    exact ⟨_, rfl, Or.inl rfl, recording_set c hc _ b0.flag rfl⟩

theorem reuse_fields (c : Config) (idx : Nat) (mtdp : mcount_thread_data) :
    (reuse c idx mtdp).shmem.max_buf = mtdp.shmem.max_buf ∧
      (reuse c idx mtdp).shmem.seqnum = (mtdp.shmem.seqnum + 1) % 2 ^ 32 := by
  unfold reuse
  dsimp only
  split_ifs <;> exact ⟨rfl, rfl⟩

theorem not_recording_of_written (c : Config) (hc : c.wf) (b : mcount_shmem_buffer)
    (h : b.flag = c.SHMEM_FL_WRITTEN) : recording c b = false := by
  unfold recording
  rw [h, hc.rec_written]
  rfl

theorem reuse_survivors (c : Config) (hc : c.wf) (idx : Nat) (mtdp : mcount_thread_data)
    (hidx : idx < mtdp.shmem.buffer.length) :
    idx < (reuse c idx mtdp).shmem.buffer.length ∧
    ∀ (j : Nat) (b : mcount_shmem_buffer), mtdp.shmem.buffer[j]? = some b → recording c b = true →
      j < (reuse c idx mtdp).shmem.buffer.length := by
  rw [reuse_length, shrink_unused_length]
  constructor
  · split_ifs with h
    · omega
    · exact hidx
  · intro j b hj hr
    have hjl : j < mtdp.shmem.buffer.length := by
      by_contra hc'
      rw [List.getElem?_eq_none (by omega)] at hj
      cases hj
    split_ifs with h
    · by_contra hcon
      have hje : j = mtdp.shmem.buffer.length - 1 := by omega
      have hb : mtdp.shmem.buffer.getD (mtdp.shmem.buffer.length - 1) fresh_shmem_buffer = b := by
        rw [List.getD_eq_getElem?_getD, ← hje, hj]
        rfl
      rw [hb] at h
      rw [not_recording_of_written c hc b h.2.2] at hr
      cases hr
    · exact hjl

/-- C22: for every pool with `nr_buf <= max_buf`, after `get_new_shmem_buffer` either
`curr = -1`, `nr_buf` is unchanged and the lost counter has grown by one, or `curr` is
the index of a segment of the pool, that segment carries `RECORDING` and the sequence
number has grown by one (an `unsigned`, so modulo 2^32); `nr_buf <= max_buf` holds
afterwards; and every segment that carried `RECORDING` before the call is still in the
pool, as is the active one: the shrink step removes neither. -/
theorem get_new_shmem_buffer_keeps_pool (c : Config) (hc : c.wf) (alloc : Bool)
    (mtdp : mcount_thread_data) (hmax : mtdp.shmem.nr_buf ≤ mtdp.shmem.max_buf) :
    (((get_new_shmem_buffer c alloc mtdp).shmem.curr = -1 ∧
        (get_new_shmem_buffer c alloc mtdp).shmem.nr_buf = mtdp.shmem.nr_buf ∧
        (get_new_shmem_buffer c alloc mtdp).shmem.losts = mtdp.shmem.losts + 1) ∨
      (0 ≤ (get_new_shmem_buffer c alloc mtdp).shmem.curr ∧
        (get_new_shmem_buffer c alloc mtdp).shmem.curr.toNat
          < (get_new_shmem_buffer c alloc mtdp).shmem.nr_buf ∧
        (∃ b, (get_new_shmem_buffer c alloc mtdp).shmem.buffer[
            (get_new_shmem_buffer c alloc mtdp).shmem.curr.toNat]? = some b ∧
          recording c b = true) ∧
        (get_new_shmem_buffer c alloc mtdp).shmem.seqnum
          = (mtdp.shmem.seqnum + 1) % 2 ^ 32)) ∧
    (get_new_shmem_buffer c alloc mtdp).shmem.nr_buf
      ≤ (get_new_shmem_buffer c alloc mtdp).shmem.max_buf ∧
    (∀ (j : Nat) (b : mcount_shmem_buffer), mtdp.shmem.buffer[j]? = some b → recording c b = true →
      j < (get_new_shmem_buffer c alloc mtdp).shmem.nr_buf) := by
  unfold mcount_shmem.nr_buf at hmax ⊢
  have hle : first_available c mtdp.shmem.buffer ≤ mtdp.shmem.buffer.length :=
    List.findIdx_le_length _
  have core : ∀ (m : mcount_thread_data) (idx : Nat), idx < m.shmem.buffer.length →
      m.shmem.buffer.length ≤ m.shmem.max_buf → m.shmem.seqnum = mtdp.shmem.seqnum →
      (∀ (j : Nat) (b : mcount_shmem_buffer), mtdp.shmem.buffer[j]? = some b → m.shmem.buffer[j]? = some b) →
      ((((reuse c idx m).shmem.curr = -1 ∧
          (reuse c idx m).shmem.buffer.length = mtdp.shmem.buffer.length ∧
          (reuse c idx m).shmem.losts = mtdp.shmem.losts + 1) ∨
        (0 ≤ (reuse c idx m).shmem.curr ∧
          (reuse c idx m).shmem.curr.toNat < (reuse c idx m).shmem.buffer.length ∧
          (∃ b, (reuse c idx m).shmem.buffer[(reuse c idx m).shmem.curr.toNat]? = some b ∧
            recording c b = true) ∧
          (reuse c idx m).shmem.seqnum = (mtdp.shmem.seqnum + 1) % 2 ^ 32)) ∧
      (reuse c idx m).shmem.buffer.length ≤ (reuse c idx m).shmem.max_buf ∧
      (∀ (j : Nat) (b : mcount_shmem_buffer), mtdp.shmem.buffer[j]? = some b → recording c b = true →
        j < (reuse c idx m).shmem.buffer.length)) := by
    intro m idx hidx hm hs hsub
    obtain ⟨b, a1, _, a3⟩ := reuse_at c hc idx m hidx
    obtain ⟨f1, f2⟩ := reuse_fields c idx m
    obtain ⟨s1, s2⟩ := reuse_survivors c hc idx m hidx
    have hcur := reuse_curr c idx m
    refine ⟨Or.inr ⟨?_, ?_, ?_, ?_⟩, ?_, ?_⟩
    · rw [hcur]
      omega
    · rw [hcur]
      simpa using s1
    · rw [hcur]
      exact ⟨b, by simpa using a1, a3⟩
    · rw [f2, hs]
    · rw [f1]
      exact le_trans (reuse_length_le c idx m) hm
    · intro j b hj hr
      exact s2 j b (hsub j b hj) hr
  unfold get_new_shmem_buffer
  dsimp only
  by_cases h1 : first_available c mtdp.shmem.buffer < mtdp.shmem.buffer.length
  · simp only [mcount_shmem.nr_buf, if_pos h1]
    exact core mtdp _ h1 hmax rfl (fun _ _ h => h)
  · simp only [mcount_shmem.nr_buf, if_neg h1]
    have hidx : first_available c mtdp.shmem.buffer = mtdp.shmem.buffer.length := by omega
    cases alloc with
    | true =>
      simp only [if_true]
      apply core
      · simp [hidx]
      · dsimp only
        split_ifs with h2
        · exact le_refl _
        · omega
      · rfl
      · intro j b hj
        have hjl : j < mtdp.shmem.buffer.length := by
          by_contra hc'
          rw [List.getElem?_eq_none (by omega)] at hj
          cases hj
        dsimp only
        rw [List.getElem?_append_left hjl]
        exact hj
    | false =>
      simp only [Bool.false_eq_true, if_false]
      refine ⟨Or.inl ⟨trivial, trivial, trivial⟩, hmax, ?_⟩
      intro j b hj _
      by_contra hc'
      rw [List.getElem?_eq_none (by omega)] at hj
      cases hj

/-- Witness of `get_new_shmem_buffer_keeps_pool`: the rotation on `scattered_pool`, which
reuses segment 0 and removes segment 4. -/
theorem get_new_shmem_buffer_keeps_pool_witness :
    small_config.wf ∧ scattered_pool.shmem.nr_buf ≤ scattered_pool.shmem.max_buf ∧
    ((((get_new_shmem_buffer small_config true scattered_pool).shmem.curr = -1 ∧
        (get_new_shmem_buffer small_config true scattered_pool).shmem.nr_buf
          = scattered_pool.shmem.nr_buf ∧
        (get_new_shmem_buffer small_config true scattered_pool).shmem.losts
          = scattered_pool.shmem.losts + 1) ∨
      (0 ≤ (get_new_shmem_buffer small_config true scattered_pool).shmem.curr ∧
        (get_new_shmem_buffer small_config true scattered_pool).shmem.curr.toNat
          < (get_new_shmem_buffer small_config true scattered_pool).shmem.nr_buf ∧
        (∃ b, (get_new_shmem_buffer small_config true scattered_pool).shmem.buffer[
            (get_new_shmem_buffer small_config true scattered_pool).shmem.curr.toNat]? = some b ∧
          recording small_config b = true) ∧
        (get_new_shmem_buffer small_config true scattered_pool).shmem.seqnum
          = (scattered_pool.shmem.seqnum + 1) % 2 ^ 32)) ∧
    (get_new_shmem_buffer small_config true scattered_pool).shmem.nr_buf
      ≤ (get_new_shmem_buffer small_config true scattered_pool).shmem.max_buf ∧
    (∀ (j : Nat) (b : mcount_shmem_buffer), scattered_pool.shmem.buffer[j]? = some b →
      recording small_config b = true →
      j < (get_new_shmem_buffer small_config true scattered_pool).shmem.nr_buf)) ∧
    (get_new_shmem_buffer small_config true scattered_pool).shmem.curr = 0 ∧
    (get_new_shmem_buffer small_config true scattered_pool).shmem.nr_buf = 4 ∧
    (get_new_shmem_buffer small_config true scattered_pool).shmem.max_buf = 5 :=
  ⟨small_config_wf, by decide,
    get_new_shmem_buffer_keeps_pool small_config small_config_wf true scattered_pool (by decide),
    by decide, by decide, by decide⟩

/-! ## C21: the write cursor -/

theorem maxsize_eq (c : Config) (hc : c.wf) : maxsize c = c.shmem_bufsize - c.sizeof_shmem_buffer := by
  have := hc.bufsize
  unfold maxsize
  omega

theorem getD_of_getElem?_buffer (l : List mcount_shmem_buffer) (i : Nat)
    (b : mcount_shmem_buffer) (h : l[i]? = some b) : l.getD i fresh_shmem_buffer = b := by
  simp [List.getD_eq_getElem?_getD, h]

theorem get_new_shmem_buffer_cursor (c : Config) (hc : c.wf) (alloc : Bool)
    (mtdp : mcount_thread_data)
    (h : (get_new_shmem_buffer c alloc mtdp).shmem.curr ≠ -1) :
    0 ≤ (get_new_shmem_buffer c alloc mtdp).shmem.curr ∧
    (get_new_shmem_buffer c alloc mtdp).shmem.curr.toNat
      < (get_new_shmem_buffer c alloc mtdp).shmem.nr_buf ∧
    ((get_new_shmem_buffer c alloc mtdp).shmem.buffer.getD
      (get_new_shmem_buffer c alloc mtdp).shmem.curr.toNat fresh_shmem_buffer).size % 8 = 0 ∧
    ((get_new_shmem_buffer c alloc mtdp).shmem.buffer.getD
      (get_new_shmem_buffer c alloc mtdp).shmem.curr.toNat fresh_shmem_buffer).size ≤ 16 := by
  have core : ∀ (m : mcount_thread_data) (idx : Nat), idx < m.shmem.buffer.length →
      0 ≤ (reuse c idx m).shmem.curr ∧
      (reuse c idx m).shmem.curr.toNat < (reuse c idx m).shmem.nr_buf ∧
      ((reuse c idx m).shmem.buffer.getD (reuse c idx m).shmem.curr.toNat
        fresh_shmem_buffer).size % 8 = 0 ∧
      ((reuse c idx m).shmem.buffer.getD (reuse c idx m).shmem.curr.toNat
        fresh_shmem_buffer).size ≤ 16 := by
    intro m idx hidx
    obtain ⟨b, a1, a2, _⟩ := reuse_at c hc idx m hidx
    obtain ⟨s1, _⟩ := reuse_survivors c hc idx m hidx
    rw [reuse_curr c idx m]
    simp only [Int.toNat_ofNat, mcount_shmem.nr_buf]
    rw [getD_of_getElem?_buffer _ _ _ a1]
    refine ⟨by omega, s1, ?_, ?_⟩ <;> rcases a2 with h0 | h0 <;> omega
  revert h
  unfold get_new_shmem_buffer
  dsimp only
  by_cases h1 : first_available c mtdp.shmem.buffer < mtdp.shmem.nr_buf
  · rw [if_pos h1]
    intro _
    exact core mtdp _ h1
  · rw [if_neg h1]
    have hle : first_available c mtdp.shmem.buffer ≤ mtdp.shmem.buffer.length :=
      List.findIdx_le_length _
    have hidx : first_available c mtdp.shmem.buffer = mtdp.shmem.buffer.length := by
      unfold mcount_shmem.nr_buf at h1
      omega
    cases alloc with
    | true =>
      simp only [if_true]
      intro _
      apply core
      simp [hidx]
    | false =>
      simp only [Bool.false_eq_true, if_false]
      intro h
      exact absurd rfl h

theorem get_shmem_buffer_cursor (c : Config) (hc : c.wf) (alloc : Bool)
    (mtdp : mcount_thread_data) (size : Nat) (hinv : cursor_aligned c mtdp)
    (hreq : size + 16 ≤ maxsize c) :
    (∀ (m1 : mcount_thread_data) (i : Nat), get_shmem_buffer c alloc mtdp size = (m1, some i) →
      m1.shmem.curr = (i : Int) ∧ i < m1.shmem.nr_buf ∧
      (m1.shmem.buffer.getD i fresh_shmem_buffer).size % 8 = 0 ∧
      (m1.shmem.buffer.getD i fresh_shmem_buffer).size + size ≤ maxsize c) ∧
    (∀ (m1 : mcount_thread_data), get_shmem_buffer c alloc mtdp size = (m1, none) →
      cursor_aligned c m1) := by
  have hm := maxsize_lt c hc
  unfold get_shmem_buffer
  by_cases h1 : needs_new c mtdp.shmem size = true
  · rw [if_pos h1]
    by_cases h2 : mtdp.shmem.done = true
    · rw [if_pos h2]
      constructor
      · intro m1 i h
        cases h
      · intro m1 h
        cases h
        exact hinv
    · rw [if_neg h2]
      dsimp only
      generalize (if -1 < mtdp.shmem.curr then finish_shmem_buffer mtdp mtdp.shmem.curr.toNat
        else mtdp) = s1
      by_cases h3 : (get_new_shmem_buffer c alloc s1).shmem.curr = -1
      · rw [if_pos h3]
        constructor
        · intro m1 i h
          cases h
        · intro m1 h
          cases h
          exact Or.inl h3
      · rw [if_neg h3]
        obtain ⟨g1, g2, g3, g4⟩ := get_new_shmem_buffer_cursor c hc alloc s1 h3
        constructor
        · intro m1 i h
          cases h
          refine ⟨by omega, g2, g3, by omega⟩
        · intro m1 h
          cases h
  · rw [if_neg h1]
    constructor
    · intro m1 i h
      cases h
      unfold needs_new at h1
      rcases hinv with h0 | ⟨i1, i2, i3, i4⟩
      · rw [h0] at h1
        simp at h1
      · simp only [Bool.or_eq_true, beq_iff_eq, decide_eq_true_eq, not_or, not_lt] at h1
        refine ⟨by omega, i2, i3, ?_⟩
        have := h1.2
        rw [Nat.mod_eq_of_lt (by omega)] at this
        exact this
    · intro m1 h
      cases h

theorem update_buffer_getD (l : List mcount_shmem_buffer) (i : Nat)
    (f : mcount_shmem_buffer → mcount_shmem_buffer) (h : i < l.length) :
    (update_buffer l i f).getD i fresh_shmem_buffer = f (l.getD i fresh_shmem_buffer) := by
  rw [List.getD_eq_getElem?_getD, update_buffer_getElem?, if_pos rfl,
    List.getD_eq_getElem?_getD, List.getElem?_eq_getElem h]
  rfl

theorem event_size_mod (n : Nat) : event_size n % 8 = 0 := by
  unfold event_size ALIGN
  split_ifs <;> omega

theorem record_event_cursor (c : Config) (hc : c.wf) (hcap : maxsize c % 8 = 0) (alloc : Bool)
    (mtdp : mcount_thread_data) (event : mcount_event) (hinv : cursor_aligned c mtdp)
    (hreq : event_size (event.dsize % 2 ^ 16) + 16 ≤ maxsize c) :
    cursor_aligned c (record_event c alloc mtdp event).1 := by
  have hm := maxsize_lt c hc
  obtain ⟨k1, k2⟩ := get_shmem_buffer_cursor c hc alloc mtdp _ hinv hreq
  unfold record_event
  generalize get_shmem_buffer c alloc mtdp (event_size (event.dsize % 2 ^ 16)) = g at k1 k2
  obtain ⟨m1, o⟩ := g
  cases o with
  | none => exact k2 m1 rfl
  | some i =>
    obtain ⟨a1, a2, a3, a4⟩ := k1 m1 i rfl
    right
    dsimp only
    rw [a1]
    simp only [Int.toNat_ofNat, mcount_shmem.nr_buf, update_buffer_length]
    rw [update_buffer_getD _ _ _ a2]
    have hs : (write_event c event (m1.shmem.buffer.getD i fresh_shmem_buffer)).size
        = (m1.shmem.buffer.getD i fresh_shmem_buffer).size
            + event_size (event.dsize % 2 ^ 16) := by
      show ((m1.shmem.buffer.getD i fresh_shmem_buffer).size
            + event_size (event.dsize % 2 ^ 16)) % 2 ^ 32 = _
      exact Nat.mod_eq_of_lt (by omega)
    rw [hs]
    have := event_size_mod (event.dsize % 2 ^ 16)
    exact ⟨by omega, a2, by omega, a4⟩

theorem flush_async_cursor (c : Config) (hc : c.wf) (hcap : maxsize c % 8 = 0) (T : Nat)
    (q : List mcount_event) (s : record_state) (hinv : cursor_aligned c s.mtdp)
    (hq : ∀ e ∈ q, event_size (e.dsize % 2 ^ 16) + 16 ≤ maxsize c) :
    cursor_aligned c (flush_async c T q s).mtdp := by
  induction q generalizing s with
  | nil => exact hinv
  | cons e rest ih =>
    unfold flush_async
    by_cases h : e.time < T
    · rw [if_pos h]
      dsimp only
      apply ih
      · exact record_event_cursor c hc hcap (s.alloc 0) s.mtdp e hinv
          (hq e (List.mem_cons_self _ _))
      · intro e' he'
        exact hq e' (List.mem_cons_of_mem _ he')
    · rw [if_neg h]
      exact hinv

theorem flush_exit_fold_cursor (c : Config) (hc : c.wf) (hcap : maxsize c % 8 = 0)
    (argbuf n T : Nat) (l : List Nat) (s : record_state) (hinv : cursor_aligned c s.mtdp)
    (hev : ∀ i ∈ l, event_size ((event_at s.mtdp.argbuf
      (get_event_pointer s.mtdp.argbuf argbuf (n - i - 1))).dsize % 2 ^ 16) + 16 ≤ maxsize c) :
    cursor_aligned c (l.foldl
      (fun s i =>
        if ld64 s.mtdp.argbuf (get_event_pointer s.mtdp.argbuf argbuf (n - i - 1)) ≠ T then s
        else emit_event c s
          (event_at s.mtdp.argbuf (get_event_pointer s.mtdp.argbuf argbuf (n - i - 1)))) s).mtdp := by
  induction l generalizing s with
  | nil => exact hinv
  | cons i rest ih =>
    rw [List.foldl_cons]
    by_cases h : ld64 s.mtdp.argbuf (get_event_pointer s.mtdp.argbuf argbuf (n - i - 1)) ≠ T
    · rw [if_pos h]
      exact ih s hinv (fun j hj => hev j (List.mem_cons_of_mem _ hj))
    · rw [if_neg h]
      obtain ⟨_, k2, _⟩ := emit_event_keeps c s
        (event_at s.mtdp.argbuf (get_event_pointer s.mtdp.argbuf argbuf (n - i - 1)))
      apply ih
      · exact record_event_cursor c hc hcap (s.alloc 0) s.mtdp _ hinv
          (hev i (List.mem_cons_self _ _))
      · intro j hj
        rw [k2]
        exact hev j (List.mem_cons_of_mem _ hj)

theorem flush_entry_events_cursor (c : Config) (hc : c.wf) (hcap : maxsize c % 8 = 0)
    (argbuf nr T : Nat) (n i : Nat) (s : record_state) (hinv : cursor_aligned c s.mtdp)
    (hev : ∀ j, i ≤ j → j < i + n → event_size ((event_at s.mtdp.argbuf
      (get_event_pointer s.mtdp.argbuf argbuf (nr - j - 1))).dsize % 2 ^ 16) + 16 ≤ maxsize c) :
    cursor_aligned c (flush_entry_events c argbuf nr T n i s).mtdp := by
  induction n generalizing i s with
  | zero => exact hinv
  | succ n ih =>
    rw [flush_entry_events_succ]
    by_cases h : ld64 s.mtdp.argbuf (get_event_pointer s.mtdp.argbuf argbuf (nr - i - 1)) ≠ T
    · rw [if_pos h]
      exact hinv
    · rw [if_neg h]
      obtain ⟨_, k2, _⟩ := emit_event_keeps c s
        (event_at s.mtdp.argbuf (get_event_pointer s.mtdp.argbuf argbuf (nr - i - 1)))
      apply ih
      · exact record_event_cursor c hc hcap (s.alloc 0) s.mtdp _ hinv
          (hev i (le_refl _) (by omega))
      · intro j h1 h2
        rw [k2]
        exact hev j (by omega) (by omega)

theorem attached_events_mem (m : Mem) (base n i : Nat) (h : i < n) :
    event_at m (get_event_pointer m base (n - i - 1)) ∈ attached_events m base n := by
  unfold attached_events
  exact List.mem_map.2 ⟨i, List.mem_range.2 h, rfl⟩

theorem flush_before_record_cursor (c : Config) (hc : c.wf) (hcap : maxsize c % 8 = 0)
    (s : record_state) (type ri T : Nat) (hinv : cursor_aligned c s.mtdp)
    (hq : ∀ e ∈ s.mtdp.event, event_size (e.dsize % 2 ^ 16) + 16 ≤ maxsize c)
    (hatt : ∀ e ∈ attached_events s.mtdp.argbuf
        (get_argbuf c ri + (s.rstack.getD ri no_frame).event_idx)
        (s.rstack.getD ri no_frame).nr_events,
      event_size (e.dsize % 2 ^ 16) + 16 ≤ maxsize c) :
    cursor_aligned c (flush_before_record c s type ri T).mtdp := by
  have h1 := flush_async_cursor c hc hcap T s.mtdp.event s hinv hq
  obtain ⟨_, a2, _⟩ := flush_async_keeps c T s.mtdp.event s
  unfold flush_before_record
  dsimp only
  split_ifs with h
  · exact flush_exit_fold_cursor c hc hcap _ _ T (List.range _) _ h1
      (fun i hi => by
        rw [a2]
        exact hatt _ (attached_events_mem _ _ _ _ (List.mem_range.1 hi)))
  · exact h1

theorem flush_before_record_rstack (c : Config) (s : record_state) (type ri T : Nat)
    (h : type ≠ c.UFTRACE_EXIT) : (flush_before_record c s type ri T).rstack = s.rstack := by
  unfold flush_before_record
  dsimp only
  rw [if_neg (fun h' => h h'.1)]
  exact (flush_async_keeps c T s.mtdp.event s).1

theorem write_frame_cursor (T w : Nat) (ab : Bool) (args : Nat → Nat) (asize cap : Nat)
    (b : mcount_shmem_buffer) (hcap : cap % 8 = 0) (hlt : cap < 2 ^ 31) (hb : b.size % 8 = 0)
    (hroom : b.size + (sizeof_uftrace_record + (if ab then asize else 0)) ≤ cap) :
    (write_frame T w ab args asize b).size % 8 = 0 ∧
      (write_frame T w ab args asize b).size ≤ cap := by
  unfold write_frame
  unfold sizeof_uftrace_record ALIGN at *
  cases ab with
  | true =>
    simp only [↓reduceIte] at hroom ⊢
    omega
  | false =>
    simp only [Bool.false_eq_true, ↓reduceIte] at hroom ⊢
    omega

theorem record_ret_stack_cursor (c : Config) (hc : c.wf) (hcap : maxsize c % 8 = 0)
    (s : record_state) (type ri : Nat) (hinv : cursor_aligned c s.mtdp)
    (hreq : sizeof_uftrace_record +
      (if has_argbuf c type (s.rstack.getD ri no_frame).flags then
        ld32 s.mtdp.argbuf (get_argbuf c ri) else 0) + 16 ≤ maxsize c)
    (hq : ∀ e ∈ s.mtdp.event, event_size (e.dsize % 2 ^ 16) + 16 ≤ maxsize c)
    (hatt : ∀ e ∈ attached_events s.mtdp.argbuf
        (get_argbuf c ri + (s.rstack.getD ri no_frame).event_idx)
        (s.rstack.getD ri no_frame).nr_events,
      event_size (e.dsize % 2 ^ 16) + 16 ≤ maxsize c) :
    cursor_aligned c (record_ret_stack c s type ri).1.mtdp := by
  have hm := maxsize_lt c hc
  unfold record_ret_stack
  dsimp only
  generalize (if type = c.UFTRACE_EXIT then (s.rstack.getD ri no_frame).end_time
    else (s.rstack.getD ri no_frame).start_time) = T
  have b0 := flush_before_record_cursor c hc hcap s type ri T hinv hq hatt
  have br := flush_before_record_rstack c s type ri T
  obtain ⟨_, _, ⟨ne, b3⟩, b4, _⟩ := flush_before_record_keeps c s type ri T
  generalize flush_before_record c s type ri T = s2 at b0 br b3 b4
  have hfl : (s2.rstack.getD ri no_frame).flags = (s.rstack.getD ri no_frame).flags := by
    rw [b3]
  rw [hfl, b4]
  generalize hasz : (if has_argbuf c type (s.rstack.getD ri no_frame).flags = true then
    ld32 s.mtdp.argbuf (get_argbuf c ri) else 0) = asize at hreq ⊢
  obtain ⟨k1, k2⟩ := get_shmem_buffer_cursor c hc (s2.alloc 0) s2.mtdp
    (sizeof_uftrace_record + asize) b0 hreq
  obtain ⟨g1, _, _⟩ := get_shmem_buffer_keeps c (s2.alloc 0) s2.mtdp
    (sizeof_uftrace_record + asize)
  generalize get_shmem_buffer c (s2.alloc 0) s2.mtdp (sizeof_uftrace_record + asize) = g
    at k1 k2 g1
  obtain ⟨m1, o⟩ := g
  cases o with
  | none => exact k2 m1 rfl
  | some i =>
    obtain ⟨a1, a2, a3, a4⟩ := k1 m1 i rfl
    dsimp only
    have h3 : cursor_aligned c (store_frame_record c s2 m1 i type ri T).mtdp := by
      right
      unfold store_frame_record
      dsimp only
      rw [a1, hfl, b4, hasz]
      simp only [Int.toNat_ofNat, mcount_shmem.nr_buf, update_buffer_length]
      rw [update_buffer_getD _ _ _ a2]
      have hw := write_frame_cursor T
        (ret_stack_rec c type (has_argbuf c type (s.rstack.getD ri no_frame).flags)
          (s2.rstack.getD ri no_frame).depth (s2.rstack.getD ri no_frame).child_ip)
        (has_argbuf c type (s.rstack.getD ri no_frame).flags)
        (fun k => m1.argbuf (get_argbuf c ri + 4 + k)) asize (maxsize c)
        (m1.shmem.buffer.getD i fresh_shmem_buffer) hcap hm a3
        (by
          have : (if has_argbuf c type (s.rstack.getD ri no_frame).flags = true then asize
              else 0) ≤ asize := by
            split_ifs <;> omega
          omega)
      exact ⟨by omega, a2, hw.1, hw.2⟩
    by_cases hp : (s2.rstack.getD ri no_frame).nr_events ≠ 0 ∧ type = c.UFTRACE_ENTRY
    · rw [if_pos hp]
      have hte : type ≠ c.UFTRACE_EXIT := by
        rw [hp.2]
        exact hc.ty_ne
      have hf2 : s2.rstack.getD ri no_frame = s.rstack.getD ri no_frame := by
        rw [br hte]
      rw [hf2]
      apply flush_entry_events_cursor c hc hcap _ _ T _ 0 _ h3
      intro j _ hj
      have harg : (store_frame_record c s2 m1 i type ri T).mtdp.argbuf = s.mtdp.argbuf :=
        g1.trans b4
      rw [harg]
      exact hatt _ (attached_events_mem _ _ _ _ (by omega))
    · rw [if_neg hp]
      exact h3

theorem prepare_cursor_aligned (c : Config) (mtdp : mcount_thread_data) :
    cursor_aligned c (prepare_shmem_buffer c mtdp) := by
  right
  refine ⟨?_, ?_, rfl, ?_⟩
  · show (0 : Int) ≤ 0
    exact le_refl _
  · show (0 : Int).toNat < 2
    decide
  · show 0 ≤ maxsize c
    omega

/-- C21: when the capacity of a segment is a multiple of 8 and the cursor invariant holds
(no active segment, or the cursor of the active segment is a multiple of 8 and at most
the capacity), it holds again after `record_event` for an event whose record is at most
the capacity minus 16, and after `record_ret_stack` when the frame record it asks for
(16 bytes plus the argument size stamped in the slot) and the records of the queued and
of the attached events are at most the capacity minus 16.  This covers the rotation to
a segment that starts with a LOST record and the rounding of the argument size up to
8. -/
theorem cursor_stays_aligned (c : Config) (hc : c.wf) (hcap : maxsize c % 8 = 0)
    (alloc : Bool) (mtdp : mcount_thread_data) (event : mcount_event)
    (hinv1 : cursor_aligned c mtdp)
    (hreq1 : event_size (event.dsize % 2 ^ 16) + 16 ≤ maxsize c)
    (s : record_state) (type ri : Nat) (hinv2 : cursor_aligned c s.mtdp)
    (hreq2 : sizeof_uftrace_record +
      (if has_argbuf c type (s.rstack.getD ri no_frame).flags then
        ld32 s.mtdp.argbuf (get_argbuf c ri) else 0) + 16 ≤ maxsize c)
    (hq : ∀ e ∈ s.mtdp.event, event_size (e.dsize % 2 ^ 16) + 16 ≤ maxsize c)
    (hatt : ∀ e ∈ attached_events s.mtdp.argbuf
        (get_argbuf c ri + (s.rstack.getD ri no_frame).event_idx)
        (s.rstack.getD ri no_frame).nr_events,
      event_size (e.dsize % 2 ^ 16) + 16 ≤ maxsize c) :
    cursor_aligned c (record_event c alloc mtdp event).1 ∧
      cursor_aligned c (record_ret_stack c s type ri).1.mtdp :=
  ⟨record_event_cursor c hc hcap alloc mtdp event hinv1 hreq1,
    record_ret_stack_cursor c hc hcap s type ri hinv2 hreq2 hq hatt⟩

set_option maxRecDepth 1000000 in
/-- Witness of `cursor_stays_aligned`, with 128 KiB segments: `record_event` for
`sample_event` on `lost_pool`, which rotates to a new segment that starts with a LOST
record (the cursor ends at 16 + 24 = 40), and the ENTRY record of the frame of
`two_reads_state` with its two attached events. -/
theorem cursor_stays_aligned_witness :
    wide_config.wf ∧ maxsize wide_config % 8 = 0 ∧
    cursor_aligned wide_config lost_pool ∧
    event_size (sample_event.dsize % 2 ^ 16) + 16 ≤ maxsize wide_config ∧
    cursor_aligned wide_config two_reads_state.mtdp ∧
    sizeof_uftrace_record +
      (if has_argbuf wide_config wide_config.UFTRACE_ENTRY
          (two_reads_state.rstack.getD 0 no_frame).flags then
        ld32 two_reads_state.mtdp.argbuf (get_argbuf wide_config 0) else 0) + 16
      ≤ maxsize wide_config ∧
    (∀ e ∈ two_reads_state.mtdp.event,
      event_size (e.dsize % 2 ^ 16) + 16 ≤ maxsize wide_config) ∧
    (∀ e ∈ attached_events two_reads_state.mtdp.argbuf
        (get_argbuf wide_config 0 + (two_reads_state.rstack.getD 0 no_frame).event_idx)
        (two_reads_state.rstack.getD 0 no_frame).nr_events,
      event_size (e.dsize % 2 ^ 16) + 16 ≤ maxsize wide_config) ∧
    (cursor_aligned wide_config (record_event wide_config true lost_pool sample_event).1 ∧
      cursor_aligned wide_config
        (record_ret_stack wide_config two_reads_state wide_config.UFTRACE_ENTRY 0).1.mtdp) ∧
    (record_event wide_config true lost_pool sample_event).1.shmem.curr = 2 ∧
    (record_event wide_config true lost_pool sample_event).1.shmem.buffer.map
      mcount_shmem_buffer.size = [32, 32, 40] :=
  have h1 : cursor_aligned wide_config lost_pool := by decide
  have h2 : cursor_aligned wide_config two_reads_state.mtdp := by decide
  have h3 : ∀ e ∈ two_reads_state.mtdp.event,
      event_size (e.dsize % 2 ^ 16) + 16 ≤ maxsize wide_config := by decide
  have h4 : ∀ e ∈ attached_events two_reads_state.mtdp.argbuf
        (get_argbuf wide_config 0 + (two_reads_state.rstack.getD 0 no_frame).event_idx)
        (two_reads_state.rstack.getD 0 no_frame).nr_events,
      event_size (e.dsize % 2 ^ 16) + 16 ≤ maxsize wide_config := by decide
  ⟨wide_config_wf, by decide, h1, by decide, h2, by decide, h3, h4,
    cursor_stays_aligned wide_config wide_config_wf (by decide) true lost_pool sample_event h1
      (by decide) two_reads_state wide_config.UFTRACE_ENTRY 0 h2 (by decide) h3 h4,
    by decide, by decide⟩

end Uftrace
